import Mathlib

/-!
Verification of the k8s-topology-simulator core (googleinterns/k8s-topology-simulator).

Shallow embedding conventions:
* Go `int` is modelled as `ℤ` (no overflow is relevant at the scales involved).
* Go `float64` is modelled as `ℚ` (exact arithmetic).  Division by zero in `ℚ`
  yields `0` where Go would yield `±Inf`/`NaN`; every place where this matters
  for a concrete evaluation is kept away from such inputs, and branch decisions
  on such values never influence the invariants proved here (noted inline).
* Go maps are modelled as association lists (`SMap`) whose iteration order is
  the insertion order; where the source sorts zone names before iterating we do
  the same, and where the source iterates a map directly we iterate the list.
* Go `math.Sqrt` has no exact counterpart in `ℚ`; the simulator embedding keeps
  the radicand (field `deviationSDSquared`).  `Real.sqrt` is monotone and zero
  exactly on nonpositive arguments, so zero-ness statements transfer.
* A Go runtime panic (write to a nil map, index out of range, pop of an empty
  heap) and exhaustion of the recursion fuel are both modelled as `none`:
  in either case the source program returns no slice-group map.
-/

namespace KTS

/-! ## Association-list maps standing for Go maps (string keys) -/

/-- Association list standing for a Go `map[string]α`.  Keys are unique in any
map built by the operations below starting from `[]`. -/
abbrev SMap (α : Type) : Type := List (String × α)

namespace SMap

/-- Lookup of a key, `none` when absent. -/
def find? {α : Type} : SMap α → String → Option α
  | [], _ => none
  | (k', v) :: rest, k => if k' = k then some v else find? rest k

/-- Go map read `m[k]`: the zero value `d` is produced for an absent key. -/
def getD {α : Type} (m : SMap α) (k : String) (d : α) : α :=
  (SMap.find? m k).getD d

/-- Go map write `m[k] = v`: replace the binding in place, or append. -/
def insert {α : Type} : SMap α → String → α → SMap α
  | [], k, v => [(k, v)]
  | (k', v') :: rest, k, v =>
      if k' = k then (k, v) :: rest else (k', v') :: insert rest k v

/-- Go `delete(m, k)`: removes the (unique) binding of `k`. -/
def erase {α : Type} : SMap α → String → SMap α
  | [], _ => []
  | (k', v') :: rest, k => if k' = k then rest else (k', v') :: erase rest k

/-- Keys in iteration order. -/
def keys {α : Type} (m : SMap α) : List String :=
  m.map Prod.fst

/-- Membership test for a key. -/
def contains {α : Type} (m : SMap α) (k : String) : Bool :=
  (SMap.find? m k).isSome

end SMap

/-! ## Data model (modeling/types, file part_000 / types.go) -/

/-- Zone abstracts the conception of a zone in clouds. -/
structure Zone where
  nodes : ℤ
  endpoints : ℤ
  name : String
  endpointsRatio : ℚ
  nodesRatio : ℚ
deriving DecidableEq, Repr

instance : Inhabited Zone := ⟨⟨0, 0, "", 0, 0⟩⟩

/-- WeightedEndpoints are used to do routing inside an EndpointSliceGroup. -/
structure WeightedEndpoints where
  number : ℤ
  weight : ℚ
deriving DecidableEq, Repr

instance : Inhabited WeightedEndpoints := ⟨⟨0, 0⟩⟩

/-- EndpointSliceGroup represents all the EndpointSlices under a same label. -/
structure EndpointSliceGroup where
  label : String
  composition : SMap WeightedEndpoints
  zoneTrafficWeights : SMap ℚ
deriving DecidableEq, Repr

/-- The Go zero value of `EndpointSliceGroup` (nil maps). -/
instance : Inhabited EndpointSliceGroup := ⟨⟨"", [], []⟩⟩

/-- RegionInfo wraps information of zones in a region. -/
structure RegionInfo where
  totalNodes : ℤ
  totalEndpoints : ℤ
  zoneDetails : SMap Zone
deriving DecidableEq, Repr

/-- NumberOfEndpoints calculates number of endpoints of a specific
EndpointSliceGroup. -/
def EndpointSliceGroup.NumberOfEndpoints (e : EndpointSliceGroup) : ℤ :=
  (e.composition.map (fun p => p.2.number)).sum

/-- NumberOfWeightedEndpoints calculates weighted number of endpoints of a
specific EndpointSliceGroup. -/
def EndpointSliceGroup.NumberOfWeightedEndpoints (e : EndpointSliceGroup) : ℚ :=
  (e.composition.map (fun p => (p.2.number : ℚ) * p.2.weight)).sum

/-- The map of slice groups every algorithm produces. -/
abbrev SGMap : Type := SMap EndpointSliceGroup

/-- Read `sliceGroups[label]` (Go zero value on a missing key). -/
def sgGet (sgs : SGMap) (label : String) : EndpointSliceGroup :=
  SMap.getD sgs label default

/-- Sum of `composition[zone].number` over all slice groups of the map: the
quantity the endpoint-conservation property is about. -/
def zoneTotalEndpoints (sgs : SGMap) (zone : String) : ℤ :=
  (sgs.map (fun p => ((SMap.getD p.2.composition zone default).number))).sum

/-- Ratio population of the second CreateRegionInfo loop (lines 156-168). -/
def enrichZone (totalEndpoints totalNodes : ℤ) (z : Zone) : Zone :=
  { z with
    endpointsRatio := if totalEndpoints = 0 then 0 else (z.endpoints : ℚ) / (totalEndpoints : ℚ)
    nodesRatio := if totalNodes = 0 then 0 else (z.nodes : ℚ) / (totalNodes : ℚ) }

/-- CreateRegionInfo creates regionInfo with zone infos.  The source
accumulates totals and returns on the first zone with a negative count; the
observable behaviour (error, or totals over all zones plus ratio-enriched
details keyed by name, later duplicates overwriting earlier ones) is embedded
directly. -/
def CreateRegionInfo (zones : List Zone) : Except String RegionInfo :=
  if zones.length = 0 then
    .error "creating zoneinfos with zero length []Zone"
  else if zones.any (fun z => z.endpoints < 0 || z.nodes < 0) then
    .error "invalid zones with number of nodes or endpoints < 0"
  else
    let totalEndpoints : ℤ := (zones.map Zone.endpoints).sum
    let totalNodes : ℤ := (zones.map Zone.nodes).sum
    let details : SMap Zone := zones.foldl
      (fun m z => SMap.insert m z.name (enrichZone totalEndpoints totalNodes z)) []
    .ok { totalNodes := totalNodes, totalEndpoints := totalEndpoints, zoneDetails := details }

/-! ## Helpers (modeling/algorithm/utils.go) -/

/-- endpointDeviation stores the deviation between expected number of endpoints
and actual number of endpoints of a zone. -/
structure endpointDeviation where
  name : String
  deviation : ℤ
  weight : ℚ
  consumeByLocal : Bool
deriving DecidableEq, Repr

instance : Inhabited endpointDeviation := ⟨⟨"", 0, 0, false⟩⟩

/-- endpointsList maintains the order of the endpoints available/needed, used
as a list (field `byZone`). -/
abbrev endpointsList : Type := List endpointDeviation

/-- push to back -/
def endpointsList.push (el : endpointsList) (newValue : endpointDeviation) : endpointsList :=
  el ++ [newValue]

/-- push to front -/
def endpointsList.pushFront (el : endpointsList) (newValue : endpointDeviation) : endpointsList :=
  newValue :: el

/-- pop the front -/
def endpointsList.pop (el : endpointsList) : endpointsList :=
  match el with
  | [] => []
  | _ :: rest => rest

/-- sortZoneByNames sorts the map by keys and returns an array of the sorted
zoneNames.  It helps traverse the map with a deterministic order. -/
def sortZoneByNames (zones : SMap Zone) : List String :=
  (SMap.keys zones).mergeSort (fun a b => a ≤ b)

/-- Ordering helper of ZonePriorityQueue (utils.go, method `less`), reading the
zone names at positions `i` and `j` of `names`.  Division by zero (a slice
group holding exactly one endpoint on the give-out side) yields `0` in `ℚ`
where Go yields `±Inf`; this only influences which element a heap pop returns,
never the transfer bookkeeping the theorems below are about. -/
def pqLessHelper (region : RegionInfo) (sgs : SGMap) (receiveEndpoint : Bool)
    (names : List String) (i j : ℕ) : Bool :=
  let zoneA := names.getD i ""
  let zoneB := names.getD j ""
  if (sgGet sgs zoneA).NumberOfEndpoints = 0 then false
  else if (sgGet sgs zoneB).NumberOfEndpoints = 0 then true
  else if receiveEndpoint then
    decide ((SMap.getD region.zoneDetails zoneA default).nodesRatio / ((sgGet sgs zoneA).NumberOfEndpoints : ℚ) <
      (SMap.getD region.zoneDetails zoneB default).nodesRatio / ((sgGet sgs zoneB).NumberOfEndpoints : ℚ))
  else
    decide ((SMap.getD region.zoneDetails zoneA default).nodesRatio / (((sgGet sgs zoneA).NumberOfEndpoints - 1 : ℤ) : ℚ) <
      (SMap.getD region.zoneDetails zoneB default).nodesRatio / (((sgGet sgs zoneB).NumberOfEndpoints - 1 : ℤ) : ℚ))

/-- ZonePriorityQueue.Less: `less i j` when the queue gives out endpoints,
`less j i` when it receives. -/
def pqLess (region : RegionInfo) (sgs : SGMap) (receiveEndpoint : Bool)
    (names : List String) (i j : ℕ) : Bool :=
  if !receiveEndpoint then pqLessHelper region sgs receiveEndpoint names i j
  else pqLessHelper region sgs receiveEndpoint names j i

/-- Swap of two positions of the name slice (ZonePriorityQueue.Swap). -/
def listSwap (names : List String) (i j : ℕ) : List String :=
  let vi := names.getD i ""
  let vj := names.getD j ""
  (names.set i vj).set j vi

/-- container/heap `down` for the zone priority queue; the structural fuel is
the list length, which bounds the number of descents. -/
def heapDown (less : List String → ℕ → ℕ → Bool) :
    ℕ → List String → ℕ → ℕ → List String
  | 0, names, _, _ => names
  | fuel + 1, names, i, n =>
      let j1 := 2 * i + 1
      if j1 ≥ n then names
      else
        let j2 := j1 + 1
        let j := if j2 < n && less names j2 j1 then j2 else j1
        if !less names j i then names
        else heapDown less fuel (listSwap names i j) j n

/-- container/heap `up`. -/
def heapUp (less : List String → ℕ → ℕ → Bool) :
    ℕ → List String → ℕ → List String
  | 0, names, _ => names
  | fuel + 1, names, j =>
      if j = 0 then names
      else
        let i := (j - 1) / 2
        if !less names j i then names
        else heapUp less fuel (listSwap names i j) i

/-- container/heap `Init`: sift down every internal node, last first. -/
def heapInit (less : List String → ℕ → ℕ → Bool) (names : List String) : List String :=
  let n := names.length
  (List.range (n / 2)).reverse.foldl (fun ns i => heapDown less ns.length ns i n) names

/-- container/heap `Push`. -/
def heapPush (less : List String → ℕ → ℕ → Bool) (names : List String) (x : String) : List String :=
  let ns := names ++ [x]
  heapUp less ns.length ns (ns.length - 1)

/-- container/heap `Pop`: swap the root with the last element, sift down, then
remove the last element.  Popping an empty queue panics in Go (`none`). -/
def heapPop (less : List String → ℕ → ℕ → Bool) (names : List String) :
    Option (String × List String) :=
  if names.length = 0 then none
  else
    let n := names.length - 1
    let ns := heapDown less names.length (listSwap names 0 n) 0 n
    some (ns.getD n "", ns.take n)

/-- helper function to update composition in ESG (updateSGComposition).  When
the label is absent the Go source writes into the nil `Composition` map of the
zero-value group and panics: `none`. -/
def updateSGComposition (sgs : SGMap) (label zone : String) (delta : ℤ) (weight : ℚ) :
    Option SGMap :=
  match SMap.find? sgs label with
  | none => none
  | some g =>
      let weightedComp := SMap.getD g.composition zone default
      some (SMap.insert sgs label
        { g with composition :=
            SMap.insert g.composition zone ⟨weightedComp.number + delta, weight⟩ })

/-- helper function help calculate the deviation between locally owned
endpoints and expected endpoints (getEndpointsDeviation). -/
def getEndpointsDeviation (region : RegionInfo) (sgs : SGMap) (zone : String) :
    Option ℚ :=
  let expectedEndpoints := (region.totalEndpoints : ℚ) * (SMap.getD region.zoneDetails zone default).nodesRatio
  match SMap.find? sgs zone with
  | none => none
  | some sliceGroup =>
      some (((SMap.getD sliceGroup.composition zone default).number : ℚ) - expectedEndpoints)

/-- assignEndpoints helps distribute endpoints from rich zones to poor zones in
local based algorithms.  The Go loop keeps `index` at 0 (it either breaks or
pops the front), so it is structural recursion on the available list.  The
result carries the final receiver record, available list and slice groups;
writing through a receiver label that is absent from the map would write into
a nil map in Go (panic), modelled as `none`. -/
def assignEndpoints (receiveZone : endpointDeviation) (endpointsAvailable : endpointsList)
    (sliceGroups : SGMap) : Option (endpointDeviation × endpointsList × SGMap) :=
  match endpointsAvailable with
  | [] => some (receiveZone, [], sliceGroups)
  | sendZone :: rest =>
      match SMap.find? sliceGroups receiveZone.name with
      | none => none
      | some receiverGroup =>
          let writeNumber := fun (n : ℤ) =>
            SMap.insert sliceGroups receiveZone.name
              { receiverGroup with
                composition := SMap.insert receiverGroup.composition sendZone.name ⟨n, 1⟩ }
          if sendZone.deviation = receiveZone.deviation then
            some (⟨receiveZone.name, 0, receiveZone.weight, receiveZone.consumeByLocal⟩, rest,
              writeNumber sendZone.deviation)
          else if sendZone.deviation > receiveZone.deviation then
            some (⟨receiveZone.name, 0, receiveZone.weight, receiveZone.consumeByLocal⟩,
              ⟨sendZone.name, sendZone.deviation - receiveZone.deviation, sendZone.weight, sendZone.consumeByLocal⟩ :: rest,
              writeNumber receiveZone.deviation)
          else
            assignEndpoints
              ⟨receiveZone.name, receiveZone.deviation - sendZone.deviation, receiveZone.weight, receiveZone.consumeByLocal⟩
              rest
              (writeNumber sendZone.deviation)

/-! ## Original algorithm (original-algorithm.go, part_009) -/

/-- OriginalAlgorithm.CreateSliceGroups puts all endpoints into a global
EndpointSliceGroup.  The nil-zone-details check of the source is modelled as
an emptiness check (CreateRegionInfo never produces an empty non-nil map). -/
def OriginalCreateSliceGroups (region : RegionInfo) : Except String SGMap :=
  if region.zoneDetails = [] then
    .error "zoneDetail should not be nil"
  else
    let globalSG : EndpointSliceGroup :=
      region.zoneDetails.foldl
        (fun g p =>
          { g with
            zoneTrafficWeights := SMap.insert g.zoneTrafficWeights p.1 1
            composition := SMap.insert g.composition p.1 ⟨p.2.endpoints, 1⟩ })
        ⟨"global", [], []⟩
    .ok (SMap.insert ([] : SGMap) "global" globalSG)

/-! ## Shared-Global core (modeling/algorithm/shared-global-algorithm-core.go) -/

/-- SharedGlobalAlgorithmCore holds the weight and threshold of the global
EndpointSliceGroup. -/
structure SharedGlobalAlgorithmCore where
  globalWeight : ℚ
  globalThreshold : ℤ
deriving DecidableEq, Repr

/-- Go `int(x)` on a float: truncation toward zero. -/
def goTrunc (q : ℚ) : ℤ :=
  if q ≥ 0 then ⌊q⌋ else -⌊-q⌋

/-- The deviation map of SharedGlobalAlgorithmCore.CreateSliceGroups (lines
51-56), as a function of the zone name. -/
def sharedGlobalDeviation (region : RegionInfo) (name : String) : ℚ :=
  ((SMap.getD region.zoneDetails name default).endpoints : ℚ) -
    (region.totalEndpoints : ℚ) * (SMap.getD region.zoneDetails name default).nodesRatio

/-- The per-zone contribution to the global slice group (line 71). -/
def sharedGlobalNumber (alg : SharedGlobalAlgorithmCore) (region : RegionInfo)
    (name : String) (zone : Zone) : ℤ :=
  goTrunc (min (max 0 (sharedGlobalDeviation region name) / alg.globalWeight)
    ((zone.endpoints : ℚ)))

/-- One iteration of the zone loop of SharedGlobalAlgorithmCore (lines
65-89): extend the global group and store the local group. -/
def sharedGlobalStep (alg : SharedGlobalAlgorithmCore) (region : RegionInfo)
    (excludeContributor : Bool) (acc : EndpointSliceGroup × SGMap)
    (p : String × Zone) : EndpointSliceGroup × SGMap :=
  let name := p.1
  let zone := p.2
  let globalNumber := sharedGlobalNumber alg region name zone
  let globalSliceGroup :=
    { acc.1 with
      composition := SMap.insert acc.1.composition name ⟨globalNumber, 1⟩
      zoneTrafficWeights := SMap.insert acc.1.zoneTrafficWeights name
        (if excludeContributor && globalNumber ≠ 0 && zone.endpoints - globalNumber ≠ 0 then 0
         else alg.globalWeight) }
  let localGroup : EndpointSliceGroup :=
    { label := name
      composition := SMap.insert ([] : SMap WeightedEndpoints) name ⟨zone.endpoints - globalNumber, 1⟩
      zoneTrafficWeights := SMap.insert ([] : SMap ℚ) name 1 }
  (globalSliceGroup, SMap.insert acc.2 name localGroup)

/-- SharedGlobalAlgorithmCore.CreateSliceGroups.  Iteration over the zone map
follows the association-list order (Go iterates the map in unspecified order;
the output does not depend on it). -/
def SharedGlobalCoreCreateSliceGroups (alg : SharedGlobalAlgorithmCore)
    (region : RegionInfo) (excludeContributor : Bool) : Except String SGMap :=
  if region.zoneDetails = [] then
    .error "cannot create EndpointSlices without zones specified"
  else if region.totalEndpoints ≤ alg.globalThreshold then
    OriginalCreateSliceGroups region
  else
    let res := region.zoneDetails.foldl (sharedGlobalStep alg region excludeContributor)
      (⟨"global", [], []⟩, ([] : SGMap))
    .ok (SMap.insert res.2 "global" res.1)

/-- SharedGlobalAlgorithm wraps the core with `excludeContributor = false`. -/
def SharedGlobalCreateSliceGroups (alg : SharedGlobalAlgorithmCore)
    (region : RegionInfo) : Except String SGMap :=
  SharedGlobalCoreCreateSliceGroups alg region false

/-- SharedMultiZoneAlgorithm wraps the core with `excludeContributor = true`. -/
def SharedMultiZoneCreateSliceGroups (alg : SharedGlobalAlgorithmCore)
    (region : RegionInfo) : Except String SGMap :=
  SharedGlobalCoreCreateSliceGroups alg region true

/-! ## Theoretical simulator (modeling/simulator/theoretical-simulator.go) -/

/-- EndpointsTraffic stores traffic load details of endpoints in a zone. -/
structure EndpointsTraffic where
  endpointsTrafficLoad : SMap ℚ
  endpointsTrafficLoadDeviation : SMap ℚ
  maxDeviationSG : String
  meanDeviation : ℚ
deriving DecidableEq, Repr

/-- ZoneTraffic records the detailed traffic information of a zone. -/
structure ZoneTraffic where
  zoneName : String
  incoming : ℚ
  outgoing : SMap ℚ
  trafficLoad : ℚ
  zoneTrafficDetail : EndpointsTraffic
deriving DecidableEq, Repr

/-- SimulationResult collects metrics of a simulation result.  The source
never assigns the `Invalid` field, so it keeps its zero value `false`.  The
field `deviationSDSquared` holds the radicand of the `math.Sqrt` call of the
source (see the header note). -/
structure SimulationResult where
  invalid : Bool
  inZoneTraffic : ℚ
  trafficDistribution : SMap ZoneTraffic
  maxDeviation : ℚ
  meanDeviation : ℚ
  deviationSDSquared : ℚ
deriving DecidableEq, Repr

/-- Per-zone detailed traffic info (struct sliceGroupDetails). -/
structure sliceGroupDetails where
  zoneReachableEndpoints : SMap ℚ
  zoneReachableEndpointsAll : ℚ
  zoneTrafficRatio : SMap ℚ
  endpointsTrafficLoad : SMap ℚ
  endpointsTrafficLoadDeviation : SMap ℚ
deriving DecidableEq, Repr

instance : Inhabited sliceGroupDetails := ⟨⟨[], 0, [], [], []⟩⟩

/-- zoneSGDetails maps zone to its detailed traffic info. -/
abbrev zoneSGDetails : Type := SMap sliceGroupDetails

/-- getReachableEndpoints for one zone: reachable endpoints per slice group and
their total. -/
def getReachableEndpointsZone (endpointSlices : SGMap) (zone : String) :
    SMap ℚ × ℚ :=
  endpointSlices.foldl
    (fun acc p =>
      let reach := ((p.2.NumberOfEndpoints : ℚ)) * SMap.getD p.2.zoneTrafficWeights zone 0
      (SMap.insert acc.1 p.1 reach, acc.2 + reach))
    ([], 0)

/-- getTraffic for one zone: traffic ratio of the zone to each slice group;
the map stays empty when no endpoint is reachable (the zero-total guard). -/
def getTrafficZone (reach : SMap ℚ) (reachAll : ℚ) : SMap ℚ :=
  if reachAll = 0 then []
  else reach.foldl (fun acc p => SMap.insert acc p.1 (p.2 / reachAll)) []

/-- The first three simulator passes fused per zone: reachable endpoints and
traffic ratios for every zone of the region (map iteration follows list
order). -/
def buildZoneDetails (region : RegionInfo) (endpointSlices : SGMap) : zoneSGDetails :=
  region.zoneDetails.foldl
    (fun zd p =>
      let r := getReachableEndpointsZone endpointSlices p.1
      SMap.insert zd p.1
        { zoneReachableEndpoints := r.1
          zoneReachableEndpointsAll := r.2
          zoneTrafficRatio := getTrafficZone r.1 r.2
          endpointsTrafficLoad := []
          endpointsTrafficLoadDeviation := [] })
    []

/-- Total ratio of traffic received by each EndpointSliceGroup
(map `sgTrafficRatio` of getEndpointsTrafficLoadDetails). -/
def sgTrafficRatio (region : RegionInfo) (zd : zoneSGDetails) : SMap ℚ :=
  region.zoneDetails.foldl
    (fun acc p =>
      (SMap.getD zd p.1 default).zoneTrafficRatio.foldl
        (fun acc2 q => SMap.insert acc2 q.1 (SMap.getD acc2 q.1 0 + p.2.nodesRatio * q.2))
        acc)
    []

/-- getEndpointsTrafficLoadDetails: per-endpoint traffic load and deviation of
every zone in every slice group.  In `ℚ` the theoretical load `1/total` is `0`
when the region has no endpoints (Go: `+Inf`); in that case every computed
deviation is `load/0 - 1 = -1` in `ℚ` and `load/Inf - 1 = -1` in Go alike. -/
def getEndpointsTrafficLoadDetails (region : RegionInfo) (endpointSlices : SGMap)
    (zd : zoneSGDetails) : zoneSGDetails :=
  let sgTR := sgTrafficRatio region zd
  let theoreticalTrafficLoad : ℚ := 1 / (region.totalEndpoints : ℚ)
  zd.map (fun zp =>
    let zone := zp.1
    let res := endpointSlices.foldl
      (fun (acc : SMap ℚ × SMap ℚ) p =>
        let sliceGroup := p.2
        if (SMap.getD sliceGroup.composition zone default).number = 0 ∨
            sliceGroup.NumberOfWeightedEndpoints = 0 then acc
        else
          let zoneRatioInSG :=
            ((SMap.getD sliceGroup.composition zone default).number : ℚ) *
              (SMap.getD sliceGroup.composition zone default).weight /
              sliceGroup.NumberOfWeightedEndpoints
          let trafficLoad := SMap.getD sgTR p.1 0 * zoneRatioInSG /
            ((SMap.getD sliceGroup.composition zone default).number : ℚ)
          (SMap.insert acc.1 p.1 trafficLoad,
            SMap.insert acc.2 p.1 (trafficLoad / theoreticalTrafficLoad - 1)))
      ([], [])
    (zone, { zp.2 with endpointsTrafficLoad := res.1, endpointsTrafficLoadDeviation := res.2 }))

/-- getZoneToZoneTraffic: traffic ratio from every zone to every zone. -/
def getZoneToZoneTraffic (region : RegionInfo) (endpointSlices : SGMap)
    (zd : zoneSGDetails) : SMap (SMap ℚ) :=
  region.zoneDetails.foldl
    (fun ztz op =>
      let oriZone := op.1
      let row := endpointSlices.foldl
        (fun row p =>
          if p.2.NumberOfWeightedEndpoints = 0 then row
          else
            region.zoneDetails.foldl
              (fun row dp =>
                let destZone := dp.1
                let desZoneRatioInSG :=
                  ((SMap.getD p.2.composition destZone default).number : ℚ) *
                    (SMap.getD p.2.composition destZone default).weight /
                    p.2.NumberOfWeightedEndpoints
                SMap.insert row destZone
                  (SMap.getD row destZone 0 +
                    op.2.nodesRatio * SMap.getD (SMap.getD zd oriZone default).zoneTrafficRatio p.1 0 *
                      desZoneRatioInSG))
              row)
        ([] : SMap ℚ)
      SMap.insert ztz oriZone row)
    []

/-- Per-zone folding step of getSimulationResult: accumulated in-zone traffic,
total deviation, max deviation, and the per-zone traffic records. -/
def getSimulationResult (zd : zoneSGDetails) (region : RegionInfo)
    (endpointSlices : SGMap) (zoneTrafficToZone : SMap (SMap ℚ)) : SimulationResult :=
  let acc := region.zoneDetails.foldl
    (fun (acc : ℚ × ℚ × ℚ × SMap ZoneTraffic) p =>
      let zoneName := p.1
      let zoneInfo := p.2
      let inZone := acc.1 + SMap.getD (SMap.getD zoneTrafficToZone zoneName []) zoneName 0
      let devFold := (SMap.getD zd zoneName default).endpointsTrafficLoadDeviation.foldl
        (fun (a : ℚ × ℚ × String) q =>
          let zoneDeviation := a.1 + |q.2| *
            ((SMap.getD (sgGet endpointSlices q.1).composition zoneName default).number : ℚ)
          if |q.2| > a.2.1 then (zoneDeviation, |q.2|, q.1) else (zoneDeviation, a.2.1, a.2.2))
        (0, 0, "")
      let zoneDeviation := devFold.1
      let zoneMaxDeviation := devFold.2.1
      let maxLabel := devFold.2.2
      let totalDeviation := acc.2.1 + zoneDeviation
      let maxDeviation := max zoneMaxDeviation acc.2.2.1
      let incoming := region.zoneDetails.foldl
        (fun inc q => inc + q.2.nodesRatio * SMap.getD (SMap.getD zoneTrafficToZone q.1 []) zoneName 0)
        0
      let traffic : ZoneTraffic :=
        { zoneName := zoneName
          incoming := incoming
          outgoing := SMap.getD zoneTrafficToZone zoneName []
          trafficLoad := incoming / zoneInfo.endpointsRatio
          zoneTrafficDetail :=
            { endpointsTrafficLoad := (SMap.getD zd zoneName default).endpointsTrafficLoad
              endpointsTrafficLoadDeviation := (SMap.getD zd zoneName default).endpointsTrafficLoadDeviation
              maxDeviationSG := maxLabel
              meanDeviation := zoneDeviation / (zoneInfo.endpoints : ℚ) } }
      (inZone, totalDeviation, maxDeviation, SMap.insert acc.2.2.2 zoneName traffic))
    (0, 0, 0, [])
  let meanDeviation := acc.2.1 / (region.totalEndpoints : ℚ)
  let squareSum := zd.foldl
    (fun s zp =>
      zp.2.endpointsTrafficLoadDeviation.foldl
        (fun s2 q =>
          s2 + (q.2 - meanDeviation) ^ 2 *
            ((SMap.getD (sgGet endpointSlices q.1).composition zp.1 default).number : ℚ))
        s)
    0
  { invalid := false
    inZoneTraffic := acc.1
    trafficDistribution := acc.2.2.2
    maxDeviation := acc.2.2.1
    meanDeviation := meanDeviation
    deviationSDSquared := squareSum / (region.totalEndpoints : ℚ) }

/-- TheoreticalSimulator.Simulate. -/
def Simulate (region : RegionInfo) (endpointSlices : SGMap) :
    Except String SimulationResult :=
  if region.zoneDetails.length = 0 ∨ endpointSlices.length = 0 then
    .error "cannot evaluate probability based on empty zones or endpointslices"
  else
    let zd := buildZoneDetails region endpointSlices
    let zd := getEndpointsTrafficLoadDetails region endpointSlices zd
    let zoneTrafficToZone := getZoneToZoneTraffic region endpointSlices zd
    .ok (getSimulationResult zd region endpointSlices zoneTrafficToZone)

/-! ## Local-Weighted algorithm (modeling/algorithm/local-weighted-slice-algorithm.go)

The source iterates `region.ZoneDetails` directly (Go map order is
unspecified); the embedding iterates the association list in its stored order.
No loop of this algorithm needs fuel: every loop either walks a snapshot of a
list or pops the front of a list. -/

/-- Per-zone initialisation of LocalWeightedSliceAlgorithm.CreateSliceGroups
(lines 50-96): local slice groups plus the four work lists. -/
def localWeightedSetup (region : RegionInfo) :
    SGMap × endpointsList × endpointsList × endpointsList × endpointsList :=
  region.zoneDetails.foldl
    (fun acc p =>
      let sliceGroups := acc.1
      let endpointsAvailable := acc.2.1
      let endpointsNeeded := acc.2.2.1
      let weightedEndpointsAvailable := acc.2.2.2.1
      let weightedEndpointsNeeded := acc.2.2.2.2
      let zoneName := p.1
      let zone := p.2
      let expectedEndpoints := zone.nodesRatio * (region.totalEndpoints : ℚ)
      let deviation := (zone.endpoints : ℚ) - expectedEndpoints
      let intDeviation := goTrunc deviation
      let compNumber : ℤ := if intDeviation < 0 then zone.endpoints else goTrunc expectedEndpoints
      let endpointsAvailable :=
        if intDeviation > 0 then endpointsAvailable.push ⟨zoneName, intDeviation, 0, false⟩
        else endpointsAvailable
      let endpointsNeeded :=
        if intDeviation < 0 then endpointsNeeded.push ⟨zoneName, -intDeviation, 0, false⟩
        else endpointsNeeded
      let localGroup : EndpointSliceGroup :=
        { label := zoneName
          composition := SMap.insert ([] : SMap WeightedEndpoints) zoneName ⟨compNumber, 1⟩
          zoneTrafficWeights := SMap.insert ([] : SMap ℚ) zoneName 1 }
      let sliceGroups := SMap.insert sliceGroups zoneName localGroup
      let decimalDeviation := deviation - (intDeviation : ℚ)
      let weightedEndpointsAvailable :=
        if decimalDeviation > 0 then
          weightedEndpointsAvailable.push ⟨zoneName, 1, 1 - decimalDeviation, true⟩
        else weightedEndpointsAvailable
      let weightedEndpointsNeeded :=
        if decimalDeviation < 0 then
          weightedEndpointsNeeded.push ⟨zoneName, 1, -decimalDeviation, false⟩
        else weightedEndpointsNeeded
      (sliceGroups, endpointsAvailable, endpointsNeeded, weightedEndpointsAvailable,
        weightedEndpointsNeeded))
    ([], [], [], [], [])

/-- Integer phase of LocalWeightedSliceAlgorithm.balanceSliceGroups (lines
106-145); the inner three-case loop is the inline copy of `assignEndpoints`.
Walks the snapshot of `endpointsNeeded`. -/
def localWeightedIntPhase :
    List endpointDeviation → endpointsList → endpointsList → SGMap →
    Option (endpointsList × endpointsList × SGMap)
  | [], endpointsAvailable, weightedEndpointsNeeded, sliceGroups =>
      some (endpointsAvailable, weightedEndpointsNeeded, sliceGroups)
  | receiveZone :: rest, endpointsAvailable, weightedEndpointsNeeded, sliceGroups =>
      if endpointsAvailable.length = 0 then
        localWeightedIntPhase rest endpointsAvailable
          (weightedEndpointsNeeded.push
            ⟨receiveZone.name, receiveZone.deviation, 1, receiveZone.consumeByLocal⟩)
          sliceGroups
      else
        match assignEndpoints receiveZone endpointsAvailable sliceGroups with
        | none => none
        | some (receiveZone, endpointsAvailable, sliceGroups) =>
            let weightedEndpointsNeeded :=
              if receiveZone.deviation ≠ 0 then
                weightedEndpointsNeeded.push
                  ⟨receiveZone.name, receiveZone.deviation, 1, receiveZone.consumeByLocal⟩
              else weightedEndpointsNeeded
            localWeightedIntPhase rest endpointsAvailable weightedEndpointsNeeded sliceGroups

/-- Inner loop of the weighted phase (lines 178-206): serve the needed list
with one available element `extra`; returns the final traffic-weight map,
label, and needed list. -/
def localWeightedServe (extra : endpointDeviation) :
    endpointsList → EndpointSliceGroup → EndpointSliceGroup × endpointsList
  | [], sharedSlice => (sharedSlice, [])
  | receiveZone :: rest, sharedSlice =>
      let deviation := (receiveZone.deviation : ℚ) * receiveZone.weight -
        (extra.deviation : ℚ) * extra.weight
      if deviation = 0 then
        ({ sharedSlice with
            zoneTrafficWeights := SMap.insert sharedSlice.zoneTrafficWeights receiveZone.name
              (SMap.getD sharedSlice.zoneTrafficWeights receiveZone.name 0 + extra.weight)
            label := sharedSlice.label ++ "-" ++ receiveZone.name }, rest)
      else if deviation > 0 then
        ({ sharedSlice with
            zoneTrafficWeights := SMap.insert sharedSlice.zoneTrafficWeights receiveZone.name
              (SMap.getD sharedSlice.zoneTrafficWeights receiveZone.name 0 + extra.weight)
            label := sharedSlice.label ++ "-" ++ receiveZone.name },
          ⟨receiveZone.name, 1, deviation, receiveZone.consumeByLocal⟩ :: rest)
      else
        let granted := (receiveZone.deviation : ℚ) * receiveZone.weight / (extra.deviation : ℚ)
        let newWeights := SMap.insert sharedSlice.zoneTrafficWeights receiveZone.name
          (SMap.getD sharedSlice.zoneTrafficWeights receiveZone.name 0 + granted)
        let sharedSlice :=
          { sharedSlice with
              zoneTrafficWeights := newWeights
              label := sharedSlice.label ++ "-" ++ receiveZone.name }
        localWeightedServe
          ⟨extra.name, extra.deviation,
            extra.weight - SMap.getD newWeights receiveZone.name 0, extra.consumeByLocal⟩
          rest sharedSlice

/-- Weighted phase of balanceSliceGroups (lines 161-209): one shared slice
group per element of the weighted available snapshot. -/
def localWeightedSharedPhase :
    List endpointDeviation → endpointsList → SGMap → SGMap
  | [], _, sliceGroups => sliceGroups
  | extra :: rest, weightedEndpointsNeeded, sliceGroups =>
      let base : EndpointSliceGroup := ⟨"shared", [], []⟩
      let withLocal :=
        if extra.consumeByLocal then
          ({ base with
              zoneTrafficWeights := SMap.insert base.zoneTrafficWeights extra.name extra.weight
              label := base.label ++ "-" ++ extra.name },
            ({ extra with weight := 1 - extra.weight, consumeByLocal := false } : endpointDeviation))
        else (base, extra)
      let sharedSlice :=
        { withLocal.1 with
            composition := SMap.insert withLocal.1.composition withLocal.2.name
              ⟨withLocal.2.deviation, 1⟩ }
      let served := localWeightedServe withLocal.2 weightedEndpointsNeeded sharedSlice
      localWeightedSharedPhase rest served.2
        (SMap.insert sliceGroups served.1.label served.1)

/-- LocalWeightedSliceAlgorithm.balanceSliceGroups. -/
def localWeightedBalanceSliceGroups (endpointsAvailable endpointsNeeded
    weightedEndpointsAvailable weightedEndpointsNeeded : endpointsList)
    (sliceGroups : SGMap) : Option SGMap :=
  match localWeightedIntPhase endpointsNeeded endpointsAvailable weightedEndpointsNeeded sliceGroups with
  | none => none
  | some (endpointsAvailable, weightedEndpointsNeeded, sliceGroups) =>
      let weightedEndpointsAvailable :=
        weightedEndpointsAvailable ++ endpointsAvailable.map
          (fun e => (⟨e.name, e.deviation, 1, e.consumeByLocal⟩ : endpointDeviation))
      some (localWeightedSharedPhase weightedEndpointsAvailable weightedEndpointsNeeded sliceGroups)

/-- LocalWeightedSliceAlgorithm.CreateSliceGroups. -/
def LocalWeightedCreateSliceGroups (region : RegionInfo) : Option (Except String SGMap) :=
  if region.zoneDetails = [] then some (.error "zoneDetail should not be nil")
  else
    let s := localWeightedSetup region
    match localWeightedBalanceSliceGroups s.2.1 s.2.2.1 s.2.2.2.1 s.2.2.2.2 s.1 with
    | none => none
    | some sliceGroups => some (.ok sliceGroups)

/-! ## Local algorithm (modeling/algorithm/local-slice-algorithm.go) -/

/-- LocalSliceAlgorithm carries the deviation threshold and the starting
threshold. -/
structure LocalSliceAlgorithm where
  threshold : ℚ
  startingThreshold : ℤ
deriving DecidableEq, Repr

/-- check if endpoints in a zone have invalid deviation (deviationAboveThreshold).
Division by a zero denominator yields 0 in `ℚ` (Go: `±Inf`); this decides
branches only, never the conservation bookkeeping. -/
def LocalSliceAlgorithm.deviationAboveThreshold (alg : LocalSliceAlgorithm)
    (zone : String) (region : RegionInfo) (sgs : SGMap) (delta : ℤ) : Bool :=
  let expectedEndpoints := (region.totalEndpoints : ℚ) * (SMap.getD region.zoneDetails zone default).nodesRatio
  let trafficDeviation := expectedEndpoints / (((sgGet sgs zone).NumberOfEndpoints + delta : ℤ) : ℚ) - 1
  decide (trafficDeviation ≥ alg.threshold)

/-- detect whether a zone is valid to contribute endpoints to other zones. -/
def LocalSliceAlgorithm.validContributor (alg : LocalSliceAlgorithm)
    (zone : String) (region : RegionInfo) (sgs : SGMap) : Bool :=
  if (sgGet sgs zone).composition.length = 0 ∨ (sgGet sgs zone).NumberOfEndpoints ≤ 1 then false
  else !(alg.deviationAboveThreshold zone region sgs (-1))

/-- One step of the per-zone initialisation of
LocalSliceAlgorithm.CreateSliceGroups (lines 73-103). -/
def localSetupStep (alg : LocalSliceAlgorithm) (region : RegionInfo)
    (acc : SGMap × List String × List String × List String) (zoneName : String) :
    SGMap × List String × List String × List String :=
  let sliceGroups := acc.1
  let zone := SMap.getD region.zoneDetails zoneName default
  let localGroup : EndpointSliceGroup :=
    { label := zoneName
      zoneTrafficWeights := SMap.insert ([] : SMap ℚ) zoneName 1
      composition :=
        if zone.endpoints ≠ 0 then
          SMap.insert ([] : SMap WeightedEndpoints) zoneName ⟨zone.endpoints, 1⟩
        else [] }
  let sliceGroups := SMap.insert sliceGroups zoneName localGroup
  let availablePool :=
    if alg.validContributor zoneName region sliceGroups then acc.2.1 ++ [zoneName]
    else acc.2.1
  let receiverPool :=
    if alg.deviationAboveThreshold zoneName region sliceGroups 0 then acc.2.2.1 ++ [zoneName]
    else acc.2.2.1
  (sliceGroups, availablePool, receiverPool, acc.2.2.2 ++ [zoneName])

/-- Per-zone initialisation of LocalSliceAlgorithm.CreateSliceGroups (lines
73-103), traversing zones in sorted-name order.  Produces the slice groups and
the three zone pools (in pre-heap order). -/
def localSetup (alg : LocalSliceAlgorithm) (region : RegionInfo) :
    SGMap × List String × List String × List String :=
  (sortZoneByNames region.zoneDetails).foldl (localSetupStep alg region)
    (([] : SGMap), [], [], [])

/-- Inner loop of the first balancing round (lines 125-139): drain the
available pool into one receiver until its deviation is below threshold. -/
def localInnerLoop (alg : LocalSliceAlgorithm) (region : RegionInfo) (receiver : String) :
    ℕ → SGMap → List String → Option (SGMap × List String)
  | 0, _, _ => none
  | fuel + 1, sgs, availablePool =>
      if availablePool.length > 0 then
        if !(alg.deviationAboveThreshold receiver region sgs 0) then some (sgs, availablePool)
        else
          match heapPop (pqLess region sgs false) availablePool with
          | none => none
          | some (candidate, availablePool) =>
              match updateSGComposition sgs receiver candidate 1 1 with
              | none => none
              | some sgs =>
                  match updateSGComposition sgs candidate candidate (-1) 1 with
                  | none => none
                  | some sgs =>
                      let availablePool :=
                        if alg.validContributor candidate region sgs then
                          heapPush (pqLess region sgs false) availablePool candidate
                        else availablePool
                      localInnerLoop alg region receiver fuel sgs availablePool
      else some (sgs, availablePool)

/-- First balancing round (lines 122-145): serve every receiver; reports
failure when a drained receiver is still above threshold. -/
def localReceiverLoop (alg : LocalSliceAlgorithm) (region : RegionInfo) :
    ℕ → SGMap → List String → List String → Option (Bool × SGMap × List String)
  | 0, _, _, _ => none
  | fuel + 1, sgs, availablePool, receiverPool =>
      if receiverPool.length > 0 then
        match heapPop (pqLess region sgs true) receiverPool with
        | none => none
        | some (receiver, receiverPool) =>
            match localInnerLoop alg region receiver fuel sgs availablePool with
            | none => none
            | some (sgs, availablePool) =>
                if alg.deviationAboveThreshold receiver region sgs 0 then
                  some (false, sgs, availablePool)
                else localReceiverLoop alg region fuel sgs availablePool receiverPool
      else some (true, sgs, availablePool)

/-- Transfer loop of the cost-for-spread pass (lines 181-186). -/
def localSpreadTransfer (receiver candidate : String) :
    ℕ → ℚ → ℚ → SGMap → Option (ℚ × ℚ × SGMap)
  | 0, _, _, _ => none
  | fuel + 1, deviation, receiverDeviation, sgs =>
      if deviation ≥ 1 ∧ receiverDeviation ≤ -1 then
        match updateSGComposition sgs receiver candidate 1 1 with
        | none => none
        | some sgs =>
            match updateSGComposition sgs candidate candidate (-1) 1 with
            | none => none
            | some sgs =>
                localSpreadTransfer receiver candidate fuel (deviation - 1)
                  (receiverDeviation + 1) sgs
      else some (deviation, receiverDeviation, sgs)

/-- Zone-pool loop of the cost-for-spread pass (lines 165-191).  The `Bool`
result is `true` when the pass returned from the whole balancing function
(line 177). -/
def localZonePoolLoop (alg : LocalSliceAlgorithm) (region : RegionInfo) (candidate : String) :
    ℕ → ℚ → SGMap → List String → Option (Bool × ℚ × SGMap × List String)
  | 0, _, _, _ => none
  | fuel + 1, deviation, sgs, zonePool =>
      if zonePool.length > 0 then
        match heapPop (pqLess region sgs true) zonePool with
        | none => none
        | some (receiver, zonePool) =>
            match getEndpointsDeviation region sgs receiver with
            | none => localZonePoolLoop alg region candidate fuel deviation sgs zonePool
            | some receiverDeviation =>
                if receiverDeviation > -1 then some (true, deviation, sgs, zonePool)
                else
                  match localSpreadTransfer receiver candidate fuel deviation receiverDeviation sgs with
                  | none => none
                  | some (deviation, _, sgs) =>
                      let zonePool := heapPush (pqLess region sgs true) zonePool receiver
                      if deviation < 1 then some (false, deviation, sgs, zonePool)
                      else localZonePoolLoop alg region candidate fuel deviation sgs zonePool
      else some (false, deviation, sgs, zonePool)

/-- Cost-for-spread pass (lines 150-192). -/
def localSpreadLoop (alg : LocalSliceAlgorithm) (region : RegionInfo) :
    ℕ → SGMap → List String → List String → Option (SGMap × List String × List String)
  | 0, _, _, _ => none
  | fuel + 1, sgs, availablePool, zonePool =>
      if availablePool.length > 0 then
        match heapPop (pqLess region sgs false) availablePool with
        | none => none
        | some (candidate, availablePool) =>
            match getEndpointsDeviation region sgs candidate with
            | none => localSpreadLoop alg region fuel sgs availablePool zonePool
            | some deviation =>
                if deviation < 1 then some (sgs, availablePool, zonePool)
                else
                  match localZonePoolLoop alg region candidate fuel deviation sgs zonePool with
                  | none => none
                  | some (returned, _, sgs, zonePool) =>
                      if returned then some (sgs, availablePool, zonePool)
                      else localSpreadLoop alg region fuel sgs availablePool zonePool
      else some (sgs, availablePool, zonePool)

/-- LocalSliceAlgorithm.balanceSliceGroups (the Go error result is always nil
and is omitted). -/
def LocalSliceAlgorithm.balanceSliceGroups (alg : LocalSliceAlgorithm) (region : RegionInfo)
    (fuel : ℕ) (availablePool receiverPool zonePool : List String) (sgs : SGMap) :
    Option (Bool × SGMap) :=
  let availablePool := heapInit (pqLess region sgs false) availablePool
  let receiverPool := heapInit (pqLess region sgs true) receiverPool
  match localReceiverLoop alg region fuel sgs availablePool receiverPool with
  | none => none
  | some (false, sgs, _) => some (false, sgs)
  | some (true, sgs, availablePool) =>
      let zonePool := heapInit (pqLess region sgs true) zonePool
      match localSpreadLoop alg region fuel sgs availablePool zonePool with
      | none => none
      | some (sgs, _, _) => some (true, sgs)

/-- LocalSliceAlgorithm.CreateSliceGroups. -/
def LocalSliceAlgorithm.CreateSliceGroups (alg : LocalSliceAlgorithm) (region : RegionInfo)
    (fuel : ℕ) : Option (Except String SGMap) :=
  if region.zoneDetails = [] then some (.error "zoneDetail should not be nil")
  else if region.totalEndpoints < alg.startingThreshold * (region.zoneDetails.length : ℤ) then
    some (OriginalCreateSliceGroups region)
  else
    let s := localSetup alg region
    match alg.balanceSliceGroups region fuel s.2.1 s.2.2.1 s.2.2.2 s.1 with
    | none => none
    | some (false, _) => some (OriginalCreateSliceGroups region)
    | some (true, sgs) => some (.ok sgs)

/-! ## Local-Shared algorithm (local-shared-algorithm.go, part_013 lines 241-661) -/

/-- LocalSharedSliceAlgorithm carries the deviation threshold. -/
structure LocalSharedSliceAlgorithm where
  threshold : ℚ
deriving DecidableEq, Repr

/-- Go `math.Ceil` on a rational. -/
def goCeil (q : ℚ) : ℤ := ⌈q⌉

/-- Go `math.Round`: round half away from zero. -/
def goRound (q : ℚ) : ℤ :=
  if q ≥ 0 then ⌊q + 1/2⌋ else -⌊-q + 1/2⌋

/-- check if endpoints in receiveZone have invalid deviation
(LocalSharedSliceAlgorithm.deviationAboveThreshold). -/
def LocalSharedSliceAlgorithm.deviationAboveThreshold (alg : LocalSharedSliceAlgorithm)
    (receiveZone : String) (region : RegionInfo) (sgs : SGMap) (delta : ℤ) : Bool :=
  let expectedEndpoints := (region.totalEndpoints : ℚ) * (SMap.getD region.zoneDetails receiveZone default).nodesRatio
  let trafficDeviation := expectedEndpoints / (((sgGet sgs receiveZone).NumberOfEndpoints + delta : ℤ) : ℚ) - 1
  decide (trafficDeviation ≥ alg.threshold)

/-- detect whether a zone is valid to contribute endpoints to other zones: the
nil-composition test holds exactly for labels absent from the map (every group
stored in the map is built with a non-nil composition map). -/
def LocalSharedSliceAlgorithm.validContributor (alg : LocalSharedSliceAlgorithm)
    (zoneName : String) (region : RegionInfo) (sgs : SGMap) : Bool :=
  match SMap.find? sgs zoneName with
  | none => false
  | some g =>
      if g.NumberOfEndpoints = 1 then false
      else !(alg.deviationAboveThreshold zoneName region sgs (-1))

/-- Per-zone initialisation of LocalSharedSliceAlgorithm.CreateSliceGroups
(lines 296-341), traversing zones in sorted-name order.  Produces the slice
groups, the needed and urgent lists and the two pools. -/
def localSharedSetupStep (alg : LocalSharedSliceAlgorithm) (region : RegionInfo)
    (acc : SGMap × endpointsList × endpointsList × List String × List String)
    (zoneName : String) :
    SGMap × endpointsList × endpointsList × List String × List String :=
  let sliceGroups := acc.1
  let endpointsNeeded := acc.2.1
  let endpointsNeededUrgent := acc.2.2.1
  let availablePool := acc.2.2.2.1
  let receiverPool := acc.2.2.2.2
  let zone := SMap.getD region.zoneDetails zoneName default
  let expectedEndpoints := zone.nodesRatio * (region.totalEndpoints : ℚ)
  let deviation := (zone.endpoints : ℚ) - expectedEndpoints
  if zone.endpoints = 0 then
    (sliceGroups, endpointsNeeded,
      endpointsNeededUrgent.push ⟨zoneName, 1, -deviation, false⟩,
      availablePool, receiverPool)
  else
    let localGroup : EndpointSliceGroup :=
      { label := zoneName
        zoneTrafficWeights := SMap.insert ([] : SMap ℚ) zoneName 1
        composition := SMap.insert ([] : SMap WeightedEndpoints) zoneName ⟨zone.endpoints, 1⟩ }
    let sliceGroups := SMap.insert sliceGroups zoneName localGroup
    let availablePool :=
      if alg.validContributor zoneName region sliceGroups then availablePool ++ [zoneName]
      else availablePool
    let receiverPool := receiverPool ++ [zoneName]
    let endpointsNeeded :=
      if deviation ≤ -1 then endpointsNeeded.push ⟨zoneName, goTrunc (-deviation), 0, false⟩
      else endpointsNeeded
    (sliceGroups, endpointsNeeded, endpointsNeededUrgent, availablePool, receiverPool)

/-- Per-zone initialisation of LocalSharedSliceAlgorithm.CreateSliceGroups
(lines 296-341), traversing zones in sorted-name order. -/
def localSharedSetup (alg : LocalSharedSliceAlgorithm) (region : RegionInfo) :
    SGMap × endpointsList × endpointsList × List String × List String :=
  (sortZoneByNames region.zoneDetails).foldl (localSharedSetupStep alg region)
    (([] : SGMap), [], [], [], [])

/-- Merge step of balanceSliceGroups (lines 360-395): fold the urgent zones
into the merged record and group; apply the precision workaround.  Returns the
merged record, the merged group and the accumulated expected value. -/
def localSharedMergeStep (acc : String × ℚ × SMap ℚ) (urgentZone : endpointDeviation) :
    String × ℚ × SMap ℚ :=
  (acc.1 ++ "-" ++ urgentZone.name,
    acc.2.1 + (urgentZone.deviation : ℚ) * urgentZone.weight,
    SMap.insert acc.2.2 urgentZone.name 1)

/-- Merge step of balanceSliceGroups (lines 360-395), continued: fold the
urgent zones and apply the precision workaround. -/
def localSharedMerge (endpointsNeededUrgent : endpointsList) :
    endpointDeviation × EndpointSliceGroup × ℚ :=
  let folded := endpointsNeededUrgent.foldl localSharedMergeStep ("merged", 0, [])
  let expectedEndpointsMerged := folded.2.1
  if expectedEndpointsMerged ≥ 1 then
    let adjusted := (goCeil (expectedEndpointsMerged * 1000) : ℚ) / 1000
    (⟨folded.1, goRound adjusted, 0, false⟩,
      ⟨folded.1, [], folded.2.2⟩, adjusted)
  else
    (⟨folded.1, goCeil expectedEndpointsMerged, 0, false⟩,
      ⟨folded.1, [], folded.2.2⟩, expectedEndpointsMerged)

/-- Needed-assignment loop of balanceSliceGroups (lines 397-425), the index
staying at the front.  `none` is fuel exhaustion or a panic; `some none ...` is
not used — failure (empty available pool) is signalled by `false`. -/
def localSharedNeedLoop (alg : LocalSharedSliceAlgorithm) (region : RegionInfo) :
    ℕ → endpointsList → SGMap → List String → Option (Bool × SGMap × List String)
  | 0, _, _, _ => none
  | fuel + 1, endpointsNeeded, sgs, availablePool =>
      match endpointsNeeded with
      | [] => some (true, sgs, availablePool)
      | receiveZone :: restNeeded =>
          if availablePool.length = 0 then some (false, sgs, availablePool)
          else
            match heapPop (pqLess region sgs false) availablePool with
            | none => none
            | some (candidate, availablePool) =>
                match updateSGComposition sgs candidate candidate (-1) 1 with
                | none => none
                | some sgs =>
                    match updateSGComposition sgs receiveZone.name candidate 1 1 with
                    | none => none
                    | some sgs =>
                        let availablePool :=
                          if alg.validContributor candidate region sgs then
                            heapPush (pqLess region sgs false) availablePool candidate
                          else availablePool
                        let receiveZone := { receiveZone with deviation := receiveZone.deviation - 1 }
                        let endpointsNeeded :=
                          if receiveZone.deviation = 0 then restNeeded
                          else receiveZone :: restNeeded
                        localSharedNeedLoop alg region fuel endpointsNeeded sgs availablePool

/-- helper function to update composition in an ESG value directly (the
updateSGComposition call sites inside createSharedSlice operate on the local
shared group, whose composition map is non-nil by construction). -/
def updateESGComposition (g : EndpointSliceGroup) (zone : String) (delta : ℤ) (weight : ℚ) :
    EndpointSliceGroup :=
  let weightedComp := SMap.getD g.composition zone default
  { g with composition := SMap.insert g.composition zone ⟨weightedComp.number + delta, weight⟩ }

/-- create a shared sliceGroup for urgent zones that have a deviation greater
or equal to threshold (createSharedSlice).  The Go iteration over the
`extraEndpoints` map follows the association-list order here. -/
def compFoldStep (g : EndpointSliceGroup) (q : String × WeightedEndpoints) :
    EndpointSliceGroup :=
  updateESGComposition g q.1 q.2.number q.2.weight

/-- One urgent zone of createSharedSlice: absorb its group's composition into
the accumulating shared group and erase it from the map. -/
def createSharedStep (acc : String × EndpointSliceGroup × SGMap) (urgentZone : String) :
    String × EndpointSliceGroup × SGMap :=
  let sharedSG := (sgGet acc.2.2 urgentZone).composition.foldl compFoldStep acc.2.1
  (acc.1 ++ "-" ++ urgentZone,
    { sharedSG with zoneTrafficWeights := SMap.insert sharedSG.zoneTrafficWeights urgentZone 1 },
    SMap.erase acc.2.2 urgentZone)

/-- One extra-endpoints entry of createSharedSlice: absorb the gathered count
into the accumulating shared group. -/
def extrasFoldStep (g : EndpointSliceGroup) (q : String × ℤ) : EndpointSliceGroup :=
  updateESGComposition g q.1 q.2 1

def createSharedSlice (urgentZones : List String) (extraEndpoints : SMap ℤ)
    (sliceGroups : SGMap) : SGMap :=
  let folded := urgentZones.foldl createSharedStep ("shared", ⟨"", [], []⟩, sliceGroups)
  let sharedSG := extraEndpoints.foldl extrasFoldStep folded.2.1
  SMap.insert folded.2.2 folded.1 { sharedSG with label := folded.1 }

/-- check if endpoints in a shared sliceGroup could be able to achieve a
deviation less than threshold (sufficientExtraEndpointsForSharedSlice). -/
def LocalSharedSliceAlgorithm.sufficientExtraEndpointsForSharedSlice
    (alg : LocalSharedSliceAlgorithm) (urgentZones : List String) (region : RegionInfo)
    (sliceGroups : SGMap) (extraEndpoints : ℤ) : Bool :=
  let totalEndpoints := urgentZones.foldl
    (fun t u => t + (sgGet sliceGroups u).NumberOfEndpoints) extraEndpoints
  let trafficLoad := urgentZones.foldl
    (fun l u =>
      l + (region.totalEndpoints : ℚ) * (SMap.getD region.zoneDetails u default).nodesRatio /
        (totalEndpoints : ℚ))
    0
  decide (trafficLoad - 1 < alg.threshold)

/-- getExtraEndpointsForSharedSlice: pull endpoints from still-valid
contributors until the shared group would be below threshold. -/
def localSharedGetExtraLoop (alg : LocalSharedSliceAlgorithm) (region : RegionInfo)
    (urgentZones : List String) :
    ℕ → ℤ → SMap ℤ → SGMap → List String → Option (Bool × SMap ℤ × SGMap × List String)
  | 0, _, _, _, _ => none
  | fuel + 1, extraEndpointsNumber, extraEndpoints, sgs, availablePool =>
      if !(alg.sufficientExtraEndpointsForSharedSlice urgentZones region sgs extraEndpointsNumber) then
        if availablePool.length = 0 then some (false, extraEndpoints, sgs, availablePool)
        else
          match heapPop (pqLess region sgs false) availablePool with
          | none => none
          | some (candidate, availablePool) =>
              match updateSGComposition sgs candidate candidate (-1) 1 with
              | none => none
              | some sgs =>
                  let availablePool :=
                    if alg.validContributor candidate region sgs then
                      heapPush (pqLess region sgs false) availablePool candidate
                    else availablePool
                  localSharedGetExtraLoop alg region urgentZones fuel (extraEndpointsNumber + 1)
                    (SMap.insert extraEndpoints candidate (SMap.getD extraEndpoints candidate 0 + 1))
                    sgs availablePool
      else some (true, extraEndpoints, sgs, availablePool)

/-- getExtraEndpointsForSharedSlice entry: recomputes the running total from
the extras map before the loop (lines 638-641). -/
def localSharedGetExtra (alg : LocalSharedSliceAlgorithm) (region : RegionInfo)
    (urgentZones : List String) (fuel : ℕ) (extraEndpoints : SMap ℤ) (sgs : SGMap)
    (availablePool : List String) : Option (Bool × SMap ℤ × SGMap × List String) :=
  let extraEndpointsNumber := (extraEndpoints.map (fun p => p.2)).sum
  localSharedGetExtraLoop alg region urgentZones fuel extraEndpointsNumber extraEndpoints
    sgs availablePool

/-- Collection loop of keepDeviationBelowThreshold (lines 490-501): pop every
receiver whose deviation is above threshold (the heap keeps the largest
deviation at the front). -/
def localSharedCollectUrgent (alg : LocalSharedSliceAlgorithm) (region : RegionInfo)
    (sgs : SGMap) : ℕ → List String → List String → Option (List String × List String)
  | 0, _, _ => none
  | fuel + 1, urgentZones, receiverPool =>
      if receiverPool.length > 0 then
        let receiveZone := receiverPool.getD 0 ""
        if !(alg.deviationAboveThreshold receiveZone region sgs 0) then
          some (urgentZones, receiverPool)
        else
          match heapPop (pqLess region sgs true) receiverPool with
          | none => none
          | some (_, receiverPool) =>
              localSharedCollectUrgent alg region sgs fuel (urgentZones ++ [receiveZone]) receiverPool
      else some (urgentZones, receiverPool)

/-- Extra-gathering loop of keepDeviationBelowThreshold (lines 510-550).  A
`true` in the first component means the function returned (with the second
component telling whether it returned `true` or `false`); `false` means the
loop ran to completion (`extraEndpointsNumber` reached the urgent count). -/
def localSharedGatherLoop (alg : LocalSharedSliceAlgorithm) (region : RegionInfo)
    (urgentZones : List String) :
    ℕ → ℤ → SMap ℤ → SGMap → List String →
    Option (Bool × Bool × ℤ × SMap ℤ × SGMap × List String)
  | 0, _, _, _, _ => none
  | fuel + 1, extraEndpointsNumber, extraEndpoints, sgs, availablePool =>
      if extraEndpointsNumber < (urgentZones.length : ℤ) then
        let tryDirect :=
          if availablePool.length > 0 then
            let candidate := availablePool.getD 0 ""
            match getEndpointsDeviation region sgs candidate with
            | none => some (none)
            | some deviation =>
                if deviation ≥ 1 then some (some candidate) else none
          else none
        match tryDirect with
        | some none => some (true, false, extraEndpointsNumber, extraEndpoints, sgs, availablePool)
        | some (some candidate) =>
            match heapPop (pqLess region sgs false) availablePool with
            | none => none
            | some (_, availablePool) =>
                match updateSGComposition sgs candidate candidate (-1) 1 with
                | none => none
                | some sgs =>
                    let availablePool :=
                      if alg.validContributor candidate region sgs then
                        heapPush (pqLess region sgs false) availablePool candidate
                      else availablePool
                    localSharedGatherLoop alg region urgentZones fuel (extraEndpointsNumber + 1)
                      (SMap.insert extraEndpoints candidate (SMap.getD extraEndpoints candidate 0 + 1))
                      sgs availablePool
        | none =>
            if alg.sufficientExtraEndpointsForSharedSlice urgentZones region sgs extraEndpointsNumber then
              some (true, true, extraEndpointsNumber, extraEndpoints,
                createSharedSlice urgentZones extraEndpoints sgs, availablePool)
            else
              match localSharedGetExtra alg region urgentZones fuel
                  extraEndpoints sgs availablePool with
              | none => none
              | some (true, extraEndpoints, sgs, availablePool) =>
                  some (true, true, extraEndpointsNumber, extraEndpoints,
                    createSharedSlice urgentZones extraEndpoints sgs, availablePool)
              | some (false, extraEndpoints, sgs, availablePool) =>
                  some (true, false, extraEndpointsNumber, extraEndpoints, sgs, availablePool)
      else some (false, true, extraEndpointsNumber, extraEndpoints, sgs, availablePool)

/-- Inner assignment loop of keepDeviationBelowThreshold (lines 558-566): give
the extras of one zone to the urgent zones one by one.  The Go `range` walks a
snapshot of `urgentZones` while the variable is cut down in step, so the
snapshot and the variable coincide throughout. -/
def localSharedAssignInner (zone : String) :
    List String → SMap ℤ → SGMap → Option (List String × SMap ℤ × SGMap)
  | [], extraEndpoints, sgs => some ([], extraEndpoints, sgs)
  | urgentZone :: rest, extraEndpoints, sgs =>
      match updateSGComposition sgs urgentZone zone 1 1 with
      | none => none
      | some sgs =>
          let extraEndpoints := SMap.insert extraEndpoints zone (SMap.getD extraEndpoints zone 0 - 1)
          if SMap.getD extraEndpoints zone 0 = 0 then some (rest, extraEndpoints, sgs)
          else localSharedAssignInner zone rest extraEndpoints sgs

/-- Outer assignment loop of keepDeviationBelowThreshold (lines 557-567). -/
def localSharedAssignOuter :
    List String → List String → SMap ℤ → SGMap → Option SGMap
  | [], _, _, sgs => some sgs
  | zone :: restZones, urgentZones, extraEndpoints, sgs =>
      match localSharedAssignInner zone urgentZones extraEndpoints sgs with
      | none => none
      | some (urgentZones, extraEndpoints, sgs) =>
          localSharedAssignOuter restZones urgentZones extraEndpoints sgs

/-- keepDeviationBelowThreshold (lines 485-570). -/
def LocalSharedSliceAlgorithm.keepDeviationBelowThreshold (alg : LocalSharedSliceAlgorithm)
    (region : RegionInfo) (fuel : ℕ) (sgs : SGMap) (availablePool receiverPool : List String) :
    Option (Bool × SGMap × List String × List String) :=
  match localSharedCollectUrgent alg region sgs fuel [] receiverPool with
  | none => none
  | some (urgentZones, receiverPool) =>
      if urgentZones.length > 0 then
        match localSharedGatherLoop alg region urgentZones fuel 0 [] sgs availablePool with
        | none => none
        | some (true, result, _, _, sgs, availablePool) =>
            some (result, sgs, availablePool, receiverPool)
        | some (false, _, _, extraEndpoints, sgs, availablePool) =>
            let zoneNames := (SMap.keys extraEndpoints).mergeSort (fun a b => a ≤ b)
            match localSharedAssignOuter zoneNames urgentZones extraEndpoints sgs with
            | none => none
            | some sgs => some (true, sgs, availablePool, receiverPool)
      else some (true, sgs, availablePool, receiverPool)

/-- Final redistribution loop of balanceSliceGroups (lines 436-460).  The
result distinguishes the Go error return (line 444). -/
def localSharedFinalLoop (alg : LocalSharedSliceAlgorithm) (region : RegionInfo) :
    ℕ → SGMap → List String → List String → Option (Except String SGMap)
  | 0, _, _, _ => none
  | fuel + 1, sgs, availablePool, receiverPool =>
      if availablePool.length > 0 then
        match heapPop (pqLess region sgs false) availablePool with
        | none => none
        | some (candidate, availablePool) =>
            match getEndpointsDeviation region sgs candidate with
            | none =>
                some (.error ("unexpcted nil error in sliceGroups while getting deviation for " ++
                  candidate ++ " candidate"))
            | some deviation =>
                if deviation < 1 then some (.ok sgs)
                else
                  match heapPop (pqLess region sgs true) receiverPool with
                  | none => none
                  | some (receiveZone, receiverPool) =>
                      match updateSGComposition sgs receiveZone candidate 1 1 with
                      | none => none
                      | some sgs =>
                          let receiverPool := heapPush (pqLess region sgs true) receiverPool receiveZone
                          match updateSGComposition sgs candidate candidate (-1) 1 with
                          | none => none
                          | some sgs =>
                              let availablePool :=
                                if alg.validContributor candidate region sgs then
                                  heapPush (pqLess region sgs false) availablePool candidate
                                else availablePool
                              localSharedFinalLoop alg region fuel sgs availablePool receiverPool
      else some (.ok sgs)

/-- LocalSharedSliceAlgorithm.balanceSliceGroups (lines 358-462).  The result
is `ok (succ, sgs)` for a normal return and `error msg` for the Go non-nil
error return. -/
def LocalSharedSliceAlgorithm.balanceSliceGroups (alg : LocalSharedSliceAlgorithm)
    (region : RegionInfo) (fuel : ℕ) (endpointsNeeded endpointsNeededUrgent : endpointsList)
    (sgs : SGMap) (availablePool receiverPool : List String) :
    Option (Except String (Bool × SGMap)) :=
  let availablePool := heapInit (pqLess region sgs false) availablePool
  let merged := localSharedMerge endpointsNeededUrgent
  let expectedEndpointsMerged := merged.2.2
  let sgs :=
    if expectedEndpointsMerged ≠ 0 then SMap.insert sgs merged.2.1.label merged.2.1
    else sgs
  let endpointsNeeded :=
    if expectedEndpointsMerged ≠ 0 then endpointsNeeded.pushFront merged.1
    else endpointsNeeded
  match localSharedNeedLoop alg region fuel endpointsNeeded sgs availablePool with
  | none => none
  | some (false, sgs, _) => some (.ok (false, sgs))
  | some (true, sgs, availablePool) =>
      let receiverPool := heapInit (pqLess region sgs true) receiverPool
      match alg.keepDeviationBelowThreshold region fuel sgs availablePool receiverPool with
      | none => none
      | some (false, sgs, _, _) => some (.ok (false, sgs))
      | some (true, sgs, availablePool, receiverPool) =>
          match localSharedFinalLoop alg region fuel sgs availablePool receiverPool with
          | none => none
          | some (.error msg) => some (.error msg)
          | some (.ok sgs) => some (.ok (true, sgs))

/-- LocalSharedSliceAlgorithm.CreateSliceGroups (lines 266-354). -/
def LocalSharedSliceAlgorithm.CreateSliceGroups (alg : LocalSharedSliceAlgorithm)
    (region : RegionInfo) (fuel : ℕ) : Option (Except String SGMap) :=
  if region.zoneDetails = [] then some (.error "zoneDetail should not be nil")
  else if region.totalEndpoints < (region.zoneDetails.length : ℤ) then
    some (OriginalCreateSliceGroups region)
  else
    let s := localSharedSetup alg region
    match alg.balanceSliceGroups region fuel s.2.1 s.2.2.1 s.1 s.2.2.2.1 s.2.2.2.2 with
    | none => none
    | some (.error msg) => some (.error msg)
    | some (.ok (false, _)) => some (OriginalCreateSliceGroups region)
    | some (.ok (true, sgs)) => some (.ok sgs)

/-! ## Back-propagation algorithm (modeling/bp-algorithm.go)

The source stores the matrix as `[][]float64`.  `bestA := a` copies the slice
header only, and every round mutates the rows of `a` in place, so `bestA`
aliases `a` throughout: the matrix handed to the packaging step is the final
`a`, whatever the score bookkeeping says.  The embedding therefore returns the
final matrix from the gradient loop (the scores are pure values with no
observable effect and are not re-modelled). -/

/-- BackPropagationAlgorithm parameters. -/
structure BackPropagationAlgorithm where
  inZoneCoeff : ℚ
  devCoeff : ℚ
  maxRound : ℕ
  useL2Norm : Bool
deriving DecidableEq, Repr

/-- alpha, the learning rate of gradient ascent (0.05). -/
def bpAlpha : ℚ := 1/20

/-- eps, the numeric precision const (1e-10). -/
def bpEps : ℚ := 1/10000000000

/-- The exact value of Go math.MaxFloat64. -/
def goMaxFloat64 : ℚ := (2 ^ 53 - 1) * 2 ^ 971

/-- bpArgs: zone count, node ratios, endpoint ratios and names. -/
structure bpArgs where
  n : ℕ
  r : List ℚ
  e : List ℚ
  names : List String
deriving DecidableEq, Repr

/-- Read entry `(i, j)` of a matrix stored as rows. -/
def mget (a : List (List ℚ)) (i j : ℕ) : ℚ :=
  (a.getD i []).getD j 0

/-- BackPropagationAlgorithm.initArgs: ratios and names in map order (the
association-list order here), and the identity matrix. -/
def bpInitArgs (region : RegionInfo) : bpArgs × List (List ℚ) :=
  let n := region.zoneDetails.length
  ({ n := n
     r := region.zoneDetails.map (fun p => p.2.nodesRatio)
     e := region.zoneDetails.map (fun p => p.2.endpointsRatio)
     names := region.zoneDetails.map (fun p => p.1) },
    (List.range n).map (fun i => (List.range n).map (fun j => if i = j then 1 else 0)))

/-- calcDerivation: the analytic derivative row, with the hard constraint on
the last column folded into the first `n-1` entries.  The last entry of each
row stays 0 (the source never writes it). -/
def bpCalcDerivation (alg : BackPropagationAlgorithm) (arg : bpArgs)
    (a : List (List ℚ)) : List (List ℚ) :=
  (List.range arg.n).map (fun i =>
    let c := fun (j : ℕ) => arg.r.getD i 0 / (arg.e.getD j 0 + bpEps)
    let base := fun (j : ℕ) =>
      if alg.useL2Norm then -2 * alg.devCoeff * c j * (c j * mget a i j - 1)
      else if c j * (mget a i j + bpEps) > 1 + bpEps then -(alg.devCoeff) * c j
      else if c j * (mget a i j + bpEps) < 1 - bpEps then alg.devCoeff * c j
      else 0
    let lastAdj :=
      let j := arg.n - 1
      if alg.useL2Norm then 2 * alg.devCoeff * c j * (c j * mget a i j - 1)
      else if c j * (mget a i j + bpEps) > 1 + bpEps then alg.devCoeff * c j
      else if c j * (mget a i j + bpEps) < 1 - bpEps then -(alg.devCoeff) * c j
      else 0
    let inZone := fun (k : ℕ) =>
      if i < arg.n - 1 then (if k = i then alg.inZoneCoeff * arg.r.getD i 0 else 0)
      else -(alg.inZoneCoeff) * arg.r.getD i 0
    (List.range arg.n).map (fun k =>
      if k = arg.n - 1 then 0 else base k + lastAdj + inZone k))

/-- One pass of the last-column redistribution loop (lines 88-113): count and
minimum of the entries above eps, the clamped value, and the subtraction
sweep.  Returns the updated first `n-1` entries, the updated last entry, and
the break flag.  Division by a zero `nonZero` count yields 0 in `ℚ` where Go
divides by zero (the degenerate case of a row with no entry above eps). -/
def bpRedistributeOnce (nm1 : ℕ) (row : List ℚ) (lastEntry : ℚ) :
    List ℚ × ℚ × Bool :=
  let qualifying := (List.range nm1).filter (fun j => row.getD j 0 > bpEps)
  let nonZero : ℤ := qualifying.length
  let minv := qualifying.foldl (fun m j => min (row.getD j 0) m) goMaxFloat64
  let val0 := -lastEntry / (nonZero : ℚ)
  let flag := minv ≥ val0
  let val := if flag then val0 else minv
  let row := (List.range row.length).map (fun j =>
    if j < nm1 ∧ row.getD j 0 > bpEps then row.getD j 0 - val else row.getD j 0)
  (row, lastEntry + val * (qualifying.length : ℚ), flag)

/-- The unbounded redistribution `for` loop, with fuel (the source remarks it
occasionally fails to converge). -/
def bpRedistribute (nm1 : ℕ) : ℕ → List ℚ → ℚ → Option (List ℚ)
  | 0, _, _ => none
  | fuel + 1, row, lastEntry =>
      let r := bpRedistributeOnce nm1 row lastEntry
      if r.2.2 then some r.1
      else bpRedistribute nm1 fuel r.1 r.2.1

/-- One gradient round for one row (lines 71-116): update the first `n-1`
entries, recompute the constrained last entry, project negatives, and fix a
negative last entry by redistribution. -/
def bpRowUpdate (arg : bpArgs) (beta : ℚ) (d : List (List ℚ)) (fuel : ℕ)
    (i : ℕ) (row : List ℚ) : Option (List ℚ) :=
  let nm1 := arg.n - 1
  let updated := (List.range arg.n).map (fun j =>
    if j = nm1 then 0 else row.getD j 0 + beta * mget d i j)
  let lastEntry := 1 - ((List.range nm1).map (fun j => updated.getD j 0)).sum
  let projected := updated.map (fun v => if v < 0 then 0 else v)
  let lastEntry := lastEntry + ((List.range nm1).map (fun j =>
    if updated.getD j 0 < 0 then updated.getD j 0 else 0)).sum
  if lastEntry < 0 then
    match bpRedistribute nm1 fuel projected lastEntry with
    | none => none
    | some row => some (row.set nm1 0)
  else some (projected.set nm1 lastEntry)

/-- The gradient-ascent rounds (lines 67-125).  The returned matrix is the
final `a` (see the aliasing note above); `beta` decays by 0.99 per round. -/
def bpRounds (arg : bpArgs) (alg : BackPropagationAlgorithm) (fuel : ℕ) :
    ℕ → ℚ → List (List ℚ) → Option (List (List ℚ))
  | 0, _, a => some a
  | rounds + 1, beta, a =>
      let deriv := bpCalcDerivation alg arg a
      let rows := (List.range arg.n).foldl
        (fun (acc : Option (List (List ℚ))) i =>
          match acc with
          | none => none
          | some a =>
              match bpRowUpdate arg beta deriv fuel i (a.getD i []) with
              | none => none
              | some row => some (a.set i row))
        (some a)
      match rows with
      | none => none
      | some a => bpRounds arg alg fuel rounds (beta * (99/100)) a

/-- Bucket-splitting loop for one zone (lines 137-167): buckets of at most 100
endpoints, labels `name-m` with `m` counting from 1, weights from column `i`
of the matrix, normalised when the column sum is farther than eps from 0.
Structural recursion on the remaining (nonnegative) count. -/
def bpBucketLoop (arg : bpArgs) (bestA : List (List ℚ)) (name : String) (i : ℕ) :
    ℕ → ℕ → SGMap → SGMap
  | 0, _, ret => ret
  | tot + 1, m, ret =>
      let cur : ℕ := if tot + 1 > 100 then 100 else tot + 1
      let sgName := name ++ "-" ++ toString (m + 1)
      let colSum := ((List.range arg.n).map (fun j => mget bestA j i)).sum
      let weights := (List.range arg.n).foldl
        (fun w j => SMap.insert w (arg.names.getD j "") (mget bestA j i)) ([] : SMap ℚ)
      let weights :=
        if |colSum| > bpEps then weights.map (fun p => (p.1, p.2 / colSum)) else weights
      let sg : EndpointSliceGroup :=
        { label := sgName
          composition := SMap.insert ([] : SMap WeightedEndpoints) name ⟨(cur : ℤ), 1⟩
          zoneTrafficWeights := weights }
      bpBucketLoop arg bestA name i (tot + 1 - cur) (m + 1) (SMap.insert ret sgName sg)
termination_by tot _ _ => tot
decreasing_by split <;> omega

/-- Slice creation of BackPropagationAlgorithm.CreateSliceGroups (lines
127-169) from the final matrix. -/
def bpPackage (region : RegionInfo) (arg : bpArgs) (bestA : List (List ℚ)) : SGMap :=
  (List.range arg.n).foldl
    (fun ret i =>
      let name := arg.names.getD i ""
      let zone := SMap.getD region.zoneDetails name default
      bpBucketLoop arg bestA name i zone.endpoints.toNat 0 ret)
    []

/-- BackPropagationAlgorithm.CreateSliceGroups. -/
def BackPropagationCreateSliceGroups (alg : BackPropagationAlgorithm)
    (region : RegionInfo) (fuel : ℕ) : Option SGMap :=
  let ia := bpInitArgs region
  match bpRounds ia.1 alg fuel alg.maxRound bpAlpha ia.2 with
  | none => none
  | some bestA => some (bpPackage region ia.1 bestA)

/-! ## Statement-support definitions -/

/-- Endpoint count the region records for a zone name (0 for unknown names,
matching the Go zero value). -/
def regionEndpoints (region : RegionInfo) (zone : String) : ℤ :=
  (SMap.getD region.zoneDetails zone default).endpoints

/-- The string `s` begins with the string `p`. -/
def labelPrefixed (p s : String) : Prop :=
  ∃ t, s.data = p.data ++ t

/-- Zone names that cannot capture a label generated by the algorithms under
study: not `global` and not beginning with `shared` or `merged`. -/
def labelSafe (n : String) : Prop :=
  n ≠ "global" ∧ ¬ labelPrefixed "shared" n ∧ ¬ labelPrefixed "merged" n

/-- Sum of the node ratios of the region zones (used by the traffic bound). -/
def regionNodesRatioSum (region : RegionInfo) : ℚ :=
  (region.zoneDetails.map (fun p => p.2.nodesRatio)).sum

/-- Every slice group of the map keys its composition without duplicate zone
names (true of every map the algorithms build, where compositions only grow by
`SMap.insert`). -/
def compsWF (sgs : SGMap) : Prop :=
  ∀ p ∈ sgs, (SMap.keys p.2.composition).Nodup

/-- No label of the map begins with `shared`, so the label generated for a
shared slice group is fresh. -/
def sharedFree (sgs : SGMap) : Prop :=
  ∀ k ∈ SMap.keys sgs, ¬ labelPrefixed "shared" k

/-- Sum of the per-zone counters of an extra-endpoints map. -/
def extrasSum (m : SMap ℤ) : ℤ :=
  (m.map Prod.snd).sum

/-- The region of the Local-Weighted conservation counterexample: two zones
with zero nodes, so every zone is a pure contributor and two generated labels
collide. -/
def lwCexZones : List Zone :=
  [⟨0, 2, "a", 0, 0⟩, ⟨0, 3, "b", 0, 0⟩]

/-- The region value `CreateRegionInfo` produces for `lwCexZones`. -/
def lwCexRegion : RegionInfo :=
  ⟨0, 5, [("a", ⟨0, 2, "a", 2/5, 0⟩), ("b", ⟨0, 3, "b", 3/5, 0⟩)]⟩

/-- The zones of the Shared-Global label-capture counterexample: a zone is
literally named `global`. -/
def sgCexZones : List Zone :=
  [⟨1, 60, "global", 0, 0⟩, ⟨1, 60, "a", 0, 0⟩]

/-- The region value `CreateRegionInfo` produces for `sgCexZones`. -/
def sgCexRegion : RegionInfo :=
  ⟨2, 120, [("global", ⟨1, 60, "global", 1/2, 1/2⟩), ("a", ⟨1, 60, "a", 1/2, 1/2⟩)]⟩

/-- The registry parameters of SharedGlobalAlgorithm (weight 0.4,
threshold 100). -/
def sgRegistryAlg : SharedGlobalAlgorithmCore := ⟨2/5, 100⟩

/-- Witness zones for the Shared-Global formulas: two ordinary zones, no zone
named `global`, total endpoints above the threshold. -/
def sgFormZones : List Zone :=
  [⟨1, 60, "a", 0, 0⟩, ⟨1, 60, "b", 0, 0⟩]

/-- The region value `CreateRegionInfo` produces for `sgFormZones`. -/
def sgFormRegion : RegionInfo :=
  ⟨2, 120, [("a", ⟨1, 60, "a", 1/2, 1/2⟩), ("b", ⟨1, 60, "b", 1/2, 1/2⟩)]⟩

/-- The slice-group map SharedGlobalCore returns on `sgFormRegion`. -/
def sgFormMap : SGMap :=
  [("a", ⟨"a", [("a", ⟨60, 1⟩)], [("a", 1)]⟩),
   ("b", ⟨"b", [("b", ⟨60, 1⟩)], [("b", 1)]⟩),
   ("global", ⟨"global", [("a", ⟨0, 1⟩), ("b", ⟨0, 1⟩)],
     [("a", 2/5), ("b", 2/5)]⟩)]

/-- Witness region for the Local fallback: one zone hoards all traffic weight
but no zone can give an endpoint out. -/
def localFallbackZones : List Zone :=
  [⟨10, 1, "a", 0, 0⟩, ⟨0, 1, "b", 0, 0⟩]

/-- The region value `CreateRegionInfo` produces for `localFallbackZones`. -/
def localFallbackRegion : RegionInfo :=
  ⟨10, 2, [("a", ⟨10, 1, "a", 1/2, 1⟩), ("b", ⟨0, 1, "b", 1/2, 0⟩)]⟩

/-- A Local algorithm whose starting threshold never falls back early. -/
def localFallbackAlg : LocalSliceAlgorithm := ⟨1/5, 0⟩

/-- Witness region for the Local-Shared fallback: the urgent zone needs more
endpoints than the single contributor can give. -/
def localSharedFallbackZones : List Zone :=
  [⟨7, 0, "a", 0, 0⟩, ⟨1, 4, "b", 0, 0⟩]

/-- The region value `CreateRegionInfo` produces for
`localSharedFallbackZones`. -/
def localSharedFallbackRegion : RegionInfo :=
  ⟨8, 4, [("a", ⟨7, 0, "a", 0, 7/8⟩), ("b", ⟨1, 4, "b", 1, 1/8⟩)]⟩

/-- A Local-Shared algorithm with threshold 0.5. -/
def localSharedFallbackAlg : LocalSharedSliceAlgorithm := ⟨1/2⟩

/-- Region of the simulator zero-endpoints counterexample. -/
def simCexRegion : RegionInfo :=
  ⟨1, 0, [("a", ⟨1, 0, "a", 0, 1⟩)]⟩

/-- Slice map of the simulator zero-endpoints counterexample: one group
pretending to hold five endpoints of the (empty) zone. -/
def simCexMap : SGMap :=
  [("g", ⟨"g", [("a", ⟨5, 1⟩)], [("a", 1)]⟩)]

/-- Region of the in-zone-traffic-bound counterexample. -/
def tbCexRegion : RegionInfo :=
  ⟨2, 2, [("a", ⟨1, 1, "a", 1/2, 1/2⟩), ("b", ⟨1, 1, "b", 1/2, 1/2⟩)]⟩

/-- Slice map of the in-zone-traffic-bound counterexample: all composition
numbers and all zone traffic weights are nonnegative, but one composition
weight is negative, which drives the in-zone traffic to 51/2. -/
def tbCexMap : SGMap :=
  [("g", ⟨"g", [("a", ⟨1, 1⟩), ("b", ⟨2, -(49 : ℚ)/100⟩)], [("a", 1), ("b", 0)]⟩),
   ("h", ⟨"h", [("b", ⟨1, 1⟩)], [("a", 0), ("b", 1)]⟩)]

/-- Region of the back-propagation counterexample. -/
def bpCexRegion : RegionInfo :=
  ⟨2, 101, [("a", ⟨1, 1, "a", 1/101, 1/2⟩), ("b", ⟨1, 100, "b", 100/101, 1/2⟩)]⟩

/-- Parameters of the back-propagation counterexample: one L2 round with a
large in-zone coefficient empties the first matrix column. -/
def bpCexAlg : BackPropagationAlgorithm := ⟨1000, 1, 1, true⟩

/-- Numeric value of a decimal digit character (supports the label-injectivity
argument for the generated bucket names). -/
def charVal (c : Char) : ℕ := c.toNat - Char.toNat (Char.ofNat 48)

/-- Decimal reading of a character list, most significant digit first. -/
def ofChars (l : List Char) : ℕ := l.foldl (fun a c => 10 * a + charVal c) 0

/-- The zone-traffic-weight map every bucket of column `i` receives (the
`weights` chain of the bucket loop). -/
def bpColWeights (arg : bpArgs) (bestA : List (List ℚ)) (i : ℕ) : SMap ℚ :=
  let colSum := ((List.range arg.n).map (fun j => mget bestA j i)).sum
  let weights := (List.range arg.n).foldl
    (fun w j => SMap.insert w (arg.names.getD j "") (mget bestA j i)) ([] : SMap ℚ)
  if |colSum| > bpEps then weights.map (fun p => (p.1, p.2 / colSum)) else weights

/-- A map entry is a back-propagation bucket of zone `z` drawing its traffic
weights from column `i`. -/
def bpBucket (arg : bpArgs) (bestA : List (List ℚ)) (z : String) (i : ℕ)
    (e : String × EndpointSliceGroup) : Prop :=
  ∃ (j c : ℕ), 1 ≤ j ∧ 1 ≤ c ∧ c ≤ 100 ∧
    e.1 = z ++ "-" ++ toString j ∧
    e.2 = { label := e.1
            composition := SMap.insert ([] : SMap WeightedEndpoints) z ⟨(c : ℤ), 1⟩
            zoneTrafficWeights := bpColWeights arg bestA i }

/-- Region of the back-propagation packaging witness. -/
def bpWitRegion : RegionInfo := ⟨1, 1, [("a", ⟨1, 1, "a", 1, 1⟩)]⟩

/-- Map of the back-propagation packaging witness. -/
def bpWitMap : SGMap := [("a-1", ⟨"a-1", [("a", ⟨1, 1⟩)], [("a", 1)]⟩)]

/-- The per-group reachable-endpoints quantity of getReachableEndpoints (the
local `reach` of the source loop). -/
def sgReach (p : String × EndpointSliceGroup) (zone : String) : ℚ :=
  ((p.2.NumberOfEndpoints : ℚ)) * SMap.getD p.2.zoneTrafficWeights zone 0

/-- The zone detail record built by the third simulator pass for one zone. -/
def zoneDetailFor (m : SGMap) (z : String) : sliceGroupDetails :=
  { zoneReachableEndpoints := (getReachableEndpointsZone m z).1
    zoneReachableEndpointsAll := (getReachableEndpointsZone m z).2
    zoneTrafficRatio := getTrafficZone (getReachableEndpointsZone m z).1
      (getReachableEndpointsZone m z).2
    endpointsTrafficLoad := []
    endpointsTrafficLoadDeviation := [] }

/-- The traffic row that getZoneToZoneTraffic computes for one origin zone. -/
def ztzRow (region : RegionInfo) (m : SGMap) (zd : zoneSGDetails)
    (op : String × Zone) : SMap ℚ :=
  m.foldl
    (fun row p =>
      if p.2.NumberOfWeightedEndpoints = 0 then row
      else
        region.zoneDetails.foldl
          (fun row dp =>
            let destZone := dp.1
            let desZoneRatioInSG :=
              ((SMap.getD p.2.composition destZone default).number : ℚ) *
                (SMap.getD p.2.composition destZone default).weight /
                p.2.NumberOfWeightedEndpoints
            SMap.insert row destZone
              (SMap.getD row destZone 0 +
                op.2.nodesRatio * SMap.getD (SMap.getD zd op.1 default).zoneTrafficRatio p.1 0 *
                  desZoneRatioInSG))
          row)
    ([] : SMap ℚ)

/-! ## Map lemmas -/

theorem SMap.find?_insert_self {α : Type} (m : SMap α) (k : String) (v : α) :
    SMap.find? (SMap.insert m k v) k = some v := by
  induction m with
  | nil => simp [SMap.insert, SMap.find?]
  | cons p rest ih =>
      by_cases h : p.1 = k
      · simp [SMap.insert, SMap.find?, h]
      · simp [SMap.insert, SMap.find?, h, ih]

theorem SMap.find?_insert_ne {α : Type} (m : SMap α) (k k' : String) (v : α)
    (h : k ≠ k') : SMap.find? (SMap.insert m k v) k' = SMap.find? m k' := by
  induction m with
  | nil => simp [SMap.insert, SMap.find?, h]
  | cons p rest ih =>
      by_cases hp : p.1 = k
      · simp [SMap.insert, SMap.find?, hp, h]
      · simp [SMap.insert, SMap.find?, hp, ih]

theorem SMap.getD_insert_self {α : Type} (m : SMap α) (k : String) (v d : α) :
    SMap.getD (SMap.insert m k v) k d = v := by
  simp [SMap.getD, SMap.find?_insert_self]

theorem SMap.getD_insert_ne {α : Type} (m : SMap α) (k k' : String) (v d : α)
    (h : k ≠ k') : SMap.getD (SMap.insert m k v) k' d = SMap.getD m k' d := by
  simp [SMap.getD, SMap.find?_insert_ne _ _ _ _ h]

theorem SMap.find?_eq_none_iff {α : Type} (m : SMap α) (k : String) :
    SMap.find? m k = none ↔ k ∉ SMap.keys m := by
  induction m with
  | nil => simp [SMap.find?, SMap.keys]
  | cons p rest ih =>
      by_cases h : p.1 = k
      · simp [SMap.find?, SMap.keys, h]
      · simp [SMap.find?, SMap.keys, h, ih, Ne.symm h]

theorem SMap.keys_insert_found {α : Type} (m : SMap α) (k : String) (v : α)
    (h : SMap.find? m k ≠ none) : SMap.keys (SMap.insert m k v) = SMap.keys m := by
  induction m with
  | nil => simp [SMap.find?] at h
  | cons p rest ih =>
      by_cases hp : p.1 = k
      · simp [SMap.insert, SMap.keys, hp]
      · simp only [SMap.find?, hp, if_false] at h
        simp only [SMap.insert, hp, if_false, SMap.keys, List.map_cons]
        simpa [SMap.keys] using ih h

theorem SMap.keys_insert_fresh {α : Type} (m : SMap α) (k : String) (v : α)
    (h : SMap.find? m k = none) : SMap.keys (SMap.insert m k v) = SMap.keys m ++ [k] := by
  induction m with
  | nil => simp [SMap.insert, SMap.keys]
  | cons p rest ih =>
      by_cases hp : p.1 = k
      · simp [SMap.find?, hp] at h
      · simp only [SMap.find?, hp, if_false] at h
        simp only [SMap.insert, hp, if_false, SMap.keys, List.map_cons]
        simpa [SMap.keys] using ih h

/-! ## Zone-total bookkeeping lemmas -/

theorem zoneTotalEndpoints_nil (z : String) : zoneTotalEndpoints [] z = 0 := rfl

theorem zoneTotalEndpoints_cons (p : String × EndpointSliceGroup) (rest : SGMap) (z : String) :
    zoneTotalEndpoints (p :: rest) z =
      (SMap.getD p.2.composition z default).number + zoneTotalEndpoints rest z := by
  simp [zoneTotalEndpoints]

theorem zoneTotalEndpoints_insert_fresh (sgs : SGMap) (l : String) (g : EndpointSliceGroup)
    (z : String) (h : SMap.find? sgs l = none) :
    zoneTotalEndpoints (SMap.insert sgs l g) z =
      zoneTotalEndpoints sgs z + (SMap.getD g.composition z default).number := by
  induction sgs with
  | nil => simp [SMap.insert, zoneTotalEndpoints]
  | cons p rest ih =>
      by_cases hp : p.1 = l
      · simp [SMap.find?, hp] at h
      · simp only [SMap.find?, hp, if_false] at h
        simp only [SMap.insert, hp, if_false]
        rw [zoneTotalEndpoints_cons, zoneTotalEndpoints_cons, ih h]
        ring

theorem zoneTotalEndpoints_insert_found (sgs : SGMap) (l : String) (g g0 : EndpointSliceGroup)
    (z : String) (h : SMap.find? sgs l = some g0) :
    zoneTotalEndpoints (SMap.insert sgs l g) z =
      zoneTotalEndpoints sgs z - (SMap.getD g0.composition z default).number
        + (SMap.getD g.composition z default).number := by
  induction sgs with
  | nil => simp [SMap.find?] at h
  | cons p rest ih =>
      by_cases hp : p.1 = l
      · simp only [SMap.find?, hp, if_true] at h
        cases h
        simp only [SMap.insert, hp, if_true]
        rw [zoneTotalEndpoints_cons, zoneTotalEndpoints_cons]
        ring
      · simp only [SMap.find?, hp, if_false] at h
        simp only [SMap.insert, hp, if_false]
        rw [zoneTotalEndpoints_cons, zoneTotalEndpoints_cons, ih h]
        ring

theorem zoneTotalEndpoints_erase_found (sgs : SGMap) (l : String) (g0 : EndpointSliceGroup)
    (z : String) (h : SMap.find? sgs l = some g0) :
    zoneTotalEndpoints (SMap.erase sgs l) z =
      zoneTotalEndpoints sgs z - (SMap.getD g0.composition z default).number := by
  induction sgs with
  | nil => simp [SMap.find?] at h
  | cons p rest ih =>
      by_cases hp : p.1 = l
      · simp only [SMap.find?, hp, if_true] at h
        cases h
        simp only [SMap.erase, hp, if_true]
        rw [zoneTotalEndpoints_cons]
        ring
      · simp only [SMap.find?, hp, if_false] at h
        simp only [SMap.erase, hp, if_false]
        rw [zoneTotalEndpoints_cons, zoneTotalEndpoints_cons, ih h]
        ring

theorem zoneTotalEndpoints_erase_none (sgs : SGMap) (l : String)
    (z : String) (h : SMap.find? sgs l = none) :
    zoneTotalEndpoints (SMap.erase sgs l) z = zoneTotalEndpoints sgs z := by
  induction sgs with
  | nil => rfl
  | cons p rest ih =>
      by_cases hp : p.1 = l
      · simp [SMap.find?, hp] at h
      · simp only [SMap.find?, hp, if_false] at h
        simp only [SMap.erase, hp, if_false]
        rw [zoneTotalEndpoints_cons, zoneTotalEndpoints_cons, ih h]

theorem updateSGComposition_zoneTotal {sgs : SGMap} {l z : String} {δ : ℤ} {w : ℚ}
    {sgs' : SGMap} (h : updateSGComposition sgs l z δ w = some sgs') (z' : String) :
    zoneTotalEndpoints sgs' z' = zoneTotalEndpoints sgs z' + if z' = z then δ else 0 := by
  unfold updateSGComposition at h
  cases hf : SMap.find? sgs l with
  | none => rw [hf] at h; simp at h
  | some g =>
      rw [hf] at h
      simp only [Option.some.injEq] at h
      subst h
      rw [zoneTotalEndpoints_insert_found sgs l _ g z' hf]
      by_cases hz : z' = z
      · subst hz
        rw [SMap.getD_insert_self]
        simp only [if_true]
        ring
      · rw [SMap.getD_insert_ne _ _ _ _ _ (Ne.symm hz)]
        simp only [hz, if_false]
        ring

theorem updateSGComposition_keys {sgs : SGMap} {l z : String} {δ : ℤ} {w : ℚ}
    {sgs' : SGMap} (h : updateSGComposition sgs l z δ w = some sgs') :
    SMap.keys sgs' = SMap.keys sgs := by
  unfold updateSGComposition at h
  cases hf : SMap.find? sgs l with
  | none => rw [hf] at h; simp at h
  | some g =>
      rw [hf] at h
      simp only [Option.some.injEq] at h
      subst h
      exact SMap.keys_insert_found sgs l _ (by rw [hf]; simp)

/-! ## CreateRegionInfo lemmas -/

theorem SMap.insert_fresh_append {α : Type} (m : SMap α) (k : String) (v : α)
    (h : SMap.find? m k = none) : SMap.insert m k v = m ++ [(k, v)] := by
  induction m with
  | nil => simp [SMap.insert]
  | cons p rest ih =>
      by_cases hp : p.1 = k
      · simp [SMap.find?, hp] at h
      · simp only [SMap.find?, hp, if_false] at h
        simp [SMap.insert, hp, ih h]

/-- Lookup in the ratio-population fold: the last zone of the input list with
the requested name wins. -/
theorem createRegion_fold_find? (zs : List Zone) (tE tN : ℤ) (m0 : SMap Zone)
    (name : String) :
    SMap.find? (zs.foldl (fun m z => SMap.insert m z.name (enrichZone tE tN z)) m0) name =
      match (zs.filter (fun w => w.name = name)).getLast? with
      | some z0 => some (enrichZone tE tN z0)
      | none => SMap.find? m0 name := by
  induction zs generalizing m0 with
  | nil => simp
  | cons z rest ih =>
      simp only [List.foldl_cons]
      rw [ih]
      by_cases hz : z.name = name
      · rw [List.filter_cons_of_pos (by simpa using hz)]
        cases hfe : rest.filter (fun w => decide (w.name = name)) with
        | nil =>
            simp only [hfe, List.getLast?_singleton, List.getLast?_nil]
            rw [hz, SMap.find?_insert_self]
        | cons q l =>
            rw [List.getLast?_cons_cons]
            cases hrest : (q :: l).getLast? with
            | some z0 => simp [hrest]
            | none => simp [List.getLast?_eq_none_iff] at hrest
      · rw [List.filter_cons_of_neg (by simpa using hz)]
        cases hrest : (rest.filter (fun w => decide (w.name = name))).getLast? with
        | some z0 => simp [hrest]
        | none =>
            simp only [hrest]
            exact SMap.find?_insert_ne m0 z.name name _ hz

/-- With pairwise-distinct names the details map lists the enriched zones in
input order. -/
theorem createRegion_fold_eq_map (zs : List Zone) (tE tN : ℤ) (m0 : SMap Zone)
    (hnd : (zs.map Zone.name).Nodup)
    (hdisj : ∀ z ∈ zs, SMap.find? m0 z.name = none) :
    zs.foldl (fun m z => SMap.insert m z.name (enrichZone tE tN z)) m0 =
      m0 ++ zs.map (fun z => (z.name, enrichZone tE tN z)) := by
  revert hnd hdisj
  induction zs generalizing m0 with
  | nil => intro _ _; simp
  | cons z rest ih =>
      intro hnd hdisj
      simp only [List.map_cons, List.nodup_cons] at hnd
      have hz0 : SMap.find? m0 z.name = none := hdisj z (by simp)
      have hdisj2 : ∀ w ∈ rest, SMap.find? (SMap.insert m0 z.name (enrichZone tE tN z)) w.name = none := by
        intro w hw
        have hne : w.name ≠ z.name := by
          intro he
          exact hnd.1 (he ▸ (List.mem_map.mpr ⟨w, hw, rfl⟩))
        rw [SMap.find?_insert_ne m0 z.name w.name _ (Ne.symm hne)]
        exact hdisj w (by simp [hw])
      simp only [List.foldl_cons]
      rw [ih _ hnd.2 hdisj2, SMap.insert_fresh_append m0 z.name _ hz0]
      simp

/-- Success characterization of CreateRegionInfo. -/
theorem CreateRegionInfo_ok (zs : List Zone) (hne : zs ≠ [])
    (hpos : ∀ z ∈ zs, 0 ≤ z.endpoints ∧ 0 ≤ z.nodes) :
    CreateRegionInfo zs = .ok
      { totalNodes := (zs.map Zone.nodes).sum
        totalEndpoints := (zs.map Zone.endpoints).sum
        zoneDetails := zs.foldl
          (fun m z => SMap.insert m z.name
            (enrichZone (zs.map Zone.endpoints).sum (zs.map Zone.nodes).sum z)) [] } := by
  unfold CreateRegionInfo
  have h1 : ¬ zs.length = 0 := by simpa [List.length_eq_zero] using hne
  have h2 : zs.any (fun z => z.endpoints < 0 || z.nodes < 0) = false := by
    simp only [List.any_eq_false, Bool.or_eq_true, not_or, decide_eq_true_eq]
    intro z hz
    have := hpos z hz
    constructor <;> simp <;> omega
  simp [h1, h2]

/-- Error characterization: empty input. -/
theorem CreateRegionInfo_err_empty :
    CreateRegionInfo [] = .error "creating zoneinfos with zero length []Zone" := rfl

/-- Error characterization: a negative count anywhere. -/
theorem CreateRegionInfo_err_negative (zs : List Zone)
    (h : ∃ z ∈ zs, z.endpoints < 0 ∨ z.nodes < 0) :
    CreateRegionInfo zs = .error "invalid zones with number of nodes or endpoints < 0" := by
  obtain ⟨z, hz, hneg⟩ := h
  unfold CreateRegionInfo
  have h1 : ¬ zs.length = 0 := by
    intro hl
    rw [List.length_eq_zero] at hl
    subst hl
    simp at hz
  have h2 : zs.any (fun z => z.endpoints < 0 || z.nodes < 0) = true := by
    simp only [List.any_eq_true]
    exact ⟨z, hz, by simpa using hneg⟩
  simp [h1, h2]

/-- C8: CreateRegionInfo returns an error for every empty zone sequence and
for every sequence containing a zone with negative nodes or negative
endpoints, and succeeds for every non-empty sequence of zones with
non-negative counts — in particular zones with zero endpoints or zero nodes
are accepted — and each accepted zone's endpoints ratio is
endpoints/total_endpoints (0 when the total is 0), likewise for the nodes
ratio. -/
theorem C8_region_construction_errors :
    (∀ zs : List Zone, zs = [] → ∃ msg, CreateRegionInfo zs = .error msg) ∧
    (∀ zs : List Zone, (∃ z ∈ zs, z.endpoints < 0 ∨ z.nodes < 0) →
      ∃ msg, CreateRegionInfo zs = .error msg) ∧
    (∀ zs : List Zone, zs ≠ [] → (∀ z ∈ zs, 0 ≤ z.endpoints ∧ 0 ≤ z.nodes) →
      ∃ region, CreateRegionInfo zs = .ok region ∧
        ∀ name z, SMap.find? region.zoneDetails name = some z →
          (z.endpointsRatio =
            if region.totalEndpoints = 0 then 0 else (z.endpoints : ℚ) / (region.totalEndpoints : ℚ)) ∧
          (z.nodesRatio =
            if region.totalNodes = 0 then 0 else (z.nodes : ℚ) / (region.totalNodes : ℚ))) := by
  refine ⟨?_, ?_, ?_⟩
  · intro zs h
    subst h
    exact ⟨_, CreateRegionInfo_err_empty⟩
  · intro zs h
    exact ⟨_, CreateRegionInfo_err_negative zs h⟩
  · intro zs hne hpos
    refine ⟨_, CreateRegionInfo_ok zs hne hpos, ?_⟩
    intro name z hz
    rw [createRegion_fold_find?] at hz
    cases hlast : (zs.filter (fun w => w.name = name)).getLast? with
    | none => rw [hlast] at hz; simp [SMap.find?] at hz
    | some z0 =>
        rw [hlast] at hz
        simp only [Option.some.injEq] at hz
        subst hz
        simp [enrichZone]

/-- Witness for C8 at concrete inputs: the empty list, a negative zone, and a
list holding a zero-endpoints zero-nodes zone. -/
theorem C8_region_construction_errors_witness :
    (∃ msg, CreateRegionInfo [] = .error msg) ∧
    (∃ msg, CreateRegionInfo [⟨1, -1, "a", 0, 0⟩] = .error msg) ∧
    (∃ region, CreateRegionInfo [⟨0, 0, "a", 0, 0⟩, ⟨2, 6, "b", 0, 0⟩] = .ok region ∧
      ∀ name z, SMap.find? region.zoneDetails name = some z →
        (z.endpointsRatio =
          if region.totalEndpoints = 0 then 0 else (z.endpoints : ℚ) / (region.totalEndpoints : ℚ)) ∧
        (z.nodesRatio =
          if region.totalNodes = 0 then 0 else (z.nodes : ℚ) / (region.totalNodes : ℚ))) :=
  ⟨C8_region_construction_errors.1 [] rfl,
    C8_region_construction_errors.2.1 _ ⟨⟨1, -1, "a", 0, 0⟩, by norm_num⟩,
    C8_region_construction_errors.2.2 _ (by simp)
      (by intro z hz; simp only [List.mem_cons, List.not_mem_nil, or_false] at hz
          rcases hz with rfl | rfl <;> norm_num)⟩

/-- C10: CreateRegionInfo does not enforce distinct zone names — duplicated
names produce no error; ZoneDetails keeps only the last zone under a name;
and on `[a,a]` the sum of the detail endpoints is strictly below
TotalEndpoints. -/
theorem C10_duplicate_zone_names :
    (∀ zs : List Zone, zs ≠ [] → (∀ z ∈ zs, 0 ≤ z.endpoints ∧ 0 ≤ z.nodes) →
      ¬ (zs.map Zone.name).Nodup →
      ∃ region, CreateRegionInfo zs = .ok region) ∧
    (∀ zs : List Zone, ∀ region : RegionInfo, CreateRegionInfo zs = .ok region →
      ∀ name z, SMap.find? region.zoneDetails name = some z →
        ∃ z0, (zs.filter (fun w => w.name = name)).getLast? = some z0 ∧
          z.name = z0.name ∧ z.nodes = z0.nodes ∧ z.endpoints = z0.endpoints) ∧
    (∃ region, CreateRegionInfo [⟨1, 1, "a", 0, 0⟩, ⟨1, 1, "a", 0, 0⟩] = .ok region ∧
      (region.zoneDetails.map (fun p => p.2.endpoints)).sum < region.totalEndpoints) := by
  refine ⟨?_, ?_, ?_⟩
  · intro zs hne hpos _
    exact ⟨_, CreateRegionInfo_ok zs hne hpos⟩
  · intro zs region hok name z hz
    unfold CreateRegionInfo at hok
    by_cases h1 : zs.length = 0
    · simp [h1] at hok
    · by_cases h2 : zs.any (fun z => z.endpoints < 0 || z.nodes < 0)
      · simp [h1, h2] at hok
      · simp only [h1, if_false, h2, Bool.false_eq_true, if_false, Except.ok.injEq] at hok
        subst hok
        simp only at hz
        rw [createRegion_fold_find?] at hz
        cases hlast : (zs.filter (fun w => w.name = name)).getLast? with
        | none => rw [hlast] at hz; simp [SMap.find?] at hz
        | some z0 =>
            rw [hlast] at hz
            simp only [Option.some.injEq] at hz
            subst hz
            exact ⟨z0, rfl, rfl, rfl, rfl⟩
  · refine ⟨_, CreateRegionInfo_ok _ (by simp)
      (by intro z hz; simp only [List.mem_cons, List.not_mem_nil, or_false] at hz
          rcases hz with rfl | rfl <;> norm_num), ?_⟩
    norm_num [SMap.insert, SMap.find?, enrichZone]

/-- Witness for C10 at the duplicated input `[a,a]`. -/
theorem C10_duplicate_zone_names_witness :
    (∃ region, CreateRegionInfo [⟨1, 1, "a", 0, 0⟩, ⟨1, 1, "a", 0, 0⟩] = .ok region) ∧
    (∃ z0, (([⟨1, 1, "a", 0, 0⟩, ⟨1, 1, "a", 0, 0⟩] : List Zone).filter
        (fun w => w.name = "a")).getLast? = some z0) :=
  ⟨C10_duplicate_zone_names.1 _ (by simp)
      (by intro z hz; simp only [List.mem_cons, List.not_mem_nil, or_false] at hz
          rcases hz with rfl | rfl <;> norm_num)
      (by norm_num),
    ⟨⟨1, 1, "a", 0, 0⟩, by norm_num⟩⟩

/-! ## Conservation: Original and Shared-Global -/

theorem SMap.find?_of_mem_nodup {α : Type} (m : SMap α) (k : String) (v : α)
    (hnd : (SMap.keys m).Nodup) (hmem : (k, v) ∈ m) : SMap.find? m k = some v := by
  induction m with
  | nil => simp at hmem
  | cons p rest ih =>
      simp only [SMap.keys, List.map_cons, List.nodup_cons] at hnd
      rcases List.mem_cons.mp hmem with heq | hmem2
      · subst heq
        simp [SMap.find?]
      · have hne : p.1 ≠ k := by
          intro he
          have hk : k ∈ List.map Prod.fst rest := List.mem_map.mpr ⟨(k, v), hmem2, rfl⟩
          exact hnd.1 (he ▸ hk)
        simp only [SMap.find?, hne, if_false]
        exact ih hnd.2 hmem2

theorem SMap.find?_cons_fst {α : Type} (p : String × α) (rest : SMap α) :
    SMap.find? (p :: rest) p.1 = some p.2 := by
  simp [SMap.find?]

theorem SMap.find?_cons_of_ne {α : Type} (p : String × α) (rest : SMap α) (k : String)
    (h : p.1 ≠ k) : SMap.find? (p :: rest) k = SMap.find? rest k := by
  simp [SMap.find?, h]

/-- The global-group composition built by OriginalCreateSliceGroups. -/
theorem originalFold_comp_getD (details : SMap Zone)
    (hnd : (SMap.keys details).Nodup) :
    ∀ (g0 : EndpointSliceGroup) (z : String),
    SMap.getD (details.foldl
      (fun g p =>
        { g with
          zoneTrafficWeights := SMap.insert g.zoneTrafficWeights p.1 1
          composition := SMap.insert g.composition p.1 ⟨p.2.endpoints, 1⟩ }) g0).composition
      z default =
      match SMap.find? details z with
      | some zo => ⟨zo.endpoints, 1⟩
      | none => SMap.getD g0.composition z default := by
  induction details with
  | nil => intro g0 z; simp [SMap.find?]
  | cons p rest ih =>
      intro g0 z
      simp only [SMap.keys, List.map_cons, List.nodup_cons] at hnd
      simp only [List.foldl_cons]
      rw [ih hnd.2]
      by_cases hz : p.1 = z
      · subst hz
        have hrf : SMap.find? rest p.1 = none :=
          (SMap.find?_eq_none_iff rest p.1).mpr hnd.1
        simp [hrf, SMap.find?_cons_fst, SMap.getD_insert_self]
      · simp only [SMap.find?_cons_of_ne _ _ _ hz]
        cases SMap.find? rest z with
        | some zo => rfl
        | none => exact SMap.getD_insert_ne _ _ _ _ _ hz

/-- Endpoint conservation of the Original algorithm. -/
theorem original_conservation (region : RegionInfo)
    (hnd : (SMap.keys region.zoneDetails).Nodup) (m : SGMap)
    (h : OriginalCreateSliceGroups region = .ok m) (z : String) :
    zoneTotalEndpoints m z = regionEndpoints region z := by
  unfold OriginalCreateSliceGroups at h
  by_cases hne : region.zoneDetails = []
  · simp [hne] at h
  · simp only [hne, if_false, Except.ok.injEq] at h
    subst h
    show zoneTotalEndpoints [("global", _)] z = _
    rw [zoneTotalEndpoints_cons, zoneTotalEndpoints_nil]
    rw [originalFold_comp_getD region.zoneDetails hnd]
    unfold regionEndpoints SMap.getD
    cases SMap.find? region.zoneDetails z with
    | some zo => simp
    | none => rfl

/-- The slice-group component of the Shared-Global fold: per-zone totals. -/
theorem sharedGlobalFold_snd_zoneTotal (alg : SharedGlobalAlgorithmCore)
    (region : RegionInfo) (excl : Bool) (details : List (String × Zone)) :
    ∀ (acc : EndpointSliceGroup × SGMap),
    (SMap.keys acc.2 ++ details.map Prod.fst).Nodup →
    ∀ z, zoneTotalEndpoints (details.foldl (sharedGlobalStep alg region excl) acc).2 z =
      zoneTotalEndpoints acc.2 z +
        match SMap.find? details z with
        | some zo => zo.endpoints - sharedGlobalNumber alg region z zo
        | none => 0 := by
  induction details with
  | nil => intro acc _ z; simp [SMap.find?]
  | cons p rest ih =>
      intro acc hnd z
      simp only [List.map_cons] at hnd
      have hfresh : SMap.find? acc.2 p.1 = none := by
        rw [SMap.find?_eq_none_iff]
        intro hk
        exact (List.disjoint_of_nodup_append hnd) hk (by simp)
      have hnd2 : (SMap.keys (sharedGlobalStep alg region excl acc p).2 ++
          rest.map Prod.fst).Nodup := by
        show (SMap.keys (SMap.insert acc.2 p.1 _) ++ rest.map Prod.fst).Nodup
        rw [SMap.keys_insert_fresh _ _ _ hfresh, List.append_assoc]
        simpa using hnd
      simp only [List.foldl_cons]
      rw [ih _ hnd2 z]
      have hsnd : (sharedGlobalStep alg region excl acc p).2 =
          SMap.insert acc.2 p.1
            { label := p.1
              composition := SMap.insert ([] : SMap WeightedEndpoints) p.1
                ⟨p.2.endpoints - sharedGlobalNumber alg region p.1 p.2, 1⟩
              zoneTrafficWeights := SMap.insert ([] : SMap ℚ) p.1 1 } := rfl
      rw [hsnd, zoneTotalEndpoints_insert_fresh _ _ _ _ hfresh]
      by_cases hz : p.1 = z
      · subst hz
        have hrest : SMap.find? rest p.1 = none := by
          rw [SMap.find?_eq_none_iff]
          intro hk
          have := (List.nodup_append.mp hnd).2.1
          simp only [List.nodup_cons] at this
          exact this.1 hk
        simp only [hrest, SMap.find?_cons_fst, SMap.getD_insert_self]
        ring
      · simp only [SMap.find?_cons_of_ne _ _ _ hz,
          SMap.getD_insert_ne _ _ _ _ _ hz]
        have hd : SMap.getD ([] : SMap WeightedEndpoints) z default = default := rfl
        rw [hd]
        cases SMap.find? rest z with
        | some zo => show _ + 0 + _ = _ + _; ring
        | none => show _ + 0 + _ = _ + _; ring

/-- The global-group component of the Shared-Global fold: per-zone entries. -/
theorem sharedGlobalFold_fst_comp (alg : SharedGlobalAlgorithmCore)
    (region : RegionInfo) (excl : Bool) (details : List (String × Zone))
    (hnd : (details.map Prod.fst).Nodup) :
    ∀ (acc : EndpointSliceGroup × SGMap) (z : String),
    SMap.getD (details.foldl (sharedGlobalStep alg region excl) acc).1.composition z default =
      match SMap.find? details z with
      | some zo => ⟨sharedGlobalNumber alg region z zo, 1⟩
      | none => SMap.getD acc.1.composition z default := by
  induction details with
  | nil => intro acc z; simp [SMap.find?]
  | cons p rest ih =>
      intro acc z
      simp only [List.map_cons, List.nodup_cons] at hnd
      simp only [List.foldl_cons]
      rw [ih hnd.2]
      by_cases hz : p.1 = z
      · subst hz
        have hrest : SMap.find? rest p.1 = none := by
          rw [SMap.find?_eq_none_iff]
          intro hk
          exact hnd.1 hk
        simp only [hrest, SMap.find?_cons_fst]
        show SMap.getD (SMap.insert acc.1.composition p.1 _) p.1 default = _
        rw [SMap.getD_insert_self]
      · simp only [SMap.find?_cons_of_ne _ _ _ hz]
        cases SMap.find? rest z with
        | some zo => rfl
        | none =>
            show SMap.getD (SMap.insert acc.1.composition p.1 _) z default = _
            exact SMap.getD_insert_ne _ _ _ _ _ hz

/-- Keys of the slice-group component of the Shared-Global fold. -/
theorem sharedGlobalFold_snd_keys (alg : SharedGlobalAlgorithmCore)
    (region : RegionInfo) (excl : Bool) (details : List (String × Zone)) :
    ∀ (acc : EndpointSliceGroup × SGMap),
    (SMap.keys acc.2 ++ details.map Prod.fst).Nodup →
    SMap.keys (details.foldl (sharedGlobalStep alg region excl) acc).2 =
      SMap.keys acc.2 ++ details.map Prod.fst := by
  induction details with
  | nil => intro acc _; simp
  | cons p rest ih =>
      intro acc hnd
      simp only [List.map_cons] at hnd
      have hfresh : SMap.find? acc.2 p.1 = none := by
        rw [SMap.find?_eq_none_iff]
        intro hk
        exact (List.disjoint_of_nodup_append hnd) hk (by simp)
      have hkeys : SMap.keys (sharedGlobalStep alg region excl acc p).2 =
          SMap.keys acc.2 ++ [p.1] := by
        show SMap.keys (SMap.insert acc.2 p.1 _) = _
        exact SMap.keys_insert_fresh _ _ _ hfresh
      have hnd2 : (SMap.keys (sharedGlobalStep alg region excl acc p).2 ++
          rest.map Prod.fst).Nodup := by
        rw [hkeys, List.append_assoc]
        simpa using hnd
      simp only [List.foldl_cons]
      rw [ih _ hnd2, hkeys]
      simp

/-- Endpoint conservation of the Shared-Global core (both the SharedGlobal
and the SharedMultiZone wrapper), provided no zone is named `global`. -/
theorem sharedGlobalCore_conservation (alg : SharedGlobalAlgorithmCore)
    (region : RegionInfo) (excl : Bool)
    (hnd : (SMap.keys region.zoneDetails).Nodup)
    (hsafe : ∀ n ∈ SMap.keys region.zoneDetails, n ≠ "global")
    (m : SGMap) (h : SharedGlobalCoreCreateSliceGroups alg region excl = .ok m)
    (z : String) : zoneTotalEndpoints m z = regionEndpoints region z := by
  unfold SharedGlobalCoreCreateSliceGroups at h
  by_cases hne : region.zoneDetails = []
  · simp [hne] at h
  · by_cases hth : region.totalEndpoints ≤ alg.globalThreshold
    · simp only [hne, if_false, hth, if_true] at h
      exact original_conservation region hnd m h z
    · simp only [hne, if_false, hth, if_true, Except.ok.injEq] at h
      subst h
      have hndacc : (SMap.keys ((⟨"global", [], []⟩, ([] : SGMap)) :
          EndpointSliceGroup × SGMap).2 ++ region.zoneDetails.map Prod.fst).Nodup := by
        simpa [SMap.keys] using hnd
      have hgfresh : SMap.find?
          (region.zoneDetails.foldl (sharedGlobalStep alg region excl)
            (⟨"global", [], []⟩, ([] : SGMap))).2 "global" = none := by
        rw [SMap.find?_eq_none_iff,
          sharedGlobalFold_snd_keys alg region excl region.zoneDetails _ hndacc]
        intro hk
        simp only [List.nil_append] at hk
        exact hsafe "global" hk rfl
      rw [zoneTotalEndpoints_insert_fresh _ _ _ _ hgfresh]
      rw [sharedGlobalFold_snd_zoneTotal alg region excl region.zoneDetails _ hndacc z]
      rw [sharedGlobalFold_fst_comp alg region excl region.zoneDetails hnd]
      unfold regionEndpoints SMap.getD
      cases SMap.find? region.zoneDetails z with
      | some zo => simp only [Option.getD_some, zoneTotalEndpoints_nil]; ring
      | none => rfl

/-- Keys of a region built by CreateRegionInfo from distinct names. -/
theorem CreateRegionInfo_keys (zs : List Zone) (region : RegionInfo)
    (h : CreateRegionInfo zs = .ok region) (hnd : (zs.map Zone.name).Nodup) :
    SMap.keys region.zoneDetails = zs.map Zone.name := by
  unfold CreateRegionInfo at h
  by_cases h1 : zs.length = 0
  · simp [h1] at h
  · by_cases h2 : zs.any (fun z => z.endpoints < 0 || z.nodes < 0)
    · simp [h1, h2] at h
    · simp only [h1, if_false, h2, Bool.false_eq_true, if_false, Except.ok.injEq] at h
      subst h
      simp only
      rw [createRegion_fold_eq_map zs _ _ [] hnd (by intro z _; rfl)]
      simp [SMap.keys, Function.comp]

/-- Local groups stored by the Shared-Global fold. -/
theorem sharedGlobalFold_snd_find? (alg : SharedGlobalAlgorithmCore)
    (region : RegionInfo) (excl : Bool) (details : List (String × Zone)) :
    ∀ (acc : EndpointSliceGroup × SGMap),
    (SMap.keys acc.2 ++ details.map Prod.fst).Nodup →
    ∀ z, SMap.find? (details.foldl (sharedGlobalStep alg region excl) acc).2 z =
      match SMap.find? details z with
      | some zo => some
          { label := z
            composition := SMap.insert ([] : SMap WeightedEndpoints) z
              ⟨zo.endpoints - sharedGlobalNumber alg region z zo, 1⟩
            zoneTrafficWeights := SMap.insert ([] : SMap ℚ) z 1 }
      | none => SMap.find? acc.2 z := by
  induction details with
  | nil => intro acc _ z; simp [SMap.find?]
  | cons p rest ih =>
      intro acc hnd z
      simp only [List.map_cons] at hnd
      have hfresh : SMap.find? acc.2 p.1 = none := by
        rw [SMap.find?_eq_none_iff]
        intro hk
        exact (List.disjoint_of_nodup_append hnd) hk (by simp)
      have hnd2 : (SMap.keys (sharedGlobalStep alg region excl acc p).2 ++
          rest.map Prod.fst).Nodup := by
        show (SMap.keys (SMap.insert acc.2 p.1 _) ++ rest.map Prod.fst).Nodup
        rw [SMap.keys_insert_fresh _ _ _ hfresh, List.append_assoc]
        simpa using hnd
      simp only [List.foldl_cons]
      rw [ih _ hnd2 z]
      by_cases hz : p.1 = z
      · subst hz
        have hrest : SMap.find? rest p.1 = none := by
          rw [SMap.find?_eq_none_iff]
          intro hk
          have := (List.nodup_append.mp hnd).2.1
          simp only [List.nodup_cons] at this
          exact this.1 hk
        simp only [hrest, SMap.find?_cons_fst]
        show SMap.find? (SMap.insert acc.2 p.1 _) p.1 = _
        rw [SMap.find?_insert_self]
      · simp only [SMap.find?_cons_of_ne _ _ _ hz]
        cases SMap.find? rest z with
        | some zo => rfl
        | none =>
            show SMap.find? (SMap.insert acc.2 p.1 _) z = _
            exact SMap.find?_insert_ne _ _ _ _ hz

/-- Traffic weights of the global group built by the Shared-Global fold. -/
theorem sharedGlobalFold_fst_weights (alg : SharedGlobalAlgorithmCore)
    (region : RegionInfo) (excl : Bool) (details : List (String × Zone))
    (hnd : (details.map Prod.fst).Nodup) :
    ∀ (acc : EndpointSliceGroup × SGMap) (z : String),
    SMap.getD (details.foldl (sharedGlobalStep alg region excl) acc).1.zoneTrafficWeights z 0 =
      match SMap.find? details z with
      | some zo =>
          if excl && sharedGlobalNumber alg region z zo ≠ 0 &&
              zo.endpoints - sharedGlobalNumber alg region z zo ≠ 0 then 0
          else alg.globalWeight
      | none => SMap.getD acc.1.zoneTrafficWeights z 0 := by
  induction details with
  | nil => intro acc z; simp [SMap.find?]
  | cons p rest ih =>
      intro acc z
      simp only [List.map_cons, List.nodup_cons] at hnd
      simp only [List.foldl_cons]
      rw [ih hnd.2]
      by_cases hz : p.1 = z
      · subst hz
        have hrest : SMap.find? rest p.1 = none := by
          rw [SMap.find?_eq_none_iff]
          intro hk
          exact hnd.1 hk
        simp only [hrest, SMap.find?_cons_fst]
        show SMap.getD (SMap.insert acc.1.zoneTrafficWeights p.1 _) p.1 0 = _
        rw [SMap.getD_insert_self]
      · simp only [SMap.find?_cons_of_ne _ _ _ hz]
        cases SMap.find? rest z with
        | some zo => rfl
        | none =>
            show SMap.getD (SMap.insert acc.1.zoneTrafficWeights p.1 _) z 0 = _
            exact SMap.getD_insert_ne _ _ _ _ _ hz

/-- C3 counterexample: with a zone literally named `global` the global group
overwrites that zone's local group, so "its local group keeps
endpoints − contribution" fails: the contribution is 0, yet no group of the
output holds the 60 endpoints of zone `global` (its per-zone total is 0). -/
theorem C3_sharedGlobal_counterexample :
    CreateRegionInfo sgCexZones = .ok sgCexRegion ∧
    sgCexRegion.totalEndpoints > sgRegistryAlg.globalThreshold ∧
    (SharedGlobalCoreCreateSliceGroups sgRegistryAlg sgCexRegion false).map
      (fun m => (SMap.getD (sgGet m "global").composition "global" default).number) = .ok 0 ∧
    regionEndpoints sgCexRegion "global" = 60 ∧
    (SharedGlobalCoreCreateSliceGroups sgRegistryAlg sgCexRegion false).map
      (fun m => zoneTotalEndpoints m "global") = .ok 0 := by
  refine ⟨?_, by norm_num [sgCexRegion, sgRegistryAlg], ?_, ?_, ?_⟩
  · simp [CreateRegionInfo, sgCexZones, sgCexRegion, enrichZone, SMap.insert]
    norm_num
  · simp [SharedGlobalCoreCreateSliceGroups, sgCexRegion, sgRegistryAlg,
      sharedGlobalStep, sharedGlobalNumber, sharedGlobalDeviation, goTrunc,
      SMap.insert, SMap.getD, SMap.find?, sgGet]
    norm_num
    simp [Except.map, sgGet, SMap.getD, SMap.find?]
  · simp [regionEndpoints, sgCexRegion, SMap.getD, SMap.find?]
  · simp [SharedGlobalCoreCreateSliceGroups, sgCexRegion, sgRegistryAlg,
      sharedGlobalStep, sharedGlobalNumber, sharedGlobalDeviation, goTrunc,
      SMap.insert, SMap.getD, SMap.find?, zoneTotalEndpoints]
    norm_num
    simp [Except.map, zoneTotalEndpoints, SMap.getD, SMap.find?]
    rfl

/-- C3 amended: on a region none of whose zones is named `global`, with a
positive global weight and total endpoints above the threshold, every zone's
entry in the global group is `trunc (min (max 0 (e - T*nr) / gw) e)` with
weight 1, its local group keeps the remaining endpoints with weight 1, and its
traffic weight on the global group is `gw`, or 0 when the contributor is
excluded, contributed a nonzero amount and kept local endpoints. -/
theorem C3_sharedGlobalCore_formulas (alg : SharedGlobalAlgorithmCore)
    (zs : List Zone) (region : RegionInfo) (excl : Bool)
    (hok : CreateRegionInfo zs = .ok region) (hnd : (zs.map Zone.name).Nodup)
    (hsafe : ∀ z ∈ zs, z.name ≠ "global")
    (hgw : 0 < alg.globalWeight)
    (hth : region.totalEndpoints > alg.globalThreshold)
    (m : SGMap) (hm : SharedGlobalCoreCreateSliceGroups alg region excl = .ok m)
    (name : String) (zone : Zone)
    (hz : SMap.find? region.zoneDetails name = some zone) :
    (SMap.getD (sgGet m "global").composition name default).number =
      goTrunc (min (max 0 ((zone.endpoints : ℚ) -
        (region.totalEndpoints : ℚ) * zone.nodesRatio) / alg.globalWeight)
        ((zone.endpoints : ℚ))) ∧
    (SMap.getD (sgGet m name).composition name default).number =
      zone.endpoints - goTrunc (min (max 0 ((zone.endpoints : ℚ) -
        (region.totalEndpoints : ℚ) * zone.nodesRatio) / alg.globalWeight)
        ((zone.endpoints : ℚ))) ∧
    SMap.getD (sgGet m "global").zoneTrafficWeights name 0 =
      (if excl = true ∧
          goTrunc (min (max 0 ((zone.endpoints : ℚ) -
            (region.totalEndpoints : ℚ) * zone.nodesRatio) / alg.globalWeight)
            ((zone.endpoints : ℚ))) ≠ 0 ∧
          zone.endpoints - goTrunc (min (max 0 ((zone.endpoints : ℚ) -
            (region.totalEndpoints : ℚ) * zone.nodesRatio) / alg.globalWeight)
            ((zone.endpoints : ℚ))) ≠ 0 then 0
       else alg.globalWeight) := by
  have hkeys : SMap.keys region.zoneDetails = zs.map Zone.name :=
    CreateRegionInfo_keys zs region hok hnd
  have hndk : (SMap.keys region.zoneDetails).Nodup := by rw [hkeys]; exact hnd
  have hname : name ≠ "global" := by
    intro he
    have hmem : name ∈ SMap.keys region.zoneDetails := by
      by_contra hn
      have hnone := (SMap.find?_eq_none_iff region.zoneDetails name).mpr hn
      rw [hnone] at hz
      cases hz
    rw [hkeys] at hmem
    obtain ⟨w, hw, hwn⟩ := List.mem_map.mp hmem
    exact hsafe w hw (by rw [hwn, he])
  have hgn : sharedGlobalNumber alg region name zone =
      goTrunc (min (max 0 ((zone.endpoints : ℚ) -
        (region.totalEndpoints : ℚ) * zone.nodesRatio) / alg.globalWeight)
        ((zone.endpoints : ℚ))) := by
    unfold sharedGlobalNumber sharedGlobalDeviation SMap.getD
    rw [hz]
    rfl
  unfold SharedGlobalCoreCreateSliceGroups at hm
  have hne : ¬ region.zoneDetails = [] := by
    intro he
    rw [he] at hz
    simp [SMap.find?] at hz
  have hth2 : ¬ region.totalEndpoints ≤ alg.globalThreshold := by omega
  simp only [hne, if_false, hth2, Bool.false_eq_true, if_false, Except.ok.injEq] at hm
  subst hm
  have hndacc : (SMap.keys ((⟨"global", [], []⟩, ([] : SGMap)) :
      EndpointSliceGroup × SGMap).2 ++ region.zoneDetails.map Prod.fst).Nodup := by
    simpa [SMap.keys] using hndk
  have hglobal : sgGet (SMap.insert
      (region.zoneDetails.foldl (sharedGlobalStep alg region excl)
        (⟨"global", [], []⟩, ([] : SGMap))).2 "global"
      (region.zoneDetails.foldl (sharedGlobalStep alg region excl)
        (⟨"global", [], []⟩, ([] : SGMap))).1) "global" =
      (region.zoneDetails.foldl (sharedGlobalStep alg region excl)
        (⟨"global", [], []⟩, ([] : SGMap))).1 := by
    unfold sgGet
    rw [SMap.getD_insert_self]
  refine ⟨?_, ?_, ?_⟩
  · rw [hglobal, sharedGlobalFold_fst_comp alg region excl region.zoneDetails hndk _ name]
    simp only [hz]
    exact hgn
  · have hlocal : sgGet (SMap.insert
        (region.zoneDetails.foldl (sharedGlobalStep alg region excl)
          (⟨"global", [], []⟩, ([] : SGMap))).2 "global"
        (region.zoneDetails.foldl (sharedGlobalStep alg region excl)
          (⟨"global", [], []⟩, ([] : SGMap))).1) name =
        { label := name
          composition := SMap.insert ([] : SMap WeightedEndpoints) name
            ⟨zone.endpoints - sharedGlobalNumber alg region name zone, 1⟩
          zoneTrafficWeights := SMap.insert ([] : SMap ℚ) name 1 } := by
      unfold sgGet SMap.getD
      rw [SMap.find?_insert_ne _ _ _ _ (Ne.symm hname)]
      rw [sharedGlobalFold_snd_find? alg region excl region.zoneDetails _ hndacc name]
      simp only [hz, Option.getD_some]
    rw [hlocal]
    simp only [SMap.getD_insert_self]
    rw [hgn]
  · rw [hglobal, sharedGlobalFold_fst_weights alg region excl region.zoneDetails hndk _ name]
    simp only [hz]
    rw [← hgn]
    by_cases hc : excl = true ∧ sharedGlobalNumber alg region name zone ≠ 0 ∧
        zone.endpoints - sharedGlobalNumber alg region name zone ≠ 0
    · rw [if_pos hc]
      obtain ⟨h1, h2, h3⟩ := hc
      simp [h1, h2, h3]
    · rw [if_neg hc]
      push_neg at hc
      by_cases he : excl = true
      · by_cases hn2 : sharedGlobalNumber alg region name zone = 0
        · simp [hn2]
        · have := hc he hn2
          simp [he, hn2, this]
      · have hef : excl = false := by
          cases excl
          · rfl
          · exact absurd rfl he
        simp [hef]

/-- Witness for the amended C3 at a concrete region: two zones of 60 endpoints
each, threshold 100, weight 2/5; zone `a` contributes 0 to the global group,
keeps 60 locally, and carries traffic weight 2/5 on the global group. -/
theorem C3_sharedGlobalCore_formulas_witness :
    CreateRegionInfo sgFormZones = Except.ok sgFormRegion ∧
    SharedGlobalCoreCreateSliceGroups sgRegistryAlg sgFormRegion false =
      Except.ok sgFormMap ∧
    (SMap.getD (sgGet sgFormMap "global").composition "a" default).number = 0 ∧
    (SMap.getD (sgGet sgFormMap "a").composition "a" default).number = 60 ∧
    SMap.getD (sgGet sgFormMap "global").zoneTrafficWeights "a" 0 = 2/5 := by
  have hok : CreateRegionInfo sgFormZones = Except.ok sgFormRegion := by
    simp [CreateRegionInfo, sgFormZones, sgFormRegion, enrichZone, SMap.insert]
    norm_num
  have hm : SharedGlobalCoreCreateSliceGroups sgRegistryAlg sgFormRegion false =
      Except.ok sgFormMap := by
    simp [SharedGlobalCoreCreateSliceGroups, sgFormRegion, sgFormMap, sgRegistryAlg,
      sharedGlobalStep, sharedGlobalNumber, sharedGlobalDeviation, goTrunc,
      SMap.insert, SMap.getD, SMap.find?]
    norm_num
  have hz : SMap.find? sgFormRegion.zoneDetails "a" =
      some ⟨1, 60, "a", 1/2, 1/2⟩ := by
    simp [sgFormRegion, SMap.find?]
  have happ := C3_sharedGlobalCore_formulas sgRegistryAlg sgFormZones sgFormRegion
    false hok (by decide) (by decide)
    (by norm_num [sgRegistryAlg])
    (by norm_num [sgFormRegion, sgRegistryAlg])
    sgFormMap hm "a" ⟨1, 60, "a", 1/2, 1/2⟩ hz
  obtain ⟨h1, h2, h3⟩ := happ
  refine ⟨hok, hm, ?_, ?_, ?_⟩
  · rw [h1]; norm_num [goTrunc, sgFormRegion, sgRegistryAlg]
  · rw [h2]; norm_num [goTrunc, sgFormRegion, sgRegistryAlg]
  · rw [h3]; norm_num [sgRegistryAlg]

/-! ## Local algorithm: conservation -/

/-- A paired transfer (the receiver gains `1` endpoint of zone `c`, zone `c`'s
own group loses `1`) leaves every zone total unchanged. -/
theorem pairedTransfer_zoneTotal {sgs sgs1 sgs2 : SGMap} {r c : String} {w : ℚ}
    (h1 : updateSGComposition sgs r c 1 w = some sgs1)
    (h2 : updateSGComposition sgs1 c c (-1) w = some sgs2) (z : String) :
    zoneTotalEndpoints sgs2 z = zoneTotalEndpoints sgs z := by
  rw [updateSGComposition_zoneTotal h2 z, updateSGComposition_zoneTotal h1 z]
  by_cases hz : z = c <;> simp [hz]

/-- The inner drain loop of the first balancing round moves endpoints in
pairs, so it preserves every zone total. -/
theorem localInnerLoop_zoneTotal (alg : LocalSliceAlgorithm) (region : RegionInfo)
    (receiver : String) :
    ∀ (fuel : ℕ) (sgs : SGMap) (pool : List String) (out : SGMap × List String),
    localInnerLoop alg region receiver fuel sgs pool = some out →
    ∀ z, zoneTotalEndpoints out.1 z = zoneTotalEndpoints sgs z := by
  intro fuel
  induction fuel with
  | zero => intro sgs pool out h; exact Option.noConfusion h
  | succ n ih =>
      intro sgs pool out h z
      rw [localInnerLoop] at h
      split at h
      · split at h
        · cases h; rfl
        · split at h
          · exact Option.noConfusion h
          · rename_i candidate pool2 hpop
            split at h
            · exact Option.noConfusion h
            · rename_i sgs1 hupd1
              split at h
              · exact Option.noConfusion h
              · rename_i sgs2 hupd2
                rw [ih _ _ _ h z]
                exact pairedTransfer_zoneTotal hupd1 hupd2 z
      · cases h; rfl

/-- The first balancing round preserves every zone total. -/
theorem localReceiverLoop_zoneTotal (alg : LocalSliceAlgorithm) (region : RegionInfo) :
    ∀ (fuel : ℕ) (sgs : SGMap) (ap rp : List String) (out : Bool × SGMap × List String),
    localReceiverLoop alg region fuel sgs ap rp = some out →
    ∀ z, zoneTotalEndpoints out.2.1 z = zoneTotalEndpoints sgs z := by
  intro fuel
  induction fuel with
  | zero => intro sgs ap rp out h; exact Option.noConfusion h
  | succ n ih =>
      intro sgs ap rp out h z
      rw [localReceiverLoop] at h
      split at h
      · split at h
        · exact Option.noConfusion h
        · rename_i receiver rp2 hpop
          split at h
          · exact Option.noConfusion h
          · rename_i sgs1 ap1 hinner
            split at h
            · cases h
              exact localInnerLoop_zoneTotal alg region receiver n sgs ap _ hinner z
            · rw [ih _ _ _ _ h z]
              exact localInnerLoop_zoneTotal alg region receiver n sgs ap _ hinner z
      · cases h; rfl

/-- The transfer loop of the cost-for-spread pass preserves every zone
total. -/
theorem localSpreadTransfer_zoneTotal (receiver candidate : String) :
    ∀ (fuel : ℕ) (dev rdev : ℚ) (sgs : SGMap) (out : ℚ × ℚ × SGMap),
    localSpreadTransfer receiver candidate fuel dev rdev sgs = some out →
    ∀ z, zoneTotalEndpoints out.2.2 z = zoneTotalEndpoints sgs z := by
  intro fuel
  induction fuel with
  | zero => intro dev rdev sgs out h; exact Option.noConfusion h
  | succ n ih =>
      intro dev rdev sgs out h z
      rw [localSpreadTransfer] at h
      split at h
      · split at h
        · exact Option.noConfusion h
        · rename_i sgs1 hupd1
          split at h
          · exact Option.noConfusion h
          · rename_i sgs2 hupd2
            rw [ih _ _ _ _ h z]
            exact pairedTransfer_zoneTotal hupd1 hupd2 z
      · cases h; rfl

/-- The zone-pool loop of the cost-for-spread pass preserves every zone
total. -/
theorem localZonePoolLoop_zoneTotal (alg : LocalSliceAlgorithm) (region : RegionInfo)
    (candidate : String) :
    ∀ (fuel : ℕ) (dev : ℚ) (sgs : SGMap) (zp : List String)
      (out : Bool × ℚ × SGMap × List String),
    localZonePoolLoop alg region candidate fuel dev sgs zp = some out →
    ∀ z, zoneTotalEndpoints out.2.2.1 z = zoneTotalEndpoints sgs z := by
  intro fuel
  induction fuel with
  | zero => intro dev sgs zp out h; exact Option.noConfusion h
  | succ n ih =>
      intro dev sgs zp out h z
      rw [localZonePoolLoop] at h
      split at h
      · split at h
        · exact Option.noConfusion h
        · rename_i receiver zp2 hpop
          split at h
          · exact ih _ _ _ _ h z
          · rename_i rdev hdev
            split at h
            · cases h; rfl
            · split at h
              · exact Option.noConfusion h
              · rename_i dev2 rdev2 sgs2 htr
                split at h
                · cases h
                  exact localSpreadTransfer_zoneTotal receiver candidate n _ _ sgs _ htr z
                · rw [ih _ _ _ _ h z]
                  exact localSpreadTransfer_zoneTotal receiver candidate n _ _ sgs _ htr z
      · cases h; rfl

/-- The cost-for-spread pass preserves every zone total. -/
theorem localSpreadLoop_zoneTotal (alg : LocalSliceAlgorithm) (region : RegionInfo) :
    ∀ (fuel : ℕ) (sgs : SGMap) (ap zp : List String)
      (out : SGMap × List String × List String),
    localSpreadLoop alg region fuel sgs ap zp = some out →
    ∀ z, zoneTotalEndpoints out.1 z = zoneTotalEndpoints sgs z := by
  intro fuel
  induction fuel with
  | zero => intro sgs ap zp out h; exact Option.noConfusion h
  | succ n ih =>
      intro sgs ap zp out h z
      rw [localSpreadLoop] at h
      split at h
      · split at h
        · exact Option.noConfusion h
        · rename_i candidate ap2 hpop
          split at h
          · exact ih _ _ _ _ h z
          · rename_i dev hdev
            split at h
            · cases h; rfl
            · split at h
              · exact Option.noConfusion h
              · rename_i returned dev2 sgs2 zp2 hzpl
                split at h
                · cases h
                  exact localZonePoolLoop_zoneTotal alg region candidate n dev sgs zp _ hzpl z
                · rw [ih _ _ _ _ h z]
                  exact localZonePoolLoop_zoneTotal alg region candidate n dev sgs zp _ hzpl z
      · cases h; rfl

/-- balanceSliceGroups of the Local algorithm preserves every zone total. -/
theorem localBalance_zoneTotal (alg : LocalSliceAlgorithm) (region : RegionInfo)
    (fuel : ℕ) (ap rp zp : List String) (sgs : SGMap) (out : Bool × SGMap)
    (h : alg.balanceSliceGroups region fuel ap rp zp sgs = some out) (z : String) :
    zoneTotalEndpoints out.2 z = zoneTotalEndpoints sgs z := by
  unfold LocalSliceAlgorithm.balanceSliceGroups at h
  dsimp only at h
  split at h
  · exact Option.noConfusion h
  · rename_i sgs1 ap1 hrec
    cases h
    exact localReceiverLoop_zoneTotal alg region fuel sgs _ _ _ hrec z
  · rename_i sgs1 ap1 hrec
    split at h
    · exact Option.noConfusion h
    · rename_i sgs2 ap2 zp2 hspread
      cases h
      rw [localSpreadLoop_zoneTotal alg region fuel sgs1 _ _ _ hspread z]
      exact localReceiverLoop_zoneTotal alg region fuel sgs _ _ _ hrec z

/-- The per-zone contribution of one zone group built by the Local setup. -/
theorem localGroup_comp_getD (region : RegionInfo) (n z : String) :
    (SMap.getD (if (SMap.getD region.zoneDetails n default).endpoints ≠ 0 then
        SMap.insert ([] : SMap WeightedEndpoints) n
          ⟨(SMap.getD region.zoneDetails n default).endpoints, 1⟩
      else []) z default).number =
      if z = n then (SMap.getD region.zoneDetails n default).endpoints else 0 := by
  have hdef : (default : WeightedEndpoints).number = 0 := rfl
  by_cases he : (SMap.getD region.zoneDetails n default).endpoints ≠ 0
  · rw [if_pos he]
    by_cases hz : z = n
    · subst hz
      rw [SMap.getD_insert_self]
      simp
    · rw [SMap.getD_insert_ne _ _ _ _ _ (Ne.symm hz)]
      simp [SMap.getD, SMap.find?, hz, hdef]
  · rw [if_neg he]
    push_neg at he
    by_cases hz : z = n
    · subst hz
      simp only [SMap.getD] at he
      simp [SMap.getD, SMap.find?, hdef, he]
    · simp [SMap.getD, SMap.find?, hz, hdef]

/-- Zone totals after the Local setup fold. -/
theorem localSetupFold_zoneTotal (alg : LocalSliceAlgorithm) (region : RegionInfo) :
    ∀ (names : List String) (acc : SGMap × List String × List String × List String),
    (SMap.keys acc.1 ++ names).Nodup →
    ∀ z, zoneTotalEndpoints (names.foldl (localSetupStep alg region) acc).1 z =
      zoneTotalEndpoints acc.1 z +
        (if z ∈ names then (SMap.getD region.zoneDetails z default).endpoints else 0) := by
  intro names
  induction names with
  | nil => intro acc _ z; simp
  | cons n rest ih =>
      intro acc hnd z
      have hfresh : SMap.find? acc.1 n = none := by
        rw [SMap.find?_eq_none_iff]
        intro hk
        exact (List.disjoint_of_nodup_append hnd) hk (by simp)
      have hkeys1 : SMap.keys (localSetupStep alg region acc n).1 =
          SMap.keys acc.1 ++ [n] := by
        show SMap.keys (SMap.insert acc.1 n _) = _
        exact SMap.keys_insert_fresh _ _ _ hfresh
      have hnd2 : (SMap.keys (localSetupStep alg region acc n).1 ++ rest).Nodup := by
        rw [hkeys1, List.append_assoc]
        simpa using hnd
      simp only [List.foldl_cons]
      rw [ih _ hnd2 z]
      have hstep1 : zoneTotalEndpoints (localSetupStep alg region acc n).1 z =
          zoneTotalEndpoints acc.1 z +
            (if z = n then (SMap.getD region.zoneDetails z default).endpoints else 0) := by
        show zoneTotalEndpoints (SMap.insert acc.1 n _) z = _
        rw [zoneTotalEndpoints_insert_fresh _ _ _ _ hfresh]
        congr 1
        rw [localGroup_comp_getD region n z]
        by_cases hz : z = n
        · subst hz; rfl
        · simp [hz]
      rw [hstep1]
      by_cases hz : z = n
      · subst hz
        have hnr : z ∉ rest := by
          have h2 := (List.nodup_append.mp hnd).2.1
          exact (List.nodup_cons.mp h2).1
        simp [hnr]
      · by_cases hr : z ∈ rest <;> simp [hz, hr]

/-- Zone totals right after the Local setup equal the region's endpoint
counts. -/
theorem localSetup_zoneTotal (alg : LocalSliceAlgorithm) (region : RegionInfo)
    (hnd : (SMap.keys region.zoneDetails).Nodup) (z : String) :
    zoneTotalEndpoints (localSetup alg region).1 z = regionEndpoints region z := by
  unfold localSetup
  have hperm : (sortZoneByNames region.zoneDetails).Perm (SMap.keys region.zoneDetails) :=
    List.mergeSort_perm _ _
  have hnds : (SMap.keys ([] : SGMap) ++ sortZoneByNames region.zoneDetails).Nodup := by
    simpa [SMap.keys] using hperm.nodup_iff.mpr hnd
  rw [localSetupFold_zoneTotal alg region _ _ hnds z]
  rw [zoneTotalEndpoints_nil, zero_add]
  by_cases hm : z ∈ SMap.keys region.zoneDetails
  · rw [if_pos (hperm.mem_iff.mpr hm)]
    rfl
  · rw [if_neg (fun hc => hm (hperm.mem_iff.mp hc))]
    unfold regionEndpoints SMap.getD
    rw [(SMap.find?_eq_none_iff _ _).mpr hm]
    rfl

/-- Conservation for LocalSliceAlgorithm.CreateSliceGroups: whatever branch
returns (balanced output or fallback to Original), zone totals equal the
region's endpoint counts. -/
theorem localCreate_conservation (alg : LocalSliceAlgorithm) (region : RegionInfo)
    (hnd : (SMap.keys region.zoneDetails).Nodup) (fuel : ℕ) (m : SGMap)
    (h : alg.CreateSliceGroups region fuel = some (.ok m)) (z : String) :
    zoneTotalEndpoints m z = regionEndpoints region z := by
  unfold LocalSliceAlgorithm.CreateSliceGroups at h
  split at h
  · simp at h
  · split at h
    · simp only [Option.some.injEq] at h
      exact original_conservation region hnd m h z
    · dsimp only at h
      split at h
      · exact Option.noConfusion h
      · simp only [Option.some.injEq] at h
        exact original_conservation region hnd m h z
      · rename_i x sgs2 hbal
        simp only [Option.some.injEq, Except.ok.injEq] at h
        subst h
        rw [localBalance_zoneTotal alg region fuel _ _ _ _ _ hbal z]
        exact localSetup_zoneTotal alg region hnd z

/-! ## Local-Shared algorithm: auxiliary map and label lemmas -/

theorem SMap.mem_insert {α : Type} {m : SMap α} {k : String} {v : α}
    {q : String × α} (h : q ∈ SMap.insert m k v) : q ∈ m ∨ q = (k, v) := by
  induction m with
  | nil =>
      simp only [SMap.insert, List.mem_singleton] at h
      exact Or.inr h
  | cons p rest ih =>
      by_cases hp : p.1 = k
      · rw [show SMap.insert (p :: rest) k v = (k, v) :: rest by
          simp [SMap.insert, hp]] at h
        rcases List.mem_cons.mp h with h | h
        · exact Or.inr h
        · exact Or.inl (List.mem_cons_of_mem _ h)
      · rw [show SMap.insert (p :: rest) k v = p :: SMap.insert rest k v by
          simp [SMap.insert, hp]] at h
        rcases List.mem_cons.mp h with h | h
        · exact Or.inl (h ▸ List.mem_cons_self _ _)
        · rcases ih h with h2 | h2
          · exact Or.inl (List.mem_cons_of_mem _ h2)
          · exact Or.inr h2

theorem SMap.mem_erase {α : Type} {m : SMap α} {k : String}
    {q : String × α} (h : q ∈ SMap.erase m k) : q ∈ m := by
  induction m with
  | nil => simp [SMap.erase] at h
  | cons p rest ih =>
      by_cases hp : p.1 = k
      · rw [show SMap.erase (p :: rest) k = rest by simp [SMap.erase, hp]] at h
        exact List.mem_cons_of_mem _ h
      · rw [show SMap.erase (p :: rest) k = p :: SMap.erase rest k by
          simp [SMap.erase, hp]] at h
        rcases List.mem_cons.mp h with h | h
        · exact h ▸ List.mem_cons_self _ _
        · exact List.mem_cons_of_mem _ (ih h)

theorem SMap.keys_erase_subset {α : Type} (m : SMap α) (k : String) :
    ∀ x ∈ SMap.keys (SMap.erase m k), x ∈ SMap.keys m := by
  intro x hx
  obtain ⟨q, hq, hqx⟩ := List.mem_map.mp hx
  exact List.mem_map.mpr ⟨q, SMap.mem_erase hq, hqx⟩

theorem SMap.find?_mem {α : Type} {m : SMap α} {k : String} {v : α}
    (h : SMap.find? m k = some v) : (k, v) ∈ m := by
  induction m with
  | nil => simp [SMap.find?] at h
  | cons p rest ih =>
      by_cases hp : p.1 = k
      · rw [show SMap.find? (p :: rest) k = some p.2 by simp [SMap.find?, hp]] at h
        cases h
        exact (show p = (p.1, p.2) from rfl) ▸ (hp ▸ List.mem_cons_self p rest)
      · rw [show SMap.find? (p :: rest) k = SMap.find? rest k by
          simp [SMap.find?, hp]] at h
        exact List.mem_cons_of_mem _ (ih h)

theorem SMap.keys_nodup_insert {α : Type} (m : SMap α) (k : String) (v : α)
    (h : (SMap.keys m).Nodup) : (SMap.keys (SMap.insert m k v)).Nodup := by
  cases hf : SMap.find? m k with
  | some g =>
      rw [SMap.keys_insert_found m k v (by rw [hf]; simp)]
      exact h
  | none =>
      rw [SMap.keys_insert_fresh m k v hf]
      rw [List.nodup_append]
      refine ⟨h, List.nodup_singleton k, ?_⟩
      intro x hx hk
      rw [List.mem_singleton] at hk
      subst hk
      exact (SMap.find?_eq_none_iff m x).mp hf hx

/-- A counter bump keeps the running sum of an extra-endpoints map in step. -/
theorem extrasSum_insert_getD (m : SMap ℤ) (k : String) :
    extrasSum (SMap.insert m k (SMap.getD m k 0 + 1)) = extrasSum m + 1 := by
  induction m with
  | nil => simp [SMap.insert, SMap.getD, SMap.find?, extrasSum]
  | cons p rest ih =>
      by_cases hp : p.1 = k
      · rw [show SMap.insert (p :: rest) k (SMap.getD (p :: rest) k 0 + 1) =
            (k, SMap.getD (p :: rest) k 0 + 1) :: rest by simp [SMap.insert, hp]]
        have : SMap.getD (p :: rest) k 0 = p.2 := by
          simp [SMap.getD, SMap.find?, hp]
        rw [this]
        simp [extrasSum]
        ring
      · rw [show SMap.insert (p :: rest) k (SMap.getD (p :: rest) k 0 + 1) =
            p :: SMap.insert rest k (SMap.getD rest k 0 + 1) by
          simp [SMap.insert, SMap.getD, SMap.find?, hp]]
        simp only [extrasSum, List.map_cons, List.sum_cons] at ih ⊢
        rw [ih]
        ring

/-- A counter bump keeps every counter at least 1. -/
theorem extrasPos_insert (m : SMap ℤ) (k : String)
    (hpos : ∀ p ∈ m, 1 ≤ p.2) :
    ∀ p ∈ SMap.insert m k (SMap.getD m k 0 + 1), 1 ≤ p.2 := by
  intro q hq
  rcases SMap.mem_insert hq with h | h
  · exact hpos q h
  · subst h
    show 1 ≤ SMap.getD m k 0 + 1
    cases hf : SMap.find? m k with
    | none => simp [SMap.getD, hf]
    | some v =>
        have hv := hpos (k, v) (SMap.find?_mem hf)
        simp only [SMap.getD, hf, Option.getD_some]
        omega

/-- Reading every key of a duplicate-free counter map recovers its sum. -/
theorem keysGetDSum (m : SMap ℤ) (hnd : (SMap.keys m).Nodup) :
    ((SMap.keys m).map (fun k => SMap.getD m k 0)).sum = extrasSum m := by
  induction m with
  | nil => simp [SMap.keys, extrasSum]
  | cons p rest ih =>
      simp only [SMap.keys, List.map_cons, List.nodup_cons] at hnd
      have h1 : SMap.getD (p :: rest) p.1 0 = p.2 := by
        simp [SMap.getD, SMap.find?]
      have h2 : (SMap.keys rest).map (fun k => SMap.getD (p :: rest) k 0) =
          (SMap.keys rest).map (fun k => SMap.getD rest k 0) := by
        apply List.map_congr_left
        intro k hk
        have hne : p.1 ≠ k := fun he => hnd.1 (he ▸ hk)
        simp [SMap.getD, SMap.find?, hne]
      show (List.map (fun k => SMap.getD (p :: rest) k 0) (p.1 :: SMap.keys rest)).sum = _
      rw [List.map_cons, List.sum_cons, h1, h2, ih hnd.2]
      simp [extrasSum]

theorem labelPrefixed_refl (p : String) : labelPrefixed p p :=
  ⟨[], by simp⟩

theorem labelPrefixed_append (p s t : String) (h : labelPrefixed p s) :
    labelPrefixed p (s ++ t) := by
  obtain ⟨u, hu⟩ := h
  exact ⟨u ++ t.data, by simp [hu]⟩

/-- A label that begins with `merged` does not begin with `shared`. -/
theorem not_shared_of_merged (s : String) (h : labelPrefixed "merged" s) :
    ¬ labelPrefixed "shared" s := by
  obtain ⟨t, ht⟩ := h
  rintro ⟨u, hu⟩
  rw [ht] at hu
  simp [show ("merged" : String).data = ['m', 'e', 'r', 'g', 'e', 'd'] from rfl,
    show ("shared" : String).data = ['s', 'h', 'a', 'r', 'e', 'd'] from rfl] at hu

/-! ## Local-Shared algorithm: loop conservation -/

/-- A transfer written in the opposite order (`c` loses first, the receiver
gains second) also leaves every zone total unchanged. -/
theorem pairedTransfer2_zoneTotal {sgs sgs1 sgs2 : SGMap} {r c : String} {w : ℚ}
    (h1 : updateSGComposition sgs c c (-1) w = some sgs1)
    (h2 : updateSGComposition sgs1 r c 1 w = some sgs2) (z : String) :
    zoneTotalEndpoints sgs2 z = zoneTotalEndpoints sgs z := by
  rw [updateSGComposition_zoneTotal h2 z, updateSGComposition_zoneTotal h1 z]
  by_cases hz : z = c <;> simp [hz]

theorem updateSGComposition_compsWF {sgs : SGMap} {l z : String} {δ : ℤ} {w : ℚ}
    {sgs2 : SGMap} (h : updateSGComposition sgs l z δ w = some sgs2)
    (hwf : compsWF sgs) : compsWF sgs2 := by
  unfold updateSGComposition at h
  cases hf : SMap.find? sgs l with
  | none => rw [hf] at h; simp at h
  | some g =>
      rw [hf] at h
      simp only [Option.some.injEq] at h
      subst h
      intro q hq
      rcases SMap.mem_insert hq with h2 | h2
      · exact hwf q h2
      · subst h2
        show (SMap.keys (SMap.insert g.composition z _)).Nodup
        exact SMap.keys_nodup_insert _ _ _ (hwf (l, g) (SMap.find?_mem hf))

theorem updateSGComposition_sharedFree {sgs : SGMap} {l z : String} {δ : ℤ} {w : ℚ}
    {sgs2 : SGMap} (h : updateSGComposition sgs l z δ w = some sgs2)
    (hfree : sharedFree sgs) : sharedFree sgs2 := by
  intro k hk
  rw [updateSGComposition_keys h] at hk
  exact hfree k hk

/-- The needed-assignment loop preserves zone totals, the key list and the
composition well-formedness. -/
theorem localSharedNeedLoop_spec (alg : LocalSharedSliceAlgorithm) (region : RegionInfo) :
    ∀ (fuel : ℕ) (needed : endpointsList) (sgs : SGMap) (pool : List String)
      (out : Bool × SGMap × List String),
    localSharedNeedLoop alg region fuel needed sgs pool = some out →
    (∀ z, zoneTotalEndpoints out.2.1 z = zoneTotalEndpoints sgs z) ∧
    SMap.keys out.2.1 = SMap.keys sgs ∧ (compsWF sgs → compsWF out.2.1) := by
  intro fuel
  induction fuel with
  | zero => intro needed sgs pool out h; exact Option.noConfusion h
  | succ n ih =>
      intro needed sgs pool out h
      cases needed with
      | nil =>
          rw [localSharedNeedLoop] at h
          cases h
          exact ⟨fun z => rfl, rfl, fun hw => hw⟩
      | cons receiveZone restNeeded =>
          rw [localSharedNeedLoop] at h
          split at h
          · cases h; exact ⟨fun z => rfl, rfl, fun hw => hw⟩
          · split at h
            · exact Option.noConfusion h
            · rename_i candidate pool2 hpop
              split at h
              · exact Option.noConfusion h
              · rename_i sgs1 hupd1
                split at h
                · exact Option.noConfusion h
                · rename_i sgs2 hupd2
                  obtain ⟨hz, hk, hw⟩ := ih _ _ _ _ h
                  refine ⟨fun z => ?_, ?_, fun hwf => ?_⟩
                  · rw [hz z]
                    exact pairedTransfer2_zoneTotal hupd1 hupd2 z
                  · rw [hk, updateSGComposition_keys hupd2, updateSGComposition_keys hupd1]
                  · exact hw (updateSGComposition_compsWF hupd2
                      (updateSGComposition_compsWF hupd1 hwf))

/-- The final redistribution loop preserves zone totals on a normal return. -/
theorem localSharedFinalLoop_spec (alg : LocalSharedSliceAlgorithm) (region : RegionInfo) :
    ∀ (fuel : ℕ) (sgs : SGMap) (ap rp : List String) (out : SGMap),
    localSharedFinalLoop alg region fuel sgs ap rp = some (.ok out) →
    ∀ z, zoneTotalEndpoints out z = zoneTotalEndpoints sgs z := by
  intro fuel
  induction fuel with
  | zero => intro sgs ap rp out h; exact Option.noConfusion h
  | succ n ih =>
      intro sgs ap rp out h z
      rw [localSharedFinalLoop] at h
      split at h
      · split at h
        · exact Option.noConfusion h
        · rename_i candidate ap2 hpop
          split at h
          · simp at h
          · rename_i deviation hdev
            split at h
            · simp only [Option.some.injEq, Except.ok.injEq] at h
              subst h; rfl
            · split at h
              · exact Option.noConfusion h
              · rename_i receiveZone rp2 hpop2
                split at h
                · exact Option.noConfusion h
                · rename_i sgs1 hupd1
                  split at h
                  · exact Option.noConfusion h
                  · rename_i sgs2 hupd2
                    rw [ih _ _ _ _ h z]
                    exact pairedTransfer_zoneTotal hupd1 hupd2 z
      · simp only [Option.some.injEq, Except.ok.injEq] at h
        subst h; rfl

/-- The extra-gathering helper loop: the sum of a zone's total and its
gathered counter is preserved, and the bookkeeping invariants continue to
hold. -/
theorem localSharedGetExtraLoop_spec (alg : LocalSharedSliceAlgorithm)
    (region : RegionInfo) (urgent : List String) :
    ∀ (fuel : ℕ) (num : ℤ) (extras : SMap ℤ) (sgs : SGMap) (pool : List String)
      (out : Bool × SMap ℤ × SGMap × List String),
    localSharedGetExtraLoop alg region urgent fuel num extras sgs pool = some out →
    (SMap.keys extras).Nodup → compsWF sgs → sharedFree sgs →
    ((∀ z, zoneTotalEndpoints out.2.2.1 z + SMap.getD out.2.1 z 0 =
        zoneTotalEndpoints sgs z + SMap.getD extras z 0) ∧
      (SMap.keys out.2.1).Nodup ∧ compsWF out.2.2.1 ∧ sharedFree out.2.2.1) := by
  intro fuel
  induction fuel with
  | zero => intro num extras sgs pool out h; exact Option.noConfusion h
  | succ n ih =>
      intro num extras sgs pool out h hnd hwf hfree
      rw [localSharedGetExtraLoop] at h
      split at h
      · split at h
        · cases h
          exact ⟨fun z => rfl, hnd, hwf, hfree⟩
        · split at h
          · exact Option.noConfusion h
          · rename_i candidate pool2 hpop
            split at h
            · exact Option.noConfusion h
            · rename_i sgs1 hupd
              obtain ⟨hz, hnd2, hwf2, hfree2⟩ := ih _ _ _ _ _ h
                (SMap.keys_nodup_insert _ _ _ hnd)
                (updateSGComposition_compsWF hupd hwf)
                (updateSGComposition_sharedFree hupd hfree)
              refine ⟨fun z => ?_, hnd2, hwf2, hfree2⟩
              rw [hz z, updateSGComposition_zoneTotal hupd z]
              by_cases hc : z = candidate
              · rw [hc, SMap.getD_insert_self, if_pos rfl]
                ring
              · rw [SMap.getD_insert_ne _ _ _ _ _ (fun he => hc (he.symm)), if_neg hc]
                ring
      · cases h
        exact ⟨fun z => rfl, hnd, hwf, hfree⟩

/-! ## createSharedSlice conservation -/

/-- Folding a duplicate-free composition into a group via updateESGComposition
adds exactly the composition's per-zone numbers. -/
theorem compFold_getD (comp : SMap WeightedEndpoints) :
    ∀ (g0 : EndpointSliceGroup), (SMap.keys comp).Nodup → ∀ z,
    (SMap.getD (comp.foldl compFoldStep g0).composition z default).number =
      (SMap.getD g0.composition z default).number +
        (SMap.getD comp z default).number := by
  induction comp with
  | nil =>
      intro g0 _ z
      simp [SMap.getD, SMap.find?,
        show (default : WeightedEndpoints).number = 0 from rfl]
  | cons q rest ih =>
      intro g0 hnd z
      simp only [SMap.keys, List.map_cons, List.nodup_cons] at hnd
      simp only [List.foldl_cons]
      rw [ih _ hnd.2 z]
      by_cases hz : z = q.1
      · subst hz
        have hrest : SMap.find? rest q.1 = none := by
          rw [SMap.find?_eq_none_iff]
          exact fun hk => hnd.1 hk
        rw [show (SMap.getD rest q.1 default).number = 0 by
          simp [SMap.getD, hrest,
            show (default : WeightedEndpoints).number = 0 from rfl]]
        rw [show SMap.getD (q :: rest) q.1 default = q.2 by
          unfold SMap.getD
          rw [show SMap.find? (q :: rest) q.1 = some q.2 from SMap.find?_cons_fst q rest]
          rfl]
        show (SMap.getD (SMap.insert g0.composition q.1 _) q.1 default).number + 0 = _
        rw [SMap.getD_insert_self]
        ring
      · have hqz : ¬ q.1 = z := fun h => hz h.symm
        rw [show SMap.getD (q :: rest) z default = SMap.getD rest z default from by
          unfold SMap.getD
          rw [SMap.find?_cons_of_ne _ _ _ hqz]]
        show (SMap.getD (SMap.insert g0.composition q.1 _) z default).number + _ = _
        rw [SMap.getD_insert_ne _ _ _ _ _ hqz]

/-- Folding a duplicate-free extra-endpoints map into a group adds exactly the
gathered counters. -/
theorem extrasFold_getD (extras : SMap ℤ) :
    ∀ (g0 : EndpointSliceGroup), (SMap.keys extras).Nodup → ∀ z,
    (SMap.getD (extras.foldl extrasFoldStep g0).composition z default).number =
      (SMap.getD g0.composition z default).number + SMap.getD extras z 0 := by
  induction extras with
  | nil => intro g0 _ z; simp [SMap.getD, SMap.find?]
  | cons q rest ih =>
      intro g0 hnd z
      simp only [SMap.keys, List.map_cons, List.nodup_cons] at hnd
      simp only [List.foldl_cons]
      rw [ih _ hnd.2 z]
      by_cases hz : z = q.1
      · subst hz
        have hrest : SMap.find? rest q.1 = none := by
          rw [SMap.find?_eq_none_iff]
          exact fun hk => hnd.1 hk
        rw [show SMap.getD rest q.1 0 = 0 by simp [SMap.getD, hrest]]
        rw [show SMap.getD (q :: rest) q.1 0 = q.2 by
          unfold SMap.getD
          rw [show SMap.find? (q :: rest) q.1 = some q.2 from SMap.find?_cons_fst q rest]
          rfl]
        show (SMap.getD (SMap.insert g0.composition q.1 _) q.1 default).number + 0 = _
        rw [SMap.getD_insert_self]
        ring
      · have hqz : ¬ q.1 = z := fun h => hz h.symm
        rw [show SMap.getD (q :: rest) z 0 = SMap.getD rest z 0 from by
          unfold SMap.getD
          rw [SMap.find?_cons_of_ne _ _ _ hqz]]
        show (SMap.getD (SMap.insert g0.composition q.1 _) z default).number + _ = _
        rw [SMap.getD_insert_ne _ _ _ _ _ hqz]

/-- The label accumulated by the urgent-zone fold keeps its `shared` prefix. -/
theorem createSharedFold_fst_prefixed :
    ∀ (urgent : List String) (acc : String × EndpointSliceGroup × SGMap),
    labelPrefixed "shared" acc.1 →
    labelPrefixed "shared" (urgent.foldl createSharedStep acc).1 := by
  intro urgent
  induction urgent with
  | nil => intro acc h; exact h
  | cons u rest ih =>
      intro acc h
      simp only [List.foldl_cons]
      apply ih
      show labelPrefixed "shared" (acc.1 ++ "-" ++ u)
      exact labelPrefixed_append _ _ _ (labelPrefixed_append _ _ _ h)

/-- One urgent zone of createSharedSlice conserves the sum of the map's zone
totals and the accumulating shared group's numbers. -/
theorem createSharedStep_inv (acc : String × EndpointSliceGroup × SGMap) (u : String)
    (hwf : compsWF acc.2.2) (z : String) :
    zoneTotalEndpoints (createSharedStep acc u).2.2 z +
      (SMap.getD (createSharedStep acc u).2.1.composition z default).number =
    zoneTotalEndpoints acc.2.2 z + (SMap.getD acc.2.1.composition z default).number := by
  have h22 : (createSharedStep acc u).2.2 = SMap.erase acc.2.2 u := rfl
  have h21 : (createSharedStep acc u).2.1.composition =
      ((sgGet acc.2.2 u).composition.foldl compFoldStep acc.2.1).composition := rfl
  rw [h22, h21]
  cases hf : SMap.find? acc.2.2 u with
  | some g =>
      have hcomp : (SMap.keys g.composition).Nodup := hwf (u, g) (SMap.find?_mem hf)
      have hg : sgGet acc.2.2 u = g := by
        unfold sgGet SMap.getD
        rw [hf]
        rfl
      rw [zoneTotalEndpoints_erase_found _ _ _ _ hf, hg, compFold_getD _ _ hcomp z]
      ring
  | none =>
      have hg : sgGet acc.2.2 u = default := by
        unfold sgGet SMap.getD
        rw [hf]
        rfl
      rw [zoneTotalEndpoints_erase_none _ _ _ hf, hg]
      rfl

/-- Invariant of the urgent-zone fold of createSharedSlice. -/
theorem createSharedFold_inv :
    ∀ (urgent : List String) (acc : String × EndpointSliceGroup × SGMap),
    compsWF acc.2.2 →
    (∀ z, zoneTotalEndpoints (urgent.foldl createSharedStep acc).2.2 z +
        (SMap.getD (urgent.foldl createSharedStep acc).2.1.composition z default).number =
      zoneTotalEndpoints acc.2.2 z +
        (SMap.getD acc.2.1.composition z default).number) ∧
    compsWF (urgent.foldl createSharedStep acc).2.2 ∧
    (∀ k ∈ SMap.keys (urgent.foldl createSharedStep acc).2.2, k ∈ SMap.keys acc.2.2) := by
  intro urgent
  induction urgent with
  | nil => intro acc hwf; exact ⟨fun z => rfl, hwf, fun k hk => hk⟩
  | cons u rest ih =>
      intro acc hwf
      have hwf2 : compsWF (createSharedStep acc u).2.2 := by
        intro q hq
        exact hwf q (SMap.mem_erase (show q ∈ SMap.erase acc.2.2 u from hq))
      obtain ⟨hz, hwf3, hkeys⟩ := ih (createSharedStep acc u) hwf2
      simp only [List.foldl_cons]
      refine ⟨fun z => ?_, hwf3, fun k hk => ?_⟩
      · rw [hz z, createSharedStep_inv acc u hwf z]
      · have hk2 := hkeys k hk
        have h22 : (createSharedStep acc u).2.2 = SMap.erase acc.2.2 u := rfl
        rw [h22] at hk2
        exact SMap.keys_erase_subset _ _ k hk2

/-- createSharedSlice moves the urgent groups and the gathered extras into a
fresh shared group: every zone total gains exactly its gathered counter. -/
theorem createSharedSlice_zoneTotal (urgent : List String) (extras : SMap ℤ)
    (sgs : SGMap) (hwf : compsWF sgs) (hnd : (SMap.keys extras).Nodup)
    (hfree : sharedFree sgs) (z : String) :
    zoneTotalEndpoints (createSharedSlice urgent extras sgs) z =
      zoneTotalEndpoints sgs z + SMap.getD extras z 0 := by
  obtain ⟨hz, hwf2, hkeys⟩ := createSharedFold_inv urgent ("shared", ⟨"", [], []⟩, sgs) hwf
  have hpre : labelPrefixed "shared"
      (urgent.foldl createSharedStep ("shared", ⟨"", [], []⟩, sgs)).1 :=
    createSharedFold_fst_prefixed urgent _ (labelPrefixed_refl _)
  have hfr : SMap.find?
      (urgent.foldl createSharedStep ("shared", ⟨"", [], []⟩, sgs)).2.2
      (urgent.foldl createSharedStep ("shared", ⟨"", [], []⟩, sgs)).1 = none := by
    rw [SMap.find?_eq_none_iff]
    intro hk
    exact hfree _ (hkeys _ hk) hpre
  unfold createSharedSlice
  dsimp only
  rw [zoneTotalEndpoints_insert_fresh _ _ _ _ hfr]
  rw [show ({ (extras.foldl extrasFoldStep
        (urgent.foldl createSharedStep ("shared", ⟨"", [], []⟩, sgs)).2.1) with
      label := (urgent.foldl createSharedStep ("shared", ⟨"", [], []⟩, sgs)).1 } :
        EndpointSliceGroup).composition =
      (extras.foldl extrasFoldStep
        (urgent.foldl createSharedStep ("shared", ⟨"", [], []⟩, sgs)).2.1).composition
    from rfl]
  rw [extrasFold_getD extras _ hnd z]
  have hz2 := hz z
  have h0 : (SMap.getD (("shared", (⟨"", [], []⟩ : EndpointSliceGroup),
      sgs).2.1.composition) z default).number = 0 := rfl
  have h1 : zoneTotalEndpoints (("shared", (⟨"", [], []⟩ : EndpointSliceGroup),
      sgs) : String × EndpointSliceGroup × SGMap).2.2 z = zoneTotalEndpoints sgs z := rfl
  rw [h0, h1] at hz2
  omega

/-- The extra-gathering loop of keepDeviationBelowThreshold.  On the
created-shared-slice exit the zone totals already absorb the gathered
counters; on the loop-completed exit the counter invariants hold and the
counter total equals the urgent-zone count. -/
theorem localSharedGatherLoop_spec (alg : LocalSharedSliceAlgorithm)
    (region : RegionInfo) (urgent : List String) :
    ∀ (fuel : ℕ) (num : ℤ) (extras : SMap ℤ) (sgs : SGMap) (pool : List String)
      (out : Bool × Bool × ℤ × SMap ℤ × SGMap × List String),
    localSharedGatherLoop alg region urgent fuel num extras sgs pool = some out →
    (SMap.keys extras).Nodup → (∀ p ∈ extras, 1 ≤ p.2) → compsWF sgs →
    sharedFree sgs → num ≤ (urgent.length : ℤ) →
    ((out.1 = true → out.2.1 = true →
        ∀ z, zoneTotalEndpoints out.2.2.2.2.1 z =
          zoneTotalEndpoints sgs z + SMap.getD extras z 0) ∧
     (out.1 = false →
        out.2.2.1 = (urgent.length : ℤ) ∧
        extrasSum out.2.2.2.1 = extrasSum extras + (out.2.2.1 - num) ∧
        (SMap.keys out.2.2.2.1).Nodup ∧ (∀ p ∈ out.2.2.2.1, 1 ≤ p.2) ∧
        (∀ z, zoneTotalEndpoints out.2.2.2.2.1 z + SMap.getD out.2.2.2.1 z 0 =
          zoneTotalEndpoints sgs z + SMap.getD extras z 0))) := by
  intro fuel
  induction fuel with
  | zero => intro num extras sgs pool out h; exact Option.noConfusion h
  | succ n ih =>
      intro num extras sgs pool out h hnd hpos hwf hfree hnum
      rw [localSharedGatherLoop] at h
      split at h
      · rename_i hlt
        dsimp only at h
        split at h
        · cases h
          exact ⟨fun _ h2 => Bool.noConfusion h2, fun h1 => Bool.noConfusion h1⟩
        · rename_i candidate heqd
          split at h
          · exact Option.noConfusion h
          · rename_i dropped pool2 hpop
            split at h
            · exact Option.noConfusion h
            · rename_i sgs1 hupd
              obtain ⟨ht, hf2⟩ := ih _ _ _ _ _ h
                (SMap.keys_nodup_insert _ _ _ hnd)
                (extrasPos_insert _ _ hpos)
                (updateSGComposition_compsWF hupd hwf)
                (updateSGComposition_sharedFree hupd hfree)
                (by omega)
              have hstep : ∀ z, zoneTotalEndpoints sgs1 z +
                  SMap.getD (SMap.insert extras candidate
                    (SMap.getD extras candidate 0 + 1)) z 0 =
                  zoneTotalEndpoints sgs z + SMap.getD extras z 0 := by
                intro z
                rw [updateSGComposition_zoneTotal hupd z]
                by_cases hc : z = candidate
                · rw [hc, SMap.getD_insert_self, if_pos rfl]
                  ring
                · rw [SMap.getD_insert_ne _ _ _ _ _ (fun he => hc (he.symm)), if_neg hc]
                  ring
              refine ⟨fun h1 h2 z => ?_, fun h1 => ?_⟩
              · rw [ht h1 h2 z, hstep z]
              · obtain ⟨hlen, hsum, hnd2, hpos2, hinv⟩ := hf2 h1
                refine ⟨hlen, ?_, hnd2, hpos2, fun z => ?_⟩
                · rw [hsum, extrasSum_insert_getD]
                  ring
                · rw [hinv z, hstep z]
        · split at h
          · cases h
            refine ⟨fun _ _ z => ?_, fun h1 => Bool.noConfusion h1⟩
            exact createSharedSlice_zoneTotal urgent extras sgs hwf hnd hfree z
          · split at h
            · exact Option.noConfusion h
            · rename_i extras2 sgs2 pool2 hget
              cases h
              unfold localSharedGetExtra at hget
              obtain ⟨hinv, hnd2, hwf2, hfree2⟩ :=
                localSharedGetExtraLoop_spec alg region urgent n _ extras sgs pool
                  _ hget hnd hwf hfree
              refine ⟨fun _ _ z => ?_, fun h1 => Bool.noConfusion h1⟩
              rw [createSharedSlice_zoneTotal urgent extras2 sgs2 hwf2 hnd2 hfree2 z]
              exact hinv z
            · rename_i extras2 sgs2 pool2 hget
              cases h
              exact ⟨fun _ h2 => Bool.noConfusion h2, fun h1 => Bool.noConfusion h1⟩
      · rename_i hge
        cases h
        refine ⟨fun h1 => Bool.noConfusion h1, fun _ => ⟨?_, ?_, hnd, hpos, fun z => rfl⟩⟩
        · show num = (urgent.length : ℤ)
          omega
        · show extrasSum extras = extrasSum extras + (num - num)
          omega

/-- The inner assignment loop hands exactly `extras[zone]` endpoints to the
urgent zones, zeroing the counter and cutting the urgent list by that
amount. -/
theorem localSharedAssignInner_spec (zone : String) :
    ∀ (urgent : List String) (extras : SMap ℤ) (sgs : SGMap)
      (out : List String × SMap ℤ × SGMap),
    localSharedAssignInner zone urgent extras sgs = some out →
    1 ≤ SMap.getD extras zone 0 → SMap.getD extras zone 0 ≤ (urgent.length : ℤ) →
    ((∀ z, zoneTotalEndpoints out.2.2 z = zoneTotalEndpoints sgs z +
        (if z = zone then SMap.getD extras zone 0 else 0)) ∧
      SMap.getD out.2.1 zone 0 = 0 ∧
      (∀ k, k ≠ zone → SMap.getD out.2.1 k 0 = SMap.getD extras k 0) ∧
      (out.1.length : ℤ) = (urgent.length : ℤ) - SMap.getD extras zone 0 ∧
      SMap.keys out.2.1 = SMap.keys extras) := by
  intro urgent
  induction urgent with
  | nil =>
      intro extras sgs out h h1 h2
      simp only [List.length_nil, Nat.cast_zero] at h2
      omega
  | cons u rest ih =>
      intro extras sgs out h h1 h2
      have hfind : SMap.find? extras zone ≠ none := by
        intro hf
        rw [show SMap.getD extras zone 0 = 0 by simp [SMap.getD, hf]] at h1
        omega
      have hkeysins : SMap.keys (SMap.insert extras zone
          (SMap.getD extras zone 0 - 1)) = SMap.keys extras :=
        SMap.keys_insert_found _ _ _ hfind
      rw [localSharedAssignInner] at h
      split at h
      · exact Option.noConfusion h
      · rename_i sgs1 hupd
        dsimp only at h
        rw [SMap.getD_insert_self] at h
        split at h
        · rename_i hzero
          cases h
          refine ⟨fun z => ?_, ?_, fun k hk => ?_, ?_, hkeysins⟩
          · rw [updateSGComposition_zoneTotal hupd z]
            have : SMap.getD extras zone 0 = 1 := by omega
            rw [this]
          · rw [SMap.getD_insert_self]
            omega
          · exact SMap.getD_insert_ne _ _ _ _ _ (Ne.symm hk)
          · have : SMap.getD extras zone 0 = 1 := by omega
            rw [this]
            simp only [List.length_cons]
            push_cast
            ring
        · rename_i hnz
          have hsub1 : SMap.getD (SMap.insert extras zone
              (SMap.getD extras zone 0 - 1)) zone 0 =
              SMap.getD extras zone 0 - 1 := SMap.getD_insert_self _ _ _ _
          have hlen : ((u :: rest).length : ℤ) = (rest.length : ℤ) + 1 := by
            simp only [List.length_cons]
            push_cast
            ring
          obtain ⟨hz, h0, hk, hl, hkeys⟩ := ih _ _ _ h
            (by rw [hsub1]; omega) (by rw [hsub1]; omega)
          refine ⟨fun z => ?_, h0, fun k hknz => ?_, ?_, ?_⟩
          · rw [hz z, updateSGComposition_zoneTotal hupd z, hsub1]
            by_cases hc : z = zone
            · rw [if_pos hc, if_pos hc, if_pos hc]
              ring
            · rw [if_neg hc, if_neg hc, if_neg hc]
              ring
          · rw [hk k hknz]
            exact SMap.getD_insert_ne _ _ _ _ _ (Ne.symm hknz)
          · rw [hl, hsub1, hlen]
            ring
          · rw [hkeys, hkeysins]

/-- The outer assignment loop distributes every gathered counter: when the
counters sum to the urgent-zone count, each zone total gains exactly its
counter. -/
theorem localSharedAssignOuter_spec :
    ∀ (zoneNames urgent : List String) (extras : SMap ℤ) (sgs : SGMap) (out : SGMap),
    localSharedAssignOuter zoneNames urgent extras sgs = some out →
    zoneNames.Nodup →
    (∀ k ∈ zoneNames, 1 ≤ SMap.getD extras k 0) →
    (∀ k, k ∉ zoneNames → SMap.getD extras k 0 = 0) →
    (zoneNames.map (fun k => SMap.getD extras k 0)).sum = (urgent.length : ℤ) →
    ∀ z, zoneTotalEndpoints out z = zoneTotalEndpoints sgs z + SMap.getD extras z 0 := by
  intro zoneNames
  induction zoneNames with
  | nil =>
      intro urgent extras sgs out h _ _ hout hsum z
      rw [localSharedAssignOuter] at h
      cases h
      rw [hout z (List.not_mem_nil z)]
      ring
  | cons k1 rest ih =>
      intro urgent extras sgs out h hnd hpos hout hsum z
      rw [localSharedAssignOuter] at h
      split at h
      · exact Option.noConfusion h
      · rename_i urgent1 extras1 sgs1 hinner
        have hk1r : k1 ∉ rest := (List.nodup_cons.mp hnd).1
        have hnd2 : rest.Nodup := (List.nodup_cons.mp hnd).2
        have he1 : 1 ≤ SMap.getD extras k1 0 := hpos k1 (List.mem_cons_self k1 rest)
        have hsumrest : 0 ≤ (rest.map (fun k => SMap.getD extras k 0)).sum := by
          apply List.sum_nonneg
          intro x hx
          obtain ⟨k, hk, rfl⟩ := List.mem_map.mp hx
          exact le_trans zero_le_one (hpos k (List.mem_cons_of_mem _ hk))
        have hsumc : SMap.getD extras k1 0 +
            (rest.map (fun k => SMap.getD extras k 0)).sum = (urgent.length : ℤ) := by
          simpa using hsum
        have hle : SMap.getD extras k1 0 ≤ (urgent.length : ℤ) := by omega
        obtain ⟨hzT, hz0, hzk, hlen, hkeys⟩ :=
          localSharedAssignInner_spec k1 urgent extras sgs _ hinner he1 hle
        dsimp only at hzT hz0 hzk hlen hkeys
        have hmaprest : rest.map (fun k => SMap.getD extras1 k 0) =
            rest.map (fun k => SMap.getD extras k 0) := by
          apply List.map_congr_left
          intro k hk
          exact hzk k (fun he => hk1r (he ▸ hk))
        have hmain := ih urgent1 extras1 sgs1 out h hnd2
          (fun k hk => by
            rw [hzk k (fun he => hk1r (he ▸ hk))]
            exact hpos k (List.mem_cons_of_mem _ hk))
          (fun k hk => by
            by_cases hkk : k = k1
            · exact hkk ▸ hz0
            · rw [hzk k hkk]
              exact hout k (by
                intro hmem
                rcases List.mem_cons.mp hmem with hmem | hmem
                · exact hkk hmem
                · exact hk hmem))
          (by rw [hmaprest]; omega)
        rw [hmain z, hzT z]
        by_cases hc : z = k1
        · rw [if_pos hc, hc, hz0]
          ring
        · rw [if_neg hc, hzk z hc]
          ring

/-- keepDeviationBelowThreshold preserves every zone total whenever it
reports success. -/
theorem keepDeviation_zoneTotal (alg : LocalSharedSliceAlgorithm) (region : RegionInfo)
    (fuel : ℕ) (sgs : SGMap) (ap rp : List String)
    (out : Bool × SGMap × List String × List String)
    (h : alg.keepDeviationBelowThreshold region fuel sgs ap rp = some out)
    (hwf : compsWF sgs) (hfree : sharedFree sgs) (hres : out.1 = true) :
    ∀ z, zoneTotalEndpoints out.2.1 z = zoneTotalEndpoints sgs z := by
  unfold LocalSharedSliceAlgorithm.keepDeviationBelowThreshold at h
  split at h
  · exact Option.noConfusion h
  · rename_i urgentZones rp2 hcoll
    split at h
    · split at h
      · exact Option.noConfusion h
      · rename_i result num2 extras2 sgs2 ap2 hgather
        cases h
        dsimp only at hres ⊢
        have hspec := localSharedGatherLoop_spec alg region urgentZones fuel 0 [] sgs ap
          _ hgather (by simp [SMap.keys]) (by simp) hwf hfree (by omega)
        have hz := hspec.1 rfl hres
        intro z
        have hz2 := hz z
        dsimp only at hz2
        rw [hz2, show SMap.getD ([] : SMap ℤ) z 0 = 0 from rfl]
        ring
      · rename_i num2 extras2 sgs2 ap2 hgather
        dsimp only at h
        split at h
        · exact Option.noConfusion h
        · rename_i sgs3 hassign
          cases h
          dsimp only at hres ⊢
          have hspec := localSharedGatherLoop_spec alg region urgentZones fuel 0 [] sgs ap
            _ hgather (by simp [SMap.keys]) (by simp) hwf hfree (by omega)
          obtain ⟨hnum, hsum, hndE, hposE, hinv⟩ := hspec.2 rfl
          dsimp only at hnum hsum hndE hposE hinv
          have hperm : ((SMap.keys extras2).mergeSort
              (fun a b => a ≤ b)).Perm (SMap.keys extras2) :=
            List.mergeSort_perm _ _
          have hndZ : ((SMap.keys extras2).mergeSort (fun a b => a ≤ b)).Nodup :=
            hperm.nodup_iff.mpr hndE
          have hposZ : ∀ k ∈ (SMap.keys extras2).mergeSort (fun a b => a ≤ b),
              1 ≤ SMap.getD extras2 k 0 := by
            intro k hk
            have hk2 : k ∈ SMap.keys extras2 := hperm.mem_iff.mp hk
            cases hf : SMap.find? extras2 k with
            | none => exact absurd hk2 ((SMap.find?_eq_none_iff _ _).mp hf)
            | some v =>
                have hv := hposE (k, v) (SMap.find?_mem hf)
                rw [show SMap.getD extras2 k 0 = v by simp [SMap.getD, hf]]
                exact hv
          have houtZ : ∀ k, k ∉ (SMap.keys extras2).mergeSort (fun a b => a ≤ b) →
              SMap.getD extras2 k 0 = 0 := by
            intro k hk
            have hk2 : k ∉ SMap.keys extras2 := fun hc => hk (hperm.mem_iff.mpr hc)
            simp [SMap.getD, (SMap.find?_eq_none_iff extras2 k).mpr hk2]
          have hsumZ : (((SMap.keys extras2).mergeSort (fun a b => a ≤ b)).map
              (fun k => SMap.getD extras2 k 0)).sum = (urgentZones.length : ℤ) := by
            rw [(hperm.map (fun k => SMap.getD extras2 k 0)).sum_eq]
            rw [keysGetDSum extras2 hndE, hsum, hnum]
            show extrasSum ([] : SMap ℤ) + ((urgentZones.length : ℤ) - 0) = _
            simp [extrasSum]
          have hmain := localSharedAssignOuter_spec _ urgentZones extras2 sgs2 sgs3
            hassign hndZ hposZ houtZ hsumZ
          intro z
          rw [hmain z]
          have hiz := hinv z
          rw [show SMap.getD ([] : SMap ℤ) z 0 = 0 from rfl] at hiz
          omega
    · cases h
      intro z
      rfl

theorem SMap.keys_insert_mem {α : Type} {m : SMap α} {k kk : String} {v : α}
    (h : k ∈ SMap.keys (SMap.insert m kk v)) : k ∈ SMap.keys m ∨ k = kk := by
  obtain ⟨q, hq, rfl⟩ := List.mem_map.mp h
  rcases SMap.mem_insert hq with h2 | h2
  · exact Or.inl (List.mem_map.mpr ⟨q, h2, rfl⟩)
  · subst h2
    exact Or.inr rfl

/-- Zone totals after the Local-Shared setup fold (zones with zero endpoints
get no group and contribute zero, matching their endpoint count). -/
theorem localSharedSetupFold_zoneTotal (alg : LocalSharedSliceAlgorithm)
    (region : RegionInfo) :
    ∀ (names : List String)
      (acc : SGMap × endpointsList × endpointsList × List String × List String),
    (SMap.keys acc.1 ++ names).Nodup →
    ∀ z, zoneTotalEndpoints (names.foldl (localSharedSetupStep alg region) acc).1 z =
      zoneTotalEndpoints acc.1 z +
        (if z ∈ names then (SMap.getD region.zoneDetails z default).endpoints else 0) := by
  intro names
  induction names with
  | nil => intro acc _ z; simp
  | cons n rest ih =>
      intro acc hnd z
      simp only [List.foldl_cons]
      by_cases hz0 : (SMap.getD region.zoneDetails n default).endpoints = 0
      · have hstep1 : (localSharedSetupStep alg region acc n).1 = acc.1 := by
          unfold localSharedSetupStep
          dsimp only
          rw [if_pos hz0]
        have hnd2 : (SMap.keys (localSharedSetupStep alg region acc n).1 ++ rest).Nodup := by
          rw [hstep1]
          rw [List.nodup_append] at hnd ⊢
          obtain ⟨h1, h2, h3⟩ := hnd
          refine ⟨h1, (List.nodup_cons.mp h2).2, ?_⟩
          intro a hma hmb
          exact h3 hma (List.mem_cons_of_mem _ hmb)
        rw [ih _ hnd2 z, hstep1]
        by_cases hzn : z = n
        · subst hzn
          rw [hz0]
          simp
        · simp [List.mem_cons, hzn]
      · have hfresh : SMap.find? acc.1 n = none := by
          rw [SMap.find?_eq_none_iff]
          intro hk
          exact (List.disjoint_of_nodup_append hnd) hk (by simp)
        have hstep1 : (localSharedSetupStep alg region acc n).1 =
            SMap.insert acc.1 n
              { label := n
                zoneTrafficWeights := SMap.insert ([] : SMap ℚ) n 1
                composition := SMap.insert ([] : SMap WeightedEndpoints) n
                  ⟨(SMap.getD region.zoneDetails n default).endpoints, 1⟩ } := by
          unfold localSharedSetupStep
          dsimp only
          rw [if_neg hz0]
        have hnd2 : (SMap.keys (localSharedSetupStep alg region acc n).1 ++ rest).Nodup := by
          rw [hstep1, SMap.keys_insert_fresh _ _ _ hfresh, List.append_assoc]
          simpa using hnd
        rw [ih _ hnd2 z, hstep1, zoneTotalEndpoints_insert_fresh _ _ _ _ hfresh]
        have hcomp : (SMap.getD (SMap.insert ([] : SMap WeightedEndpoints) n
            ⟨(SMap.getD region.zoneDetails n default).endpoints, 1⟩) z default).number =
            if z = n then (SMap.getD region.zoneDetails n default).endpoints else 0 := by
          by_cases hzn : z = n
          · subst hzn
            rw [SMap.getD_insert_self, if_pos rfl]
          · rw [SMap.getD_insert_ne _ _ _ _ _ (Ne.symm hzn), if_neg hzn]
            rfl
        rw [hcomp]
        have hnr : n ∉ rest := by
          have h2 := (List.nodup_append.mp hnd).2.1
          exact (List.nodup_cons.mp h2).1
        by_cases hzn : z = n
        · subst hzn
          simp [hnr]
        · by_cases hzr : z ∈ rest <;> simp [hzn, hzr]

/-- The Local-Shared setup builds well-formed groups whose labels are zone
names. -/
theorem localSharedSetupFold_wf (alg : LocalSharedSliceAlgorithm) (region : RegionInfo) :
    ∀ (names : List String)
      (acc : SGMap × endpointsList × endpointsList × List String × List String),
    compsWF acc.1 →
    compsWF (names.foldl (localSharedSetupStep alg region) acc).1 ∧
    (∀ k ∈ SMap.keys (names.foldl (localSharedSetupStep alg region) acc).1,
      k ∈ SMap.keys acc.1 ∨ k ∈ names) := by
  intro names
  induction names with
  | nil => intro acc hwf; exact ⟨hwf, fun k hk => Or.inl hk⟩
  | cons n rest ih =>
      intro acc hwf
      simp only [List.foldl_cons]
      by_cases hz0 : (SMap.getD region.zoneDetails n default).endpoints = 0
      · have hstep1 : (localSharedSetupStep alg region acc n).1 = acc.1 := by
          unfold localSharedSetupStep
          dsimp only
          rw [if_pos hz0]
        obtain ⟨hwf2, hk2⟩ := ih (localSharedSetupStep alg region acc n)
          (by rw [hstep1]; exact hwf)
        refine ⟨hwf2, fun k hk => ?_⟩
        rcases hk2 k hk with h2 | h2
        · rw [hstep1] at h2
          exact Or.inl h2
        · exact Or.inr (List.mem_cons_of_mem _ h2)
      · have hstep1 : (localSharedSetupStep alg region acc n).1 =
            SMap.insert acc.1 n
              { label := n
                zoneTrafficWeights := SMap.insert ([] : SMap ℚ) n 1
                composition := SMap.insert ([] : SMap WeightedEndpoints) n
                  ⟨(SMap.getD region.zoneDetails n default).endpoints, 1⟩ } := by
          unfold localSharedSetupStep
          dsimp only
          rw [if_neg hz0]
        obtain ⟨hwf2, hk2⟩ := ih (localSharedSetupStep alg region acc n)
          (by
            rw [hstep1]
            intro q hq
            rcases SMap.mem_insert hq with h2 | h2
            · exact hwf q h2
            · subst h2
              show (SMap.keys (SMap.insert ([] : SMap WeightedEndpoints) n _)).Nodup
              exact SMap.keys_nodup_insert _ _ _ (by simp [SMap.keys]))
        refine ⟨hwf2, fun k hk => ?_⟩
        rcases hk2 k hk with h2 | h2
        · rw [hstep1] at h2
          rcases SMap.keys_insert_mem h2 with h3 | h3
          · exact Or.inl h3
          · exact Or.inr (h3 ▸ List.mem_cons_self n rest)
        · exact Or.inr (List.mem_cons_of_mem _ h2)

/-- Zone totals right after the Local-Shared setup equal the region's
endpoint counts. -/
theorem localSharedSetup_zoneTotal (alg : LocalSharedSliceAlgorithm) (region : RegionInfo)
    (hnd : (SMap.keys region.zoneDetails).Nodup) (z : String) :
    zoneTotalEndpoints (localSharedSetup alg region).1 z = regionEndpoints region z := by
  unfold localSharedSetup
  have hperm : (sortZoneByNames region.zoneDetails).Perm (SMap.keys region.zoneDetails) :=
    List.mergeSort_perm _ _
  have hnds : (SMap.keys ([] : SGMap) ++ sortZoneByNames region.zoneDetails).Nodup := by
    simpa [SMap.keys] using hperm.nodup_iff.mpr hnd
  rw [localSharedSetupFold_zoneTotal alg region _ _ hnds z]
  rw [zoneTotalEndpoints_nil, zero_add]
  by_cases hm : z ∈ SMap.keys region.zoneDetails
  · rw [if_pos (hperm.mem_iff.mpr hm)]
    rfl
  · rw [if_neg (fun hc => hm (hperm.mem_iff.mp hc))]
    unfold regionEndpoints SMap.getD
    rw [(SMap.find?_eq_none_iff _ _).mpr hm]
    rfl

/-- The label accumulated by the urgent-merge fold keeps its `merged`
prefix. -/
theorem mergeFold_fst_prefixed (enu : endpointsList) :
    ∀ acc : String × ℚ × SMap ℚ, labelPrefixed "merged" acc.1 →
    labelPrefixed "merged" (enu.foldl localSharedMergeStep acc).1 := by
  induction enu with
  | nil => intro acc h; exact h
  | cons u rest ih =>
      intro acc h
      simp only [List.foldl_cons]
      apply ih
      exact labelPrefixed_append _ _ _ (labelPrefixed_append _ _ _ h)

/-- The merged group returned by localSharedMerge: label from the fold, empty
composition. -/
theorem localSharedMerge_snd (enu : endpointsList) :
    (localSharedMerge enu).2.1 =
      ⟨(enu.foldl localSharedMergeStep ("merged", 0, [])).1, [],
        (enu.foldl localSharedMergeStep ("merged", 0, [])).2.2⟩ := by
  unfold localSharedMerge
  dsimp only
  split <;> rfl

/-- balanceSliceGroups of the Local-Shared algorithm preserves every zone
total on a successful return, for maps whose labels cannot collide with the
generated `merged`/`shared` labels. -/
theorem localSharedBalance_spec (alg : LocalSharedSliceAlgorithm) (region : RegionInfo)
    (fuel : ℕ) (en enu : endpointsList) (sgs : SGMap) (ap rp : List String)
    (b : Bool) (out : SGMap)
    (h : alg.balanceSliceGroups region fuel en enu sgs ap rp = some (.ok (b, out)))
    (hwf : compsWF sgs)
    (hkeys : ∀ k ∈ SMap.keys sgs,
      ¬ labelPrefixed "shared" k ∧ ¬ labelPrefixed "merged" k)
    (hb : b = true) :
    ∀ z, zoneTotalEndpoints out z = zoneTotalEndpoints sgs z := by
  have hmlab : labelPrefixed "merged" (localSharedMerge enu).2.1.label := by
    rw [localSharedMerge_snd]
    exact mergeFold_fst_prefixed enu _ (labelPrefixed_refl _)
  have hsgs1 : ∀ sgs1, sgs1 = (if (localSharedMerge enu).2.2 ≠ 0 then
        SMap.insert sgs (localSharedMerge enu).2.1.label (localSharedMerge enu).2.1
      else sgs) →
      (∀ z, zoneTotalEndpoints sgs1 z = zoneTotalEndpoints sgs z) ∧
      compsWF sgs1 ∧ sharedFree sgs1 := by
    intro sgs1 hdef
    by_cases hexp : (localSharedMerge enu).2.2 ≠ 0
    · rw [if_pos hexp] at hdef
      have hfr : SMap.find? sgs (localSharedMerge enu).2.1.label = none := by
        rw [SMap.find?_eq_none_iff]
        intro hk
        exact (hkeys _ hk).2 hmlab
      subst hdef
      refine ⟨fun z => ?_, ?_, ?_⟩
      · rw [zoneTotalEndpoints_insert_fresh _ _ _ _ hfr]
        rw [show (SMap.getD (localSharedMerge enu).2.1.composition z default).number = 0
          from by rw [localSharedMerge_snd]; rfl]
        ring
      · intro q hq
        rcases SMap.mem_insert hq with h2 | h2
        · exact hwf q h2
        · subst h2
          rw [show ((localSharedMerge enu).2.1.label,
              (localSharedMerge enu).2.1).2.composition =
              (localSharedMerge enu).2.1.composition from rfl]
          rw [localSharedMerge_snd]
          simp [SMap.keys]
      · intro k hk
        rcases SMap.keys_insert_mem hk with h2 | h2
        · exact (hkeys k h2).1
        · subst h2
          exact not_shared_of_merged _ hmlab
    · rw [if_neg hexp] at hdef
      subst hdef
      exact ⟨fun z => rfl, hwf, fun k hk => (hkeys k hk).1⟩
  unfold LocalSharedSliceAlgorithm.balanceSliceGroups at h
  dsimp only at h
  obtain ⟨hz1, hwf1, hfree1⟩ := hsgs1 _ rfl
  split at h
  · exact Option.noConfusion h
  · rename_i sgs2 pool2 hneed
    simp only [Option.some.injEq, Except.ok.injEq, Prod.mk.injEq] at h
    rw [← h.1] at hb
    exact Bool.noConfusion hb
  · rename_i sgs2 pool2 hneed
    obtain ⟨hz2, hk2, hw2⟩ := localSharedNeedLoop_spec alg region fuel _ _ _ _ hneed
    have hwf2 : compsWF sgs2 := hw2 hwf1
    have hfree2 : sharedFree sgs2 := by
      intro k hk
      rw [hk2] at hk
      exact hfree1 k hk
    split at h
    · exact Option.noConfusion h
    · rename_i sgs3 p3 p4 hkeep
      simp only [Option.some.injEq, Except.ok.injEq, Prod.mk.injEq] at h
      rw [← h.1] at hb
      exact Bool.noConfusion hb
    · rename_i sgs3 ap3 rp3 hkeep
      have hz3 := keepDeviation_zoneTotal alg region fuel sgs2 _ _ _ hkeep hwf2 hfree2 rfl
      split at h
      · exact Option.noConfusion h
      · simp at h
      · rename_i sgs4 hfin
        simp only [Option.some.injEq, Except.ok.injEq, Prod.mk.injEq] at h
        intro z
        rw [← h.2]
        rw [localSharedFinalLoop_spec alg region fuel _ _ _ _ hfin z]
        dsimp only at hz3 hz2
        rw [hz3 z, hz2 z, hz1 z]

/-- Conservation for LocalSharedSliceAlgorithm.CreateSliceGroups: whatever
branch returns, zone totals equal the region's endpoint counts, provided zone
names cannot collide with generated labels. -/
theorem localSharedCreate_conservation (alg : LocalSharedSliceAlgorithm)
    (region : RegionInfo) (hnd : (SMap.keys region.zoneDetails).Nodup)
    (hsafe : ∀ k ∈ SMap.keys region.zoneDetails,
      ¬ labelPrefixed "shared" k ∧ ¬ labelPrefixed "merged" k)
    (fuel : ℕ) (m : SGMap)
    (h : alg.CreateSliceGroups region fuel = some (.ok m)) (z : String) :
    zoneTotalEndpoints m z = regionEndpoints region z := by
  unfold LocalSharedSliceAlgorithm.CreateSliceGroups at h
  split at h
  · simp at h
  · split at h
    · simp only [Option.some.injEq] at h
      exact original_conservation region hnd m h z
    · dsimp only at h
      split at h
      · exact Option.noConfusion h
      · simp at h
      · simp only [Option.some.injEq] at h
        exact original_conservation region hnd m h z
      · rename_i sgs2 hbal
        simp only [Option.some.injEq, Except.ok.injEq] at h
        subst h
        obtain ⟨hwfS, hkS⟩ := localSharedSetupFold_wf alg region
          (sortZoneByNames region.zoneDetails) (([] : SGMap), [], [], [], [])
          (fun p hp => absurd hp (List.not_mem_nil p))
        have hperm : (sortZoneByNames region.zoneDetails).Perm
            (SMap.keys region.zoneDetails) := List.mergeSort_perm _ _
        have hkeys : ∀ k ∈ SMap.keys (localSharedSetup alg region).1,
            ¬ labelPrefixed "shared" k ∧ ¬ labelPrefixed "merged" k := by
          intro k hk
          rcases hkS k hk with h2 | h2
          · simp [SMap.keys] at h2
          · exact hsafe k (hperm.mem_iff.mp h2)
        rw [localSharedBalance_spec alg region fuel _ _ _ _ _ _ _ hbal hwfS hkeys rfl z]
        exact localSharedSetup_zoneTotal alg region hnd z

/-- A zone name shorter than the generated prefixes and different from
`global` is label-safe. -/
theorem labelSafe_short (n : String) (h1 : n ≠ "global") (h2 : n.data.length < 6) :
    labelSafe n := by
  refine ⟨h1, ?_, ?_⟩
  · rintro ⟨t, ht⟩
    have hlen := congrArg List.length ht
    rw [List.length_append,
      show ("shared" : String).data.length = 6 from rfl] at hlen
    omega
  · rintro ⟨t, ht⟩
    have hlen := congrArg List.length ht
    rw [List.length_append,
      show ("merged" : String).data.length = 6 from rfl] at hlen
    omega

/-- C1 counterexample: on a region of zero-node zones, Local-Weighted builds
one shared group per pure contributor, all labeled `shared`, and the map
writes collide: zone `a` holds 2 endpoints but the output's per-zone total for
`a` is 0. -/
theorem C1_conservation_counterexample :
    CreateRegionInfo lwCexZones = .ok lwCexRegion ∧
    (LocalWeightedCreateSliceGroups lwCexRegion).map
      (Except.map (fun m => zoneTotalEndpoints m "a")) = some (.ok 0) ∧
    regionEndpoints lwCexRegion "a" = 2 := by
  refine ⟨?_, ?_, ?_⟩
  · simp [CreateRegionInfo, lwCexZones, lwCexRegion, enrichZone, SMap.insert]
  · simp [LocalWeightedCreateSliceGroups, lwCexRegion, localWeightedSetup,
      localWeightedBalanceSliceGroups, localWeightedIntPhase, localWeightedSharedPhase,
      localWeightedServe, goTrunc, SMap.insert, SMap.getD, SMap.find?,
      endpointsList.push, endpointsList.pushFront, zoneTotalEndpoints]
    simp [Except.map, zoneTotalEndpoints, SMap.getD, SMap.find?]
    rfl
  · simp [regionEndpoints, lwCexRegion, SMap.getD, SMap.find?]

/-- C1 amended: endpoint conservation for Original, Shared-Global,
Shared-Multi-Zone, Local and Local-Shared, on regions with distinct zone
names none of which can collide with a generated label (`global`, or a name
beginning with `shared` or `merged`); Local-Weighted is dropped (see the
counterexample). -/
theorem C1_conservation (zs : List Zone) (region : RegionInfo)
    (hok : CreateRegionInfo zs = .ok region)
    (hnd : (zs.map Zone.name).Nodup)
    (hsafe : ∀ z ∈ zs, labelSafe z.name) :
    (∀ m, OriginalCreateSliceGroups region = .ok m →
      ∀ z, zoneTotalEndpoints m z = regionEndpoints region z) ∧
    (∀ alg m, SharedGlobalCreateSliceGroups alg region = .ok m →
      ∀ z, zoneTotalEndpoints m z = regionEndpoints region z) ∧
    (∀ alg m, SharedMultiZoneCreateSliceGroups alg region = .ok m →
      ∀ z, zoneTotalEndpoints m z = regionEndpoints region z) ∧
    (∀ alg fuel m, LocalSliceAlgorithm.CreateSliceGroups alg region fuel = some (.ok m) →
      ∀ z, zoneTotalEndpoints m z = regionEndpoints region z) ∧
    (∀ alg fuel m,
      LocalSharedSliceAlgorithm.CreateSliceGroups alg region fuel = some (.ok m) →
      ∀ z, zoneTotalEndpoints m z = regionEndpoints region z) := by
  have hkeys : SMap.keys region.zoneDetails = zs.map Zone.name :=
    CreateRegionInfo_keys zs region hok hnd
  have hndk : (SMap.keys region.zoneDetails).Nodup := by rw [hkeys]; exact hnd
  have hsafek : ∀ k ∈ SMap.keys region.zoneDetails, labelSafe k := by
    intro k hk
    rw [hkeys] at hk
    obtain ⟨w, hw, rfl⟩ := List.mem_map.mp hk
    exact hsafe w hw
  refine ⟨?_, ?_, ?_, ?_, ?_⟩
  · intro m hm z
    exact original_conservation region hndk m hm z
  · intro alg m hm z
    exact sharedGlobalCore_conservation alg region false hndk
      (fun n hn => (hsafek n hn).1) m hm z
  · intro alg m hm z
    exact sharedGlobalCore_conservation alg region true hndk
      (fun n hn => (hsafek n hn).1) m hm z
  · intro alg fuel m hm z
    exact localCreate_conservation alg region hndk fuel m hm z
  · intro alg fuel m hm z
    exact localSharedCreate_conservation alg region hndk
      (fun k hk => ⟨(hsafek k hk).2.1, (hsafek k hk).2.2⟩) fuel m hm z

/-- Witness for the amended C1 at a concrete region: the Original algorithm's
output on two safe zones of 60 endpoints conserves zone `a`'s count. -/
theorem C1_conservation_witness :
    CreateRegionInfo sgFormZones = Except.ok sgFormRegion ∧
    OriginalCreateSliceGroups sgFormRegion =
      .ok [("global", ⟨"global", [("a", ⟨60, 1⟩), ("b", ⟨60, 1⟩)],
        [("a", 1), ("b", 1)]⟩)] ∧
    zoneTotalEndpoints [("global", ⟨"global",
      [("a", (⟨60, 1⟩ : WeightedEndpoints)), ("b", ⟨60, 1⟩)],
      [("a", (1 : ℚ)), ("b", 1)]⟩)] "a" = regionEndpoints sgFormRegion "a" := by
  have hok : CreateRegionInfo sgFormZones = Except.ok sgFormRegion := by
    simp [CreateRegionInfo, sgFormZones, sgFormRegion, enrichZone, SMap.insert]
    norm_num
  have hm : OriginalCreateSliceGroups sgFormRegion =
      .ok [("global", ⟨"global", [("a", ⟨60, 1⟩), ("b", ⟨60, 1⟩)],
        [("a", 1), ("b", 1)]⟩)] := by
    simp [OriginalCreateSliceGroups, sgFormRegion, SMap.insert]
  refine ⟨hok, hm, ?_⟩
  exact (C1_conservation sgFormZones sgFormRegion hok (by decide)
    (by
      intro z hz
      simp only [sgFormZones, List.mem_cons, List.not_mem_nil, or_false] at hz
      rcases hz with rfl | rfl <;>
        exact labelSafe_short _ (by decide) (by decide))).1 _ hm "a"

/-- C2: whenever the balancing phase of the Local or Local-Shared algorithm
reports failure on a region its CreateSliceGroups actually balances (non-empty
and at or above the starting threshold), CreateSliceGroups returns exactly the
Original algorithm's output, which is a non-error map. -/
theorem C2_fallback (region : RegionInfo) :
    (∀ (alg : LocalSliceAlgorithm) (fuel : ℕ) (sgs : SGMap),
      region.zoneDetails ≠ [] →
      ¬ region.totalEndpoints < alg.startingThreshold * (region.zoneDetails.length : ℤ) →
      alg.balanceSliceGroups region fuel (localSetup alg region).2.1
        (localSetup alg region).2.2.1 (localSetup alg region).2.2.2
        (localSetup alg region).1 = some (false, sgs) →
      alg.CreateSliceGroups region fuel = some (OriginalCreateSliceGroups region) ∧
      ∃ m, OriginalCreateSliceGroups region = .ok m) ∧
    (∀ (alg : LocalSharedSliceAlgorithm) (fuel : ℕ) (sgs : SGMap),
      region.zoneDetails ≠ [] →
      ¬ region.totalEndpoints < (region.zoneDetails.length : ℤ) →
      alg.balanceSliceGroups region fuel (localSharedSetup alg region).2.1
        (localSharedSetup alg region).2.2.1 (localSharedSetup alg region).1
        (localSharedSetup alg region).2.2.2.1 (localSharedSetup alg region).2.2.2.2 =
        some (.ok (false, sgs)) →
      alg.CreateSliceGroups region fuel = some (OriginalCreateSliceGroups region) ∧
      ∃ m, OriginalCreateSliceGroups region = .ok m) := by
  have horig : region.zoneDetails ≠ [] →
      ∃ m, OriginalCreateSliceGroups region = .ok m := by
    intro h
    unfold OriginalCreateSliceGroups
    rw [if_neg h]
    exact ⟨_, rfl⟩
  constructor
  · intro alg fuel sgs hne hth hbal
    refine ⟨?_, horig hne⟩
    unfold LocalSliceAlgorithm.CreateSliceGroups
    rw [if_neg hne, if_neg hth]
    dsimp only
    rw [hbal]
  · intro alg fuel sgs hne hth hbal
    refine ⟨?_, horig hne⟩
    unfold LocalSharedSliceAlgorithm.CreateSliceGroups
    rw [if_neg hne, if_neg hth]
    dsimp only
    rw [hbal]

set_option maxRecDepth 10000 in
set_option maxHeartbeats 4000000 in
/-- Witness for C2: two concrete regions on which the Local and the
Local-Shared balancing phases report failure, and both CreateSliceGroups
return the Original output. -/
theorem C2_fallback_witness :
    CreateRegionInfo localFallbackZones = .ok localFallbackRegion ∧
    CreateRegionInfo localSharedFallbackZones = .ok localSharedFallbackRegion ∧
    localFallbackAlg.CreateSliceGroups localFallbackRegion 5 =
      some (OriginalCreateSliceGroups localFallbackRegion) ∧
    localSharedFallbackAlg.CreateSliceGroups localSharedFallbackRegion 8 =
      some (OriginalCreateSliceGroups localSharedFallbackRegion) := by
  have h1 : (['a'] : List Char) ≤ ['b'] := by decide
  have h2 : ¬ (['b'] : List Char) ≤ ['a'] := by decide
  have e1 : ¬ ("a" : String) = "b" := by decide
  have e2 : ¬ ("b" : String) = "a" := by decide
  have e3 : ¬ ("merged-a" : String) = "b" := by decide
  have e4 : ¬ ("b" : String) = "merged-a" := by decide
  have e5 : ¬ ("merged-a" : String) = "a" := by decide
  have e6 : ¬ ("a" : String) = "merged-a" := by decide
  have em : ("merged" : String) ++ "-" ++ "a" = "merged-a" := rfl
  have hdef : (default : WeightedEndpoints).number = 0 := rfl
  have hbal1 : localFallbackAlg.balanceSliceGroups localFallbackRegion 5
      (localSetup localFallbackAlg localFallbackRegion).2.1
      (localSetup localFallbackAlg localFallbackRegion).2.2.1
      (localSetup localFallbackAlg localFallbackRegion).2.2.2
      (localSetup localFallbackAlg localFallbackRegion).1 = some (false,
    [("a", ⟨"a", [("a", ⟨1, 1⟩)], [("a", 1)]⟩),
     ("b", ⟨"b", [("b", ⟨1, 1⟩)], [("b", 1)]⟩)]) := by
    norm_num [LocalSliceAlgorithm.balanceSliceGroups, localSetup, localSetupStep,
      localFallbackAlg, localFallbackRegion, sortZoneByNames, List.mergeSort, List.merge,
      h1, h2, e1, e2, SMap.keys, SMap.insert, SMap.getD, SMap.find?, sgGet,
      LocalSliceAlgorithm.validContributor, LocalSliceAlgorithm.deviationAboveThreshold,
      EndpointSliceGroup.NumberOfEndpoints, heapInit, heapDown, heapUp, heapPop, heapPush,
      listSwap, pqLess, pqLessHelper, localReceiverLoop, localInnerLoop, localSpreadLoop,
      localZonePoolLoop, localSpreadTransfer, updateSGComposition, getEndpointsDeviation]
  have hbal2 : localSharedFallbackAlg.balanceSliceGroups localSharedFallbackRegion 8
      (localSharedSetup localSharedFallbackAlg localSharedFallbackRegion).2.1
      (localSharedSetup localSharedFallbackAlg localSharedFallbackRegion).2.2.1
      (localSharedSetup localSharedFallbackAlg localSharedFallbackRegion).1
      (localSharedSetup localSharedFallbackAlg localSharedFallbackRegion).2.2.2.1
      (localSharedSetup localSharedFallbackAlg localSharedFallbackRegion).2.2.2.2 =
      some (.ok (false,
    [("b", ⟨"b", [("b", ⟨1, 1⟩)], [("b", 1)]⟩),
     ("merged-a", ⟨"merged-a", [("b", ⟨3, 1⟩)], [("a", 1)]⟩)])) := by
    norm_num [LocalSharedSliceAlgorithm.balanceSliceGroups, localSharedSetup,
      localSharedSetupStep, localSharedFallbackAlg, localSharedFallbackRegion,
      sortZoneByNames, List.mergeSort, List.merge, localSharedMerge, localSharedMergeStep,
      goCeil, goRound, goTrunc, localSharedNeedLoop, endpointsList.push,
      endpointsList.pushFront,
      h1, h2, e1, e2, e3, e4, e5, e6, em, hdef, SMap.keys, SMap.insert, SMap.getD,
      SMap.find?, sgGet, LocalSharedSliceAlgorithm.validContributor,
      LocalSharedSliceAlgorithm.deviationAboveThreshold,
      EndpointSliceGroup.NumberOfEndpoints, heapInit, heapDown, heapUp, heapPop, heapPush,
      listSwap, pqLess, pqLessHelper, updateSGComposition]
  refine ⟨?_, ?_, ?_, ?_⟩
  · simp [CreateRegionInfo, localFallbackZones, localFallbackRegion, enrichZone,
      SMap.insert]
  · simp [CreateRegionInfo, localSharedFallbackZones, localSharedFallbackRegion,
      enrichZone, SMap.insert]
  · exact ((C2_fallback localFallbackRegion).1 localFallbackAlg 5 _
      (by simp [localFallbackRegion])
      (by norm_num [localFallbackRegion, localFallbackAlg]) hbal1).1
  · exact ((C2_fallback localSharedFallbackRegion).2 localSharedFallbackAlg 8 _
      (by simp [localSharedFallbackRegion])
      (by norm_num [localSharedFallbackRegion]) hbal2).1

/-- C7: assignEndpoints walks the available list from the front.  Per sender:
equal deviations transfer the whole deficit, pop the sender and stop; a richer
sender gives exactly the deficit, keeps the rest in place and stops; a poorer
sender gives everything, is popped, and the walk continues with the reduced
deficit — so the deficit reaches zero whenever the list holds at least that
many endpoints (all deviations non-negative, receiver label present). -/
theorem C7_assignEndpoints :
    (∀ (r s : endpointDeviation) (rest : endpointsList) (sgs : SGMap)
      (g : EndpointSliceGroup), SMap.find? sgs r.name = some g →
      s.deviation = r.deviation →
      assignEndpoints r (s :: rest) sgs =
        some (⟨r.name, 0, r.weight, r.consumeByLocal⟩, rest,
          SMap.insert sgs r.name
            { g with composition :=
                (SMap.insert g.composition s.name ⟨s.deviation, 1⟩) })) ∧
    (∀ (r s : endpointDeviation) (rest : endpointsList) (sgs : SGMap)
      (g : EndpointSliceGroup), SMap.find? sgs r.name = some g →
      s.deviation > r.deviation →
      assignEndpoints r (s :: rest) sgs =
        some (⟨r.name, 0, r.weight, r.consumeByLocal⟩,
          ⟨s.name, s.deviation - r.deviation, s.weight, s.consumeByLocal⟩ :: rest,
          SMap.insert sgs r.name
            { g with composition :=
                (SMap.insert g.composition s.name ⟨r.deviation, 1⟩) })) ∧
    (∀ (r s : endpointDeviation) (rest : endpointsList) (sgs : SGMap)
      (g : EndpointSliceGroup), SMap.find? sgs r.name = some g →
      s.deviation < r.deviation →
      assignEndpoints r (s :: rest) sgs =
        assignEndpoints ⟨r.name, r.deviation - s.deviation, r.weight, r.consumeByLocal⟩
          rest
          (SMap.insert sgs r.name
            { g with composition :=
                (SMap.insert g.composition s.name ⟨s.deviation, 1⟩) })) ∧
    (∀ (r : endpointDeviation) (avail : endpointsList) (sgs : SGMap),
      SMap.find? sgs r.name ≠ none →
      0 ≤ r.deviation → (∀ s ∈ avail, 0 ≤ s.deviation) →
      r.deviation ≤ (avail.map (fun s => s.deviation)).sum →
      ∃ out, assignEndpoints r avail sgs = some out ∧
        out.1.deviation = 0 ∧ out.1.name = r.name) := by
  have heq : ∀ (r s : endpointDeviation) (rest : endpointsList) (sgs : SGMap)
      (g : EndpointSliceGroup), SMap.find? sgs r.name = some g →
      s.deviation = r.deviation →
      assignEndpoints r (s :: rest) sgs =
        some (⟨r.name, 0, r.weight, r.consumeByLocal⟩, rest,
          SMap.insert sgs r.name
            { g with composition :=
                (SMap.insert g.composition s.name ⟨s.deviation, 1⟩) }) := by
    intro r s rest sgs g hg he
    unfold assignEndpoints
    rw [hg]
    dsimp only
    rw [if_pos he]
  have hgt : ∀ (r s : endpointDeviation) (rest : endpointsList) (sgs : SGMap)
      (g : EndpointSliceGroup), SMap.find? sgs r.name = some g →
      s.deviation > r.deviation →
      assignEndpoints r (s :: rest) sgs =
        some (⟨r.name, 0, r.weight, r.consumeByLocal⟩,
          ⟨s.name, s.deviation - r.deviation, s.weight, s.consumeByLocal⟩ :: rest,
          SMap.insert sgs r.name
            { g with composition :=
                (SMap.insert g.composition s.name ⟨r.deviation, 1⟩) }) := by
    intro r s rest sgs g hg hgt2
    unfold assignEndpoints
    rw [hg]
    dsimp only
    rw [if_neg (by omega), if_pos hgt2]
  have hlt : ∀ (r s : endpointDeviation) (rest : endpointsList) (sgs : SGMap)
      (g : EndpointSliceGroup), SMap.find? sgs r.name = some g →
      s.deviation < r.deviation →
      assignEndpoints r (s :: rest) sgs =
        assignEndpoints ⟨r.name, r.deviation - s.deviation, r.weight, r.consumeByLocal⟩
          rest
          (SMap.insert sgs r.name
            { g with composition :=
                (SMap.insert g.composition s.name ⟨s.deviation, 1⟩) }) := by
    intro r s rest sgs g hg hlt2
    conv_lhs => rw [assignEndpoints.eq_def]
    dsimp only
    rw [hg]
    dsimp only
    rw [if_neg (by omega), if_neg (by omega)]
  refine ⟨heq, hgt, hlt, ?_⟩
  intro r avail
  induction avail generalizing r with
  | nil =>
      intro sgs hfind h0 hall hsum
      simp only [List.map_nil, List.sum_nil] at hsum
      refine ⟨(r, [], sgs), ?_, ?_, rfl⟩
      · unfold assignEndpoints
        rfl
      · show r.deviation = 0
        omega
  | cons s rest ih =>
      intro sgs hfind h0 hall hsum
      cases hg : SMap.find? sgs r.name with
      | none => exact absurd hg hfind
      | some g =>
          rcases lt_trichotomy s.deviation r.deviation with hc | hc | hc
          · rw [hlt r s rest sgs g hg hc]
            have hs0 : 0 ≤ s.deviation := hall s (List.mem_cons_self s rest)
            obtain ⟨out, hout, hdev, hname⟩ :=
              ih ⟨r.name, r.deviation - s.deviation, r.weight, r.consumeByLocal⟩
                (SMap.insert sgs r.name
                  { g with composition :=
                      (SMap.insert g.composition s.name ⟨s.deviation, 1⟩) })
                (by
                  show SMap.find? _ (r.name) ≠ none
                  rw [SMap.find?_insert_self]
                  exact fun hc2 => Option.noConfusion hc2)
                (by show 0 ≤ r.deviation - s.deviation; omega)
                (fun q hq => hall q (List.mem_cons_of_mem _ hq))
                (by
                  show r.deviation - s.deviation ≤ _
                  simp only [List.map_cons, List.sum_cons] at hsum
                  omega)
            exact ⟨out, hout, hdev, hname⟩
          · rw [heq r s rest sgs g hg hc]
            exact ⟨_, rfl, rfl, rfl⟩
          · rw [hgt r s rest sgs g hg hc]
            exact ⟨_, rfl, rfl, rfl⟩

/-- Witness for C7 at concrete inputs: one exact match, one richer sender, and
a two-sender walk whose deficit reaches zero. -/
theorem C7_assignEndpoints_witness :
    (assignEndpoints ⟨"r", 3, 1, false⟩ [⟨"s", 3, 1, false⟩]
        [("r", ⟨"r", [], []⟩)] =
      some (⟨"r", 0, 1, false⟩, [], [("r", ⟨"r", [("s", ⟨3, 1⟩)], []⟩)])) ∧
    (assignEndpoints ⟨"r", 2, 1, false⟩ [⟨"s", 5, 1, false⟩]
        [("r", ⟨"r", [], []⟩)] =
      some (⟨"r", 0, 1, false⟩, [⟨"s", 3, 1, false⟩],
        [("r", ⟨"r", [("s", ⟨2, 1⟩)], []⟩)])) ∧
    (∃ out, assignEndpoints ⟨"r", 2, 1, false⟩
        [⟨"s", 1, 1, false⟩, ⟨"t", 5, 1, false⟩] [("r", ⟨"r", [], []⟩)] = some out ∧
      out.1.deviation = 0 ∧ out.1.name = "r") := by
  refine ⟨?_, ?_, ?_⟩
  · exact C7_assignEndpoints.1 ⟨"r", 3, 1, false⟩ ⟨"s", 3, 1, false⟩ []
      [("r", ⟨"r", [], []⟩)] ⟨"r", [], []⟩ (by simp [SMap.find?]) rfl
  · exact C7_assignEndpoints.2.1 ⟨"r", 2, 1, false⟩ ⟨"s", 5, 1, false⟩ []
      [("r", ⟨"r", [], []⟩)] ⟨"r", [], []⟩ (by simp [SMap.find?]) (by norm_num)
  · exact C7_assignEndpoints.2.2.2 ⟨"r", 2, 1, false⟩
      [⟨"s", 1, 1, false⟩, ⟨"t", 5, 1, false⟩] [("r", ⟨"r", [], []⟩)]
      (by simp [SMap.find?]) (by norm_num) (by decide) (by decide)

/-! ## Simulator on slice maps with all-zero compositions -/

theorem numberOfEndpoints_zero (g : EndpointSliceGroup)
    (hz : ∀ q ∈ g.composition, q.2.number = 0) :
    g.NumberOfEndpoints = 0 := by
  unfold EndpointSliceGroup.NumberOfEndpoints
  rw [List.sum_eq_zero]
  intro x hx
  obtain ⟨q, hq, rfl⟩ := List.mem_map.mp hx
  exact hz q hq

theorem numberOfWeighted_zero (g : EndpointSliceGroup)
    (hz : ∀ q ∈ g.composition, q.2.number = 0) :
    g.NumberOfWeightedEndpoints = 0 := by
  unfold EndpointSliceGroup.NumberOfWeightedEndpoints
  rw [List.sum_eq_zero]
  intro x hx
  obtain ⟨q, hq, rfl⟩ := List.mem_map.mp hx
  rw [hz q hq]
  norm_num

theorem comp_getD_zero (g : EndpointSliceGroup)
    (hz : ∀ q ∈ g.composition, q.2.number = 0) (zone : String) :
    (SMap.getD g.composition zone default).number = 0 := by
  unfold SMap.getD
  cases hf : SMap.find? g.composition zone with
  | none => rfl
  | some v => exact hz (zone, v) (SMap.find?_mem hf)

theorem getReachable_snd_zero (m : SGMap)
    (hz : ∀ p ∈ m, ∀ q ∈ p.2.composition, q.2.number = 0) (zone : String) :
    (getReachableEndpointsZone m zone).2 = 0 := by
  unfold getReachableEndpointsZone
  suffices h : ∀ (l : SGMap), (∀ p ∈ l, ∀ q ∈ p.2.composition, q.2.number = 0) →
      ∀ acc : SMap ℚ × ℚ,
      (l.foldl (fun acc p =>
        let reach := ((p.2.NumberOfEndpoints : ℚ)) * SMap.getD p.2.zoneTrafficWeights zone 0
        (SMap.insert acc.1 p.1 reach, acc.2 + reach)) acc).2 = acc.2 by
    exact h m hz ([], 0)
  intro l
  induction l with
  | nil => intro _ acc; rfl
  | cons p rest ih =>
      intro hz2 acc
      simp only [List.foldl_cons]
      rw [ih (fun p2 h2 => hz2 p2 (List.mem_cons_of_mem _ h2))]
      dsimp only
      rw [numberOfEndpoints_zero _ (hz2 p (List.mem_cons_self _ _))]
      norm_num

/-- Entries of buildZoneDetails on an all-zero map: empty traffic ratio and
empty per-endpoint maps. -/
theorem buildZoneDetails_entries (region : RegionInfo) (m : SGMap)
    (hz : ∀ p ∈ m, ∀ q ∈ p.2.composition, q.2.number = 0) :
    ∀ e ∈ buildZoneDetails region m,
      e.2.zoneTrafficRatio = [] ∧ e.2.endpointsTrafficLoad = [] ∧
      e.2.endpointsTrafficLoadDeviation = [] := by
  unfold buildZoneDetails
  suffices h : ∀ (zones : List (String × Zone)) (acc : zoneSGDetails),
      (∀ e ∈ acc, e.2.zoneTrafficRatio = [] ∧ e.2.endpointsTrafficLoad = [] ∧
        e.2.endpointsTrafficLoadDeviation = []) →
      ∀ e ∈ zones.foldl (fun zd p =>
        let r := getReachableEndpointsZone m p.1
        SMap.insert zd p.1
          { zoneReachableEndpoints := r.1
            zoneReachableEndpointsAll := r.2
            zoneTrafficRatio := getTrafficZone r.1 r.2
            endpointsTrafficLoad := []
            endpointsTrafficLoadDeviation := [] }) acc,
        e.2.zoneTrafficRatio = [] ∧ e.2.endpointsTrafficLoad = [] ∧
        e.2.endpointsTrafficLoadDeviation = [] by
    exact h region.zoneDetails [] (fun e he => absurd he (List.not_mem_nil e))
  intro zones
  induction zones with
  | nil => intro acc hacc e he; exact hacc e he
  | cons p rest ih =>
      intro acc hacc e he
      simp only [List.foldl_cons] at he
      refine ih _ ?_ e he
      intro e2 he2
      rcases SMap.mem_insert he2 with h2 | h2
      · exact hacc e2 h2
      · subst h2
        refine ⟨?_, rfl, rfl⟩
        show getTrafficZone (getReachableEndpointsZone m p.1).1
          (getReachableEndpointsZone m p.1).2 = []
        rw [getReachable_snd_zero m hz p.1]
        unfold getTrafficZone
        rw [if_pos rfl]

/-- sgTrafficRatio is empty when every zone detail's traffic ratio is
empty. -/
theorem sgTrafficRatio_nil (region : RegionInfo) (zd : zoneSGDetails)
    (hzd : ∀ e ∈ zd, e.2.zoneTrafficRatio = []) :
    sgTrafficRatio region zd = [] := by
  unfold sgTrafficRatio
  suffices h : ∀ (zones : List (String × Zone)) (acc : SMap ℚ), acc = [] →
      zones.foldl (fun acc p =>
        (SMap.getD zd p.1 default).zoneTrafficRatio.foldl
          (fun acc2 q => SMap.insert acc2 q.1 (SMap.getD acc2 q.1 0 + p.2.nodesRatio * q.2))
          acc) acc = [] by
    exact h region.zoneDetails [] rfl
  intro zones
  induction zones with
  | nil => intro acc h; exact h
  | cons p rest ih =>
      intro acc hacc
      simp only [List.foldl_cons]
      apply ih
      have hratio : (SMap.getD zd p.1 default).zoneTrafficRatio = [] := by
        unfold SMap.getD
        cases hf : SMap.find? zd p.1 with
        | none => rfl
        | some d => exact hzd (p.1, d) (SMap.find?_mem hf)
      rw [hratio, hacc]
      rfl

/-- The inner fold of getEndpointsTrafficLoadDetails never fires on an
all-zero map. -/
theorem loadFold_nil (m : SGMap) (sgTR : SMap ℚ) (tl : ℚ) (zone : String)
    (hz : ∀ p ∈ m, ∀ q ∈ p.2.composition, q.2.number = 0) :
    ∀ acc : SMap ℚ × SMap ℚ,
    m.foldl (fun (acc : SMap ℚ × SMap ℚ) p =>
      if (SMap.getD p.2.composition zone default).number = 0 ∨
          p.2.NumberOfWeightedEndpoints = 0 then acc
      else
        let zoneRatioInSG :=
          ((SMap.getD p.2.composition zone default).number : ℚ) *
            (SMap.getD p.2.composition zone default).weight /
            p.2.NumberOfWeightedEndpoints
        let trafficLoad := SMap.getD sgTR p.1 0 * zoneRatioInSG /
          ((SMap.getD p.2.composition zone default).number : ℚ)
        (SMap.insert acc.1 p.1 trafficLoad,
          SMap.insert acc.2 p.1 (trafficLoad / tl - 1))) acc = acc := by
  induction m with
  | nil => intro acc; rfl
  | cons p rest ih =>
      intro acc
      simp only [List.foldl_cons]
      rw [if_pos (Or.inl (comp_getD_zero _ (hz p (List.mem_cons_self _ _)) zone))]
      exact ih (fun p2 h2 => hz p2 (List.mem_cons_of_mem _ h2)) acc

/-- Every row of getZoneToZoneTraffic is empty on an all-zero map. -/
theorem ztz_rows_nil (region : RegionInfo) (m : SGMap) (zd : zoneSGDetails)
    (hz : ∀ p ∈ m, ∀ q ∈ p.2.composition, q.2.number = 0) :
    ∀ e ∈ getZoneToZoneTraffic region m zd, e.2 = ([] : SMap ℚ) := by
  unfold getZoneToZoneTraffic
  have hrow : ∀ (oriZone : String) (nr : ℚ),
      m.foldl (fun row p =>
        if p.2.NumberOfWeightedEndpoints = 0 then row
        else
          region.zoneDetails.foldl
            (fun row dp =>
              let destZone := dp.1
              let desZoneRatioInSG :=
                ((SMap.getD p.2.composition destZone default).number : ℚ) *
                  (SMap.getD p.2.composition destZone default).weight /
                  p.2.NumberOfWeightedEndpoints
              SMap.insert row destZone
                (SMap.getD row destZone 0 +
                  nr * SMap.getD (SMap.getD zd oriZone default).zoneTrafficRatio p.1 0 *
                    desZoneRatioInSG))
            row)
        ([] : SMap ℚ) = ([] : SMap ℚ) := by
    intro oriZone nr
    suffices h : ∀ (l : SGMap), (∀ p ∈ l, ∀ q ∈ p.2.composition, q.2.number = 0) →
        ∀ row : SMap ℚ, row = [] →
        l.foldl (fun row p =>
          if p.2.NumberOfWeightedEndpoints = 0 then row
          else
            region.zoneDetails.foldl
              (fun row dp =>
                let destZone := dp.1
                let desZoneRatioInSG :=
                  ((SMap.getD p.2.composition destZone default).number : ℚ) *
                    (SMap.getD p.2.composition destZone default).weight /
                    p.2.NumberOfWeightedEndpoints
                SMap.insert row destZone
                  (SMap.getD row destZone 0 +
                    nr * SMap.getD (SMap.getD zd oriZone default).zoneTrafficRatio p.1 0 *
                      desZoneRatioInSG))
              row)
          row = [] by
      exact h m hz [] rfl
    intro l
    induction l with
    | nil => intro _ row hrow2; exact hrow2
    | cons p rest ih =>
        intro hz2 row hrow2
        simp only [List.foldl_cons]
        rw [if_pos (numberOfWeighted_zero _ (hz2 p (List.mem_cons_self _ _)))]
        exact ih (fun p2 h2 => hz2 p2 (List.mem_cons_of_mem _ h2)) row hrow2
  suffices h : ∀ (zones : List (String × Zone)) (acc : SMap (SMap ℚ)),
      (∀ e ∈ acc, e.2 = ([] : SMap ℚ)) →
      ∀ e ∈ zones.foldl (fun ztz op =>
        let oriZone := op.1
        let row := m.foldl (fun row p =>
          if p.2.NumberOfWeightedEndpoints = 0 then row
          else
            region.zoneDetails.foldl
              (fun row dp =>
                let destZone := dp.1
                let desZoneRatioInSG :=
                  ((SMap.getD p.2.composition destZone default).number : ℚ) *
                    (SMap.getD p.2.composition destZone default).weight /
                    p.2.NumberOfWeightedEndpoints
                SMap.insert row destZone
                  (SMap.getD row destZone 0 +
                    op.2.nodesRatio * SMap.getD (SMap.getD zd oriZone default).zoneTrafficRatio p.1 0 *
                      desZoneRatioInSG))
              row)
          ([] : SMap ℚ)
        SMap.insert ztz oriZone row) acc,
        e.2 = ([] : SMap ℚ) by
    exact h region.zoneDetails [] (fun e he => absurd he (List.not_mem_nil e))
  intro zones
  induction zones with
  | nil => intro acc hacc e he; exact hacc e he
  | cons op rest ih =>
      intro acc hacc e he
      simp only [List.foldl_cons] at he
      refine ih _ ?_ e he
      intro e2 he2
      rcases SMap.mem_insert he2 with h2 | h2
      · exact hacc e2 h2
      · subst h2
        exact hrow op.1 op.2.nodesRatio

/-- Entries of getEndpointsTrafficLoadDetails on an all-zero map: both
per-endpoint maps stay empty. -/
theorem loadDetails_entries (region : RegionInfo) (m : SGMap) (zd : zoneSGDetails)
    (hz : ∀ p ∈ m, ∀ q ∈ p.2.composition, q.2.number = 0) :
    ∀ e ∈ getEndpointsTrafficLoadDetails region m zd,
      e.2.endpointsTrafficLoad = [] ∧ e.2.endpointsTrafficLoadDeviation = [] := by
  intro e he
  unfold getEndpointsTrafficLoadDetails at he
  dsimp only at he
  obtain ⟨zp, hzp, rfl⟩ := List.mem_map.mp he
  constructor
  · show (m.foldl _ (([] : SMap ℚ), ([] : SMap ℚ))).1 = []
    rw [loadFold_nil m (sgTrafficRatio region zd) (1 / (region.totalEndpoints : ℚ))
      zp.1 hz (([] : SMap ℚ), ([] : SMap ℚ))]
  · show (m.foldl _ (([] : SMap ℚ), ([] : SMap ℚ))).2 = []
    rw [loadFold_nil m (sgTrafficRatio region zd) (1 / (region.totalEndpoints : ℚ))
      zp.1 hz (([] : SMap ℚ), ([] : SMap ℚ))]

/-- getSimulationResult on empty zone details and empty traffic rows: the
invalid flag stays false, the in-zone traffic and max deviation are 0, and
every traffic record carries the empty per-endpoint maps. -/
theorem getSimulationResult_zero (zd : zoneSGDetails) (region : RegionInfo)
    (m : SGMap) (ztz : SMap (SMap ℚ))
    (hzd : ∀ e ∈ zd, e.2.endpointsTrafficLoad = [] ∧
      e.2.endpointsTrafficLoadDeviation = [])
    (hztz : ∀ e ∈ ztz, e.2 = ([] : SMap ℚ)) :
    (getSimulationResult zd region m ztz).invalid = false ∧
    (getSimulationResult zd region m ztz).inZoneTraffic = 0 ∧
    (getSimulationResult zd region m ztz).maxDeviation = 0 ∧
    ∀ e ∈ (getSimulationResult zd region m ztz).trafficDistribution,
      e.2.zoneTrafficDetail.endpointsTrafficLoad = [] ∧
      e.2.zoneTrafficDetail.endpointsTrafficLoadDeviation = [] := by
  have hrow : ∀ z : String, SMap.getD ztz z ([] : SMap ℚ) = [] := by
    intro z
    unfold SMap.getD
    cases hf : SMap.find? ztz z with
    | none => rfl
    | some row => exact hztz (z, row) (SMap.find?_mem hf)
  have hdet : ∀ z : String,
      (SMap.getD zd z default).endpointsTrafficLoad = [] ∧
      (SMap.getD zd z default).endpointsTrafficLoadDeviation = [] := by
    intro z
    unfold SMap.getD
    cases hf : SMap.find? zd z with
    | none => exact ⟨rfl, rfl⟩
    | some d => exact hzd (z, d) (SMap.find?_mem hf)
  have hfold : ∀ (zones : List (String × Zone)) (acc : ℚ × ℚ × ℚ × SMap ZoneTraffic),
      acc.1 = 0 → acc.2.2.1 = 0 →
      (∀ e ∈ acc.2.2.2, e.2.zoneTrafficDetail.endpointsTrafficLoad = [] ∧
        e.2.zoneTrafficDetail.endpointsTrafficLoadDeviation = []) →
      (zones.foldl (fun (acc : ℚ × ℚ × ℚ × SMap ZoneTraffic) p =>
        let zoneName := p.1
        let zoneInfo := p.2
        let inZone := acc.1 + SMap.getD (SMap.getD ztz zoneName []) zoneName 0
        let devFold := (SMap.getD zd zoneName default).endpointsTrafficLoadDeviation.foldl
          (fun (a : ℚ × ℚ × String) q =>
            let zoneDeviation := a.1 + |q.2| *
              ((SMap.getD (sgGet m q.1).composition zoneName default).number : ℚ)
            if |q.2| > a.2.1 then (zoneDeviation, |q.2|, q.1) else (zoneDeviation, a.2.1, a.2.2))
          (0, 0, "")
        let zoneDeviation := devFold.1
        let zoneMaxDeviation := devFold.2.1
        let maxLabel := devFold.2.2
        let totalDeviation := acc.2.1 + zoneDeviation
        let maxDeviation := max zoneMaxDeviation acc.2.2.1
        let incoming := region.zoneDetails.foldl
          (fun inc q => inc + q.2.nodesRatio * SMap.getD (SMap.getD ztz q.1 []) zoneName 0)
          0
        let traffic : ZoneTraffic :=
          { zoneName := zoneName
            incoming := incoming
            outgoing := SMap.getD ztz zoneName []
            trafficLoad := incoming / zoneInfo.endpointsRatio
            zoneTrafficDetail :=
              { endpointsTrafficLoad := (SMap.getD zd zoneName default).endpointsTrafficLoad
                endpointsTrafficLoadDeviation :=
                  (SMap.getD zd zoneName default).endpointsTrafficLoadDeviation
                maxDeviationSG := maxLabel
                meanDeviation := zoneDeviation / (zoneInfo.endpoints : ℚ) } }
        (inZone, totalDeviation, maxDeviation, SMap.insert acc.2.2.2 zoneName traffic)) acc).1 = 0 ∧
      (zones.foldl (fun (acc : ℚ × ℚ × ℚ × SMap ZoneTraffic) p =>
        let zoneName := p.1
        let zoneInfo := p.2
        let inZone := acc.1 + SMap.getD (SMap.getD ztz zoneName []) zoneName 0
        let devFold := (SMap.getD zd zoneName default).endpointsTrafficLoadDeviation.foldl
          (fun (a : ℚ × ℚ × String) q =>
            let zoneDeviation := a.1 + |q.2| *
              ((SMap.getD (sgGet m q.1).composition zoneName default).number : ℚ)
            if |q.2| > a.2.1 then (zoneDeviation, |q.2|, q.1) else (zoneDeviation, a.2.1, a.2.2))
          (0, 0, "")
        let zoneDeviation := devFold.1
        let zoneMaxDeviation := devFold.2.1
        let maxLabel := devFold.2.2
        let totalDeviation := acc.2.1 + zoneDeviation
        let maxDeviation := max zoneMaxDeviation acc.2.2.1
        let incoming := region.zoneDetails.foldl
          (fun inc q => inc + q.2.nodesRatio * SMap.getD (SMap.getD ztz q.1 []) zoneName 0)
          0
        let traffic : ZoneTraffic :=
          { zoneName := zoneName
            incoming := incoming
            outgoing := SMap.getD ztz zoneName []
            trafficLoad := incoming / zoneInfo.endpointsRatio
            zoneTrafficDetail :=
              { endpointsTrafficLoad := (SMap.getD zd zoneName default).endpointsTrafficLoad
                endpointsTrafficLoadDeviation :=
                  (SMap.getD zd zoneName default).endpointsTrafficLoadDeviation
                maxDeviationSG := maxLabel
                meanDeviation := zoneDeviation / (zoneInfo.endpoints : ℚ) } }
        (inZone, totalDeviation, maxDeviation, SMap.insert acc.2.2.2 zoneName traffic)) acc).2.2.1 = 0 ∧
      ∀ e ∈ (zones.foldl (fun (acc : ℚ × ℚ × ℚ × SMap ZoneTraffic) p =>
        let zoneName := p.1
        let zoneInfo := p.2
        let inZone := acc.1 + SMap.getD (SMap.getD ztz zoneName []) zoneName 0
        let devFold := (SMap.getD zd zoneName default).endpointsTrafficLoadDeviation.foldl
          (fun (a : ℚ × ℚ × String) q =>
            let zoneDeviation := a.1 + |q.2| *
              ((SMap.getD (sgGet m q.1).composition zoneName default).number : ℚ)
            if |q.2| > a.2.1 then (zoneDeviation, |q.2|, q.1) else (zoneDeviation, a.2.1, a.2.2))
          (0, 0, "")
        let zoneDeviation := devFold.1
        let zoneMaxDeviation := devFold.2.1
        let maxLabel := devFold.2.2
        let totalDeviation := acc.2.1 + zoneDeviation
        let maxDeviation := max zoneMaxDeviation acc.2.2.1
        let incoming := region.zoneDetails.foldl
          (fun inc q => inc + q.2.nodesRatio * SMap.getD (SMap.getD ztz q.1 []) zoneName 0)
          0
        let traffic : ZoneTraffic :=
          { zoneName := zoneName
            incoming := incoming
            outgoing := SMap.getD ztz zoneName []
            trafficLoad := incoming / zoneInfo.endpointsRatio
            zoneTrafficDetail :=
              { endpointsTrafficLoad := (SMap.getD zd zoneName default).endpointsTrafficLoad
                endpointsTrafficLoadDeviation :=
                  (SMap.getD zd zoneName default).endpointsTrafficLoadDeviation
                maxDeviationSG := maxLabel
                meanDeviation := zoneDeviation / (zoneInfo.endpoints : ℚ) } }
        (inZone, totalDeviation, maxDeviation, SMap.insert acc.2.2.2 zoneName traffic)) acc).2.2.2,
        e.2.zoneTrafficDetail.endpointsTrafficLoad = [] ∧
        e.2.zoneTrafficDetail.endpointsTrafficLoadDeviation = [] := by
    intro zones
    induction zones with
    | nil => intro acc h1 h2 h3; exact ⟨h1, h2, h3⟩
    | cons p rest ih =>
        intro acc h1 h2 h3
        simp only [List.foldl_cons]
        apply ih
        · show acc.1 + SMap.getD (SMap.getD ztz p.1 []) p.1 0 = 0
          rw [hrow p.1, h1]
          norm_num [SMap.getD, SMap.find?]
        · show max _ acc.2.2.1 = 0
          rw [(hdet p.1).2, h2]
          simp
        · intro e he
          rcases SMap.mem_insert he with h4 | h4
          · exact h3 e h4
          · subst h4
            exact ⟨(hdet p.1).1, (hdet p.1).2⟩
  obtain ⟨h1, h2, h3⟩ := hfold region.zoneDetails (0, 0, 0, []) rfl rfl
    (fun e he => absurd he (List.not_mem_nil e))
  exact ⟨rfl, h1, h2, h3⟩

/-- C4 counterexample: a region with zero endpoints and a slice map claiming
five endpoints.  Simulate succeeds with `invalid = false` (never set by the
source) and a per-endpoint traffic load of 1/5 ≠ 0. -/
theorem C4_simulate_zero_counterexample :
    simCexRegion.totalEndpoints = 0 ∧ simCexMap.length ≠ 0 ∧
    (Simulate simCexRegion simCexMap).map (fun r =>
      (r.invalid,
       SMap.getD (SMap.getD r.trafficDistribution "a"
          ⟨"", 0, [], 0, ⟨[], [], "", 0⟩⟩).zoneTrafficDetail.endpointsTrafficLoad
        "g" 0)) = .ok (false, 1/5) := by
  refine ⟨rfl, by simp [simCexMap], ?_⟩
  simp [Simulate, simCexRegion, simCexMap, buildZoneDetails,
    getReachableEndpointsZone, getTrafficZone, sgTrafficRatio,
    getEndpointsTrafficLoadDetails, getZoneToZoneTraffic, getSimulationResult,
    EndpointSliceGroup.NumberOfEndpoints, EndpointSliceGroup.NumberOfWeightedEndpoints,
    sgGet, SMap.insert, SMap.getD, SMap.find?, Except.map]

/-- C4 amended: for a region with zero endpoints and a non-empty slice map
whose groups hold no endpoints (the only maps the algorithms produce for such
a region), Simulate succeeds; the invalid flag is `false` — the source never
assigns it, so the claimed `invalid = true` never happens — the in-zone
traffic and max deviation are 0, and the per-endpoint load and deviation maps
of every zone record are empty.  (The mean deviation and the deviation SD are
the Go expressions 0/0, `NaN` in IEEE-754, not 0.) -/
theorem C4_simulate_zero_endpoints (region : RegionInfo) (m : SGMap)
    (h1 : region.zoneDetails.length ≠ 0) (h2 : m.length ≠ 0)
    (h0 : region.totalEndpoints = 0)
    (hz : ∀ p ∈ m, ∀ q ∈ p.2.composition, q.2.number = 0) :
    ∃ res, Simulate region m = .ok res ∧
      res.invalid = false ∧
      res.inZoneTraffic = 0 ∧ res.maxDeviation = 0 ∧
      ∀ e ∈ res.trafficDistribution,
        e.2.zoneTrafficDetail.endpointsTrafficLoad = [] ∧
        e.2.zoneTrafficDetail.endpointsTrafficLoadDeviation = [] := by
  unfold Simulate
  rw [if_neg (by push_neg; exact ⟨h1, h2⟩)]
  dsimp only
  refine ⟨_, rfl, ?_⟩
  have hzd2 : ∀ e ∈ getEndpointsTrafficLoadDetails region m (buildZoneDetails region m),
      e.2.endpointsTrafficLoad = [] ∧ e.2.endpointsTrafficLoadDeviation = [] :=
    loadDetails_entries region m (buildZoneDetails region m) hz
  have hztz2 := ztz_rows_nil region m
    (getEndpointsTrafficLoadDetails region m (buildZoneDetails region m)) hz
  exact getSimulationResult_zero _ region m _ hzd2 hztz2

/-- Witness for the amended C4 at a concrete region: one empty zone and one
slice group with a zero composition entry. -/
theorem C4_simulate_zero_endpoints_witness :
    ∃ res, Simulate ⟨1, 0, [("a", ⟨1, 0, "a", 0, 1⟩)]⟩
        [("g", ⟨"g", [("a", ⟨0, 1⟩)], [("a", 1)]⟩)] = .ok res ∧
      res.invalid = false ∧
      res.inZoneTraffic = 0 ∧ res.maxDeviation = 0 ∧
      ∀ e ∈ res.trafficDistribution,
        e.2.zoneTrafficDetail.endpointsTrafficLoad = [] ∧
        e.2.zoneTrafficDetail.endpointsTrafficLoadDeviation = [] := by
  exact C4_simulate_zero_endpoints ⟨1, 0, [("a", ⟨1, 0, "a", 0, 1⟩)]⟩
    [("g", ⟨"g", [("a", ⟨0, 1⟩)], [("a", 1)]⟩)]
    (by simp) (by simp) rfl (by decide)

/-! ## C6: in-zone traffic bound -/


/-- Structure of a fold of fresh inserts: with pairwise-fresh keys the fold
appends the mapped entries in iteration order. -/
theorem SMap.foldl_insert_eq {α γ : Type} (step : SMap α → γ → SMap α)
    (key : γ → String) (val : γ → α)
    (hstep : ∀ acc e, step acc e = SMap.insert acc (key e) (val e)) :
    ∀ (l : List γ) (acc : SMap α),
    (SMap.keys acc ++ l.map key).Nodup →
    l.foldl step acc = acc ++ l.map (fun e => (key e, val e)) := by
  intro l
  induction l with
  | nil => intro acc _; simp
  | cons e t ih =>
      intro acc hnd
      simp only [List.map_cons] at hnd
      have hfresh : SMap.find? acc (key e) = none := by
        rw [SMap.find?_eq_none_iff]
        intro hmem
        have := (List.nodup_append.mp hnd).2.2
        exact this hmem (by simp)
      have hins : SMap.insert acc (key e) (val e) = acc ++ [(key e, val e)] :=
        SMap.insert_fresh_append acc (key e) (val e) hfresh
      have hnd2 : (SMap.keys (acc ++ [(key e, val e)]) ++ t.map key).Nodup := by
        have hk : SMap.keys (acc ++ [(key e, val e)]) = SMap.keys acc ++ [key e] := by
          simp [SMap.keys]
        rw [hk, List.append_assoc]
        exact hnd
      simp only [List.foldl_cons, hstep, hins]
      rw [ih _ hnd2]
      simp

/-- Keys of an entry-wise map with preserved keys. -/
theorem SMap.keys_map_pres {α β : Type} (l : SMap α) (g : String × α → β) :
    SMap.keys (l.map (fun e => (e.1, g e))) = SMap.keys l := by
  simp only [SMap.keys, List.map_map]
  exact List.map_congr_left (fun e _ => rfl)

/-- A fold whose step only rewrites keys drawn from the iterated list leaves
every other key untouched. -/
theorem SMap.foldl_getD_not_mem {γ : Type} (step : SMap ℚ → γ → SMap ℚ)
    (key : γ → String) (w : γ → ℚ)
    (hstep : ∀ row e, step row e =
      SMap.insert row (key e) (SMap.getD row (key e) 0 + w e)) :
    ∀ (l : List γ) (row : SMap ℚ) (k : String), k ∉ l.map key →
    SMap.getD (l.foldl step row) k 0 = SMap.getD row k 0 := by
  intro l
  induction l with
  | nil => intro row k _; rfl
  | cons e t ih =>
      intro row k hk
      simp only [List.map_cons, List.mem_cons, not_or] at hk
      simp only [List.foldl_cons, hstep]
      rw [ih _ k hk.2, SMap.getD_insert_ne _ _ _ _ _ (fun h => hk.1 h.symm)]

/-- An accumulate-into-key fold over a list with pairwise-distinct keys bumps
the entry of each listed key exactly once. -/
theorem SMap.foldl_addInsert_getD {γ : Type} (step : SMap ℚ → γ → SMap ℚ)
    (key : γ → String) (w : γ → ℚ)
    (hstep : ∀ row e, step row e =
      SMap.insert row (key e) (SMap.getD row (key e) 0 + w e)) :
    ∀ (l : List γ) (row : SMap ℚ) (e0 : γ), (l.map key).Nodup → e0 ∈ l →
    SMap.getD (l.foldl step row) (key e0) 0 = SMap.getD row (key e0) 0 + w e0 := by
  intro l
  induction l with
  | nil => intro row e0 _ h; exact absurd h (List.not_mem_nil e0)
  | cons e t ih =>
      intro row e0 hnd hmem
      simp only [List.map_cons, List.nodup_cons] at hnd
      simp only [List.foldl_cons, hstep]
      rcases List.mem_cons.mp hmem with heq | hmem2
      · subst heq
        rw [SMap.foldl_getD_not_mem step key w hstep t _ _ hnd.1,
          SMap.getD_insert_self]
      · have hne : key e ≠ key e0 := by
          intro h
          exact hnd.1 (h ▸ List.mem_map.mpr ⟨e0, hmem2, rfl⟩)
        rw [ih _ e0 hnd.2 hmem2, SMap.getD_insert_ne _ _ _ _ _ hne]

/-- A fold whose step adds `term e` to the tracked key accumulates the sum of
the terms. -/
theorem SMap.foldl_getD_sum {γ : Type} (k : String) (step : SMap ℚ → γ → SMap ℚ)
    (term : γ → ℚ)
    (hstep : ∀ row e, SMap.getD (step row e) k 0 = SMap.getD row k 0 + term e) :
    ∀ (l : List γ) (row : SMap ℚ),
    SMap.getD (l.foldl step row) k 0 = SMap.getD row k 0 + (l.map term).sum := by
  intro l
  induction l with
  | nil => intro row; simp
  | cons e t ih =>
      intro row
      simp only [List.foldl_cons, List.map_cons, List.sum_cons]
      rw [ih, hstep]
      ring

/-- The first component of a fold whose step adds `g e` to it. -/
theorem foldl_fst_add {γ δ : Type} (step : (ℚ × δ) → γ → (ℚ × δ)) (g : γ → ℚ)
    (hstep : ∀ acc e, (step acc e).1 = acc.1 + g e) :
    ∀ (l : List γ) (acc : ℚ × δ),
    (l.foldl step acc).1 = acc.1 + (l.map g).sum := by
  intro l
  induction l with
  | nil => intro acc; simp
  | cons e t ih =>
      intro acc
      simp only [List.foldl_cons, List.map_cons, List.sum_cons]
      rw [ih, hstep]
      ring

/-- Structure of getReachableEndpoints for one zone on a map with distinct
labels: per-group entries in order and their total. -/
theorem getReachable_eq (m : SGMap) (z : String) (hnd : (SMap.keys m).Nodup) :
    getReachableEndpointsZone m z =
      (m.map (fun p => (p.1, sgReach p z)), (m.map (fun p => sgReach p z)).sum) := by
  unfold getReachableEndpointsZone
  suffices h : ∀ (l : SGMap) (acc : SMap ℚ × ℚ),
      (SMap.keys acc.1 ++ l.map Prod.fst).Nodup →
      (l.foldl (fun acc p =>
        let reach := ((p.2.NumberOfEndpoints : ℚ)) * SMap.getD p.2.zoneTrafficWeights z 0
        (SMap.insert acc.1 p.1 reach, acc.2 + reach)) acc) =
      (acc.1 ++ l.map (fun p => (p.1, sgReach p z)),
        acc.2 + (l.map (fun p => sgReach p z)).sum) by
    have h2 := h m ([], 0) (by simpa [SMap.keys] using hnd)
    rw [h2]
    simp
  intro l
  induction l with
  | nil => intro acc _; simp
  | cons p t ih =>
      intro acc hnd2
      simp only [List.map_cons] at hnd2
      have hfresh : SMap.find? acc.1 p.1 = none := by
        rw [SMap.find?_eq_none_iff]
        intro hmem
        exact (List.nodup_append.mp hnd2).2.2 hmem (by simp)
      simp only [List.foldl_cons]
      refine (ih _ ?_).trans ?_
      · show (SMap.keys (SMap.insert acc.1 p.1 _) ++ t.map Prod.fst).Nodup
        rw [SMap.insert_fresh_append _ _ _ hfresh]
        simpa [SMap.keys, List.append_assoc] using hnd2
      · show (SMap.insert acc.1 p.1 _ ++ _, _) = _
        rw [SMap.insert_fresh_append _ _ _ hfresh]
        simp [sgReach, List.append_assoc, add_assoc]

/-- Structure of getTraffic for one zone when some endpoint is reachable. -/
theorem getTrafficZone_eq (reach : SMap ℚ) (reachAll : ℚ) (h0 : ¬ reachAll = 0)
    (hnd : (SMap.keys reach).Nodup) :
    getTrafficZone reach reachAll = reach.map (fun p => (p.1, p.2 / reachAll)) := by
  unfold getTrafficZone
  rw [if_neg h0]
  have h := SMap.foldl_insert_eq
    (fun acc p => SMap.insert acc p.1 (p.2 / reachAll))
    Prod.fst (fun p => p.2 / reachAll) (fun _ _ => rfl) reach []
    (by simpa [SMap.keys] using hnd)
  simpa using h

/-- Structure of buildZoneDetails on a region with distinct zone names. -/
theorem buildZoneDetails_eq (region : RegionInfo) (m : SGMap)
    (hnd : (SMap.keys region.zoneDetails).Nodup) :
    buildZoneDetails region m =
      region.zoneDetails.map (fun p => (p.1, zoneDetailFor m p.1)) := by
  unfold buildZoneDetails
  have h := SMap.foldl_insert_eq _ Prod.fst (fun p => zoneDetailFor m p.1)
    (fun _ _ => rfl) region.zoneDetails []
    (by simpa [SMap.keys] using hnd)
  simpa using h

/-- Structure of getZoneToZoneTraffic on a region with distinct zone names:
one row per origin zone. -/
theorem getZoneToZoneTraffic_eq (region : RegionInfo) (m : SGMap)
    (zd : zoneSGDetails) (hnd : (SMap.keys region.zoneDetails).Nodup) :
    getZoneToZoneTraffic region m zd =
      region.zoneDetails.map (fun op => (op.1, ztzRow region m zd op)) := by
  unfold getZoneToZoneTraffic
  have h := SMap.foldl_insert_eq _ Prod.fst (fun op => ztzRow region m zd op)
    (fun _ _ => rfl) region.zoneDetails []
    (by simpa [SMap.keys] using hnd)
  simpa using h

/-- The load-details pass keeps every zone's traffic-ratio map unchanged. -/
theorem getD_map_ratio (f : String × sliceGroupDetails → SMap ℚ × SMap ℚ) :
    ∀ (l : zoneSGDetails) (z : String),
    (SMap.getD (l.map (fun (zp : String × sliceGroupDetails) => (zp.1,
        { zp.2 with endpointsTrafficLoad := (f zp).1,
                    endpointsTrafficLoadDeviation := (f zp).2 }))) z default).zoneTrafficRatio
      = (SMap.getD l z default).zoneTrafficRatio := by
  intro l
  induction l with
  | nil => intro z; rfl
  | cons zp t ih =>
      intro z
      by_cases h : zp.1 = z
      · simp [SMap.getD, SMap.find?, h]
      · simp only [List.map_cons, SMap.getD, SMap.find?, h, if_false]
        exact ih z

/-- getEndpointsTrafficLoadDetails preserves zoneTrafficRatio at every key. -/
theorem loadDetails_ratio (region : RegionInfo) (m : SGMap) (zd : zoneSGDetails)
    (z : String) :
    (SMap.getD (getEndpointsTrafficLoadDetails region m zd) z default).zoneTrafficRatio
      = (SMap.getD zd z default).zoneTrafficRatio := by
  exact getD_map_ratio (fun zp => m.foldl
      (fun (acc : SMap ℚ × SMap ℚ) p =>
        if (SMap.getD p.2.composition zp.1 default).number = 0 ∨
            p.2.NumberOfWeightedEndpoints = 0 then acc
        else
          let zoneRatioInSG :=
            ((SMap.getD p.2.composition zp.1 default).number : ℚ) *
              (SMap.getD p.2.composition zp.1 default).weight /
              p.2.NumberOfWeightedEndpoints
          let trafficLoad := SMap.getD (sgTrafficRatio region zd) p.1 0 * zoneRatioInSG /
            ((SMap.getD p.2.composition zp.1 default).number : ℚ)
          (SMap.insert acc.1 p.1 trafficLoad,
            SMap.insert acc.2 p.1 (trafficLoad / (1 / (region.totalEndpoints : ℚ)) - 1)))
      ([], [])) zd z

/-- The in-zone traffic of getSimulationResult is the sum over the region's
zones of the diagonal entries of the zone-to-zone traffic table. -/
theorem getSimulationResult_inZone (zd : zoneSGDetails) (region : RegionInfo)
    (m : SGMap) (ztz : SMap (SMap ℚ)) :
    (getSimulationResult zd region m ztz).inZoneTraffic =
      (region.zoneDetails.map
        (fun p => SMap.getD (SMap.getD ztz p.1 []) p.1 0)).sum := by
  unfold getSimulationResult
  dsimp only
  exact (foldl_fst_add _ (fun p => SMap.getD (SMap.getD ztz p.1 []) p.1 0)
    (fun acc p => rfl) region.zoneDetails ((0 : ℚ), (0 : ℚ), (0 : ℚ), ([] : SMap ZoneTraffic))).trans
    (zero_add _)


/-- A group whose composition numbers are nonnegative has a nonnegative
endpoint count. -/
theorem numberOfEndpoints_nonneg (g : EndpointSliceGroup)
    (h : ∀ q ∈ g.composition, 0 ≤ q.2.number) : 0 ≤ g.NumberOfEndpoints := by
  unfold EndpointSliceGroup.NumberOfEndpoints
  apply List.sum_nonneg
  intro x hx
  obtain ⟨q, hq, rfl⟩ := List.mem_map.mp hx
  exact h q hq

/-- A group whose composition numbers and weights are nonnegative has a
nonnegative weighted endpoint count. -/
theorem numberOfWeighted_nonneg (g : EndpointSliceGroup)
    (hn : ∀ q ∈ g.composition, 0 ≤ q.2.number)
    (hw : ∀ q ∈ g.composition, 0 ≤ q.2.weight) :
    0 ≤ g.NumberOfWeightedEndpoints := by
  unfold EndpointSliceGroup.NumberOfWeightedEndpoints
  apply List.sum_nonneg
  intro x hx
  obtain ⟨q, hq, rfl⟩ := List.mem_map.mp hx
  exact mul_nonneg (by exact_mod_cast hn q hq) (hw q hq)

/-- A zero-default read of a map with nonnegative values is nonnegative. -/
theorem SMap.getD_nonneg (m : SMap ℚ) (k : String) (h : ∀ q ∈ m, 0 ≤ q.2) :
    0 ≤ SMap.getD m k 0 := by
  unfold SMap.getD
  cases hf : SMap.find? m k with
  | none => simp
  | some v => simpa using h (k, v) (SMap.find?_mem hf)

/-- A zero-default composition read has nonnegative number and weight. -/
theorem comp_getD_nonneg (comp : SMap WeightedEndpoints) (k : String)
    (hn : ∀ q ∈ comp, 0 ≤ q.2.number) (hw : ∀ q ∈ comp, 0 ≤ q.2.weight) :
    0 ≤ (SMap.getD comp k default).number ∧ 0 ≤ (SMap.getD comp k default).weight := by
  unfold SMap.getD
  cases hf : SMap.find? comp k with
  | none =>
      constructor <;> simp [show (default : WeightedEndpoints).number = 0 from rfl,
        show (default : WeightedEndpoints).weight = 0 from rfl]
  | some v =>
      have := SMap.find?_mem hf
      exact ⟨hn (k, v) this, hw (k, v) this⟩

/-- The weighted contribution of any single zone is at most the group's
weighted endpoint count. -/
theorem comp_term_le_weighted (g : EndpointSliceGroup) (k : String)
    (hn : ∀ q ∈ g.composition, 0 ≤ q.2.number)
    (hw : ∀ q ∈ g.composition, 0 ≤ q.2.weight) :
    ((SMap.getD g.composition k default).number : ℚ) *
      (SMap.getD g.composition k default).weight ≤ g.NumberOfWeightedEndpoints := by
  unfold SMap.getD
  cases hf : SMap.find? g.composition k with
  | none =>
      simp only [Option.getD_none]
      have hd : ((default : WeightedEndpoints).number : ℚ) *
          (default : WeightedEndpoints).weight = 0 := by
        rw [show (default : WeightedEndpoints).number = 0 from rfl]
        norm_num
      rw [hd]
      exact numberOfWeighted_nonneg g hn hw
  | some v =>
      simp only [Option.getD_some]
      have hmem := SMap.find?_mem hf
      apply List.single_le_sum
      · intro x hx
        obtain ⟨q, hq, rfl⟩ := List.mem_map.mp hx
        exact mul_nonneg (by exact_mod_cast hn q hq) (hw q hq)
      · exact List.mem_map.mpr ⟨(k, v), hmem, rfl⟩

/-- The destination-zone ratio inside a slice group lies in `[0, 1]` whenever
the group's weighted endpoint count is nonzero. -/
theorem desZoneRatio_bounds (g : EndpointSliceGroup) (k : String)
    (h0 : ¬ g.NumberOfWeightedEndpoints = 0)
    (hn : ∀ q ∈ g.composition, 0 ≤ q.2.number)
    (hw : ∀ q ∈ g.composition, 0 ≤ q.2.weight) :
    0 ≤ ((SMap.getD g.composition k default).number : ℚ) *
        (SMap.getD g.composition k default).weight / g.NumberOfWeightedEndpoints ∧
    ((SMap.getD g.composition k default).number : ℚ) *
        (SMap.getD g.composition k default).weight / g.NumberOfWeightedEndpoints ≤ 1 := by
  have hWnn := numberOfWeighted_nonneg g hn hw
  have hWpos : 0 < g.NumberOfWeightedEndpoints := lt_of_le_of_ne hWnn (Ne.symm h0)
  have hterm := comp_getD_nonneg g.composition k hn hw
  constructor
  · exact div_nonneg (mul_nonneg (by exact_mod_cast hterm.1) hterm.2) hWnn
  · rw [div_le_one hWpos]
    exact comp_term_le_weighted g k hn hw

/-- The per-group reachable quantity is nonnegative for groups with
nonnegative composition numbers and traffic weights. -/
theorem sgReach_nonneg (p : String × EndpointSliceGroup) (z : String)
    (hn : ∀ q ∈ p.2.composition, 0 ≤ q.2.number)
    (hz : ∀ q ∈ p.2.zoneTrafficWeights, 0 ≤ q.2) :
    0 ≤ sgReach p z := by
  unfold sgReach
  exact mul_nonneg (by exact_mod_cast numberOfEndpoints_nonneg p.2 hn)
    (SMap.getD_nonneg p.2.zoneTrafficWeights z hz)

/-- The traffic ratio of a zone toward a listed slice group: `0` when nothing
is reachable, the group's share of the reachable endpoints otherwise. -/
theorem ratio_getD (m : SGMap) (z : String) (hmnd : (SMap.keys m).Nodup)
    (p : String × EndpointSliceGroup) (hp : p ∈ m) :
    SMap.getD (zoneDetailFor m z).zoneTrafficRatio p.1 0 =
      if (getReachableEndpointsZone m z).2 = 0 then 0
      else sgReach p z / (getReachableEndpointsZone m z).2 := by
  by_cases h0 : (getReachableEndpointsZone m z).2 = 0
  · rw [if_pos h0]
    show SMap.getD (getTrafficZone _ _) p.1 0 = 0
    unfold getTrafficZone
    rw [h0, if_pos rfl]
    rfl
  · rw [if_neg h0]
    show SMap.getD (getTrafficZone (getReachableEndpointsZone m z).1
      (getReachableEndpointsZone m z).2) p.1 0 = _
    have hre1 : (getReachableEndpointsZone m z).1 = m.map (fun p => (p.1, sgReach p z)) := by
      rw [getReachable_eq m z hmnd]
    have hknd : (SMap.keys (getReachableEndpointsZone m z).1).Nodup := by
      rw [hre1, SMap.keys_map_pres m (fun p => sgReach p z)]
      exact hmnd
    rw [getTrafficZone_eq _ _ h0 hknd]
    have h1 : (getReachableEndpointsZone m z).1.map
        (fun q => (q.1, q.2 / (getReachableEndpointsZone m z).2)) =
        m.map (fun p => (p.1, sgReach p z / (getReachableEndpointsZone m z).2)) := by
      rw [hre1, List.map_map]
      rfl
    rw [h1]
    unfold SMap.getD
    rw [SMap.find?_of_mem_nodup _ p.1 (sgReach p z / (getReachableEndpointsZone m z).2)
      (by rw [SMap.keys_map_pres m (fun p => sgReach p z / (getReachableEndpointsZone m z).2)]
          exact hmnd)
      (List.mem_map.mpr ⟨p, hp, rfl⟩)]
    rfl

/-- Every traffic-ratio entry of a zone is nonnegative. -/
theorem ratio_getD_nonneg (m : SGMap) (z : String) (hmnd : (SMap.keys m).Nodup)
    (hn : ∀ p ∈ m, ∀ q ∈ p.2.composition, 0 ≤ q.2.number)
    (hz : ∀ p ∈ m, ∀ q ∈ p.2.zoneTrafficWeights, 0 ≤ q.2)
    (p : String × EndpointSliceGroup) (hp : p ∈ m) :
    0 ≤ SMap.getD (zoneDetailFor m z).zoneTrafficRatio p.1 0 := by
  rw [ratio_getD m z hmnd p hp]
  by_cases h0 : (getReachableEndpointsZone m z).2 = 0
  · rw [if_pos h0]
  · rw [if_neg h0]
    have hRnn : 0 ≤ (getReachableEndpointsZone m z).2 := by
      rw [getReachable_eq m z hmnd]
      exact List.sum_nonneg (fun x hx => by
        obtain ⟨q, hq, rfl⟩ := List.mem_map.mp hx
        exact sgReach_nonneg q z (hn q hq) (hz q hq))
    exact div_nonneg (sgReach_nonneg p z (hn p hp) (hz p hp)) hRnn

/-- The traffic ratios of a zone over the listed slice groups sum to at most
one. -/
theorem ratio_sum_le_one (m : SGMap) (z : String) (hmnd : (SMap.keys m).Nodup) :
    (m.map (fun p => SMap.getD (zoneDetailFor m z).zoneTrafficRatio p.1 0)).sum ≤ 1 := by
  have hcongr : m.map (fun p => SMap.getD (zoneDetailFor m z).zoneTrafficRatio p.1 0) =
      m.map (fun p => if (getReachableEndpointsZone m z).2 = 0 then 0
        else sgReach p z / (getReachableEndpointsZone m z).2) :=
    List.map_congr_left (fun p hp => ratio_getD m z hmnd p hp)
  rw [hcongr]
  by_cases h0 : (getReachableEndpointsZone m z).2 = 0
  · simp [h0]
  · simp only [if_neg h0, div_eq_mul_inv]
    rw [List.sum_map_mul_right]
    have hsum : (m.map (fun p => sgReach p z)).sum = (getReachableEndpointsZone m z).2 := by
      rw [getReachable_eq m z hmnd]
    rw [hsum, mul_inv_cancel₀ h0]


/-- Value of a traffic row at its own origin zone: the per-group shares
accumulate exactly once per slice group (distinct zone names). -/
theorem ztzRow_getD_diag (region : RegionInfo) (m : SGMap) (zd : zoneSGDetails)
    (op : String × Zone) (hznd : (SMap.keys region.zoneDetails).Nodup)
    (hop : op ∈ region.zoneDetails) :
    SMap.getD (ztzRow region m zd op) op.1 0 =
      (m.map (fun p => if p.2.NumberOfWeightedEndpoints = 0 then 0
        else op.2.nodesRatio *
          SMap.getD (SMap.getD zd op.1 default).zoneTrafficRatio p.1 0 *
          (((SMap.getD p.2.composition op.1 default).number : ℚ) *
            (SMap.getD p.2.composition op.1 default).weight /
            p.2.NumberOfWeightedEndpoints))).sum := by
  unfold ztzRow
  refine (SMap.foldl_getD_sum op.1 _
    (fun p => if p.2.NumberOfWeightedEndpoints = 0 then 0
      else op.2.nodesRatio *
        SMap.getD (SMap.getD zd op.1 default).zoneTrafficRatio p.1 0 *
        (((SMap.getD p.2.composition op.1 default).number : ℚ) *
          (SMap.getD p.2.composition op.1 default).weight /
          p.2.NumberOfWeightedEndpoints))
    ?_ m []).trans ?_
  · intro row p
    dsimp only
    by_cases hw : p.2.NumberOfWeightedEndpoints = 0
    · rw [if_pos hw, if_pos hw, add_zero]
    · rw [if_neg hw, if_neg hw]
      exact SMap.foldl_addInsert_getD _ Prod.fst
        (fun dp => op.2.nodesRatio *
          SMap.getD (SMap.getD zd op.1 default).zoneTrafficRatio p.1 0 *
          (((SMap.getD p.2.composition dp.1 default).number : ℚ) *
            (SMap.getD p.2.composition dp.1 default).weight /
            p.2.NumberOfWeightedEndpoints))
        (fun _ _ => rfl) region.zoneDetails row op hznd hop
  · norm_num [SMap.getD, SMap.find?]

/-- Bounds on a traffic row's in-zone entry: nonnegative and at most the
origin zone's nodes ratio. -/
theorem ztzRow_diag_bounds (region : RegionInfo) (m : SGMap) (zd : zoneSGDetails)
    (op : String × Zone) (hznd : (SMap.keys region.zoneDetails).Nodup)
    (hop : op ∈ region.zoneDetails)
    (hmnd : (SMap.keys m).Nodup)
    (hn : ∀ p ∈ m, ∀ q ∈ p.2.composition, 0 ≤ q.2.number)
    (hw : ∀ p ∈ m, ∀ q ∈ p.2.composition, 0 ≤ q.2.weight)
    (hz : ∀ p ∈ m, ∀ q ∈ p.2.zoneTrafficWeights, 0 ≤ q.2)
    (hnr : 0 ≤ op.2.nodesRatio)
    (hrm : (SMap.getD zd op.1 default).zoneTrafficRatio =
      (zoneDetailFor m op.1).zoneTrafficRatio) :
    0 ≤ SMap.getD (ztzRow region m zd op) op.1 0 ∧
    SMap.getD (ztzRow region m zd op) op.1 0 ≤ op.2.nodesRatio := by
  rw [ztzRow_getD_diag region m zd op hznd hop, hrm]
  constructor
  · apply List.sum_nonneg
    intro x hx
    obtain ⟨p, hp, rfl⟩ := List.mem_map.mp hx
    by_cases hw0 : p.2.NumberOfWeightedEndpoints = 0
    · rw [if_pos hw0]
    · rw [if_neg hw0]
      exact mul_nonneg
        (mul_nonneg hnr (ratio_getD_nonneg m op.1 hmnd hn hz p hp))
        (desZoneRatio_bounds p.2 op.1 hw0 (hn p hp) (hw p hp)).1
  · have hle : (m.map (fun p => if p.2.NumberOfWeightedEndpoints = 0 then 0
        else op.2.nodesRatio *
          SMap.getD (zoneDetailFor m op.1).zoneTrafficRatio p.1 0 *
          (((SMap.getD p.2.composition op.1 default).number : ℚ) *
            (SMap.getD p.2.composition op.1 default).weight /
            p.2.NumberOfWeightedEndpoints))).sum ≤
        (m.map (fun p => op.2.nodesRatio *
          SMap.getD (zoneDetailFor m op.1).zoneTrafficRatio p.1 0)).sum := by
      apply List.sum_le_sum
      intro p hp
      have hq : 0 ≤ SMap.getD (zoneDetailFor m op.1).zoneTrafficRatio p.1 0 :=
        ratio_getD_nonneg m op.1 hmnd hn hz p hp
      by_cases hw0 : p.2.NumberOfWeightedEndpoints = 0
      · rw [if_pos hw0]
        exact mul_nonneg hnr hq
      · rw [if_neg hw0]
        exact mul_le_of_le_one_right (mul_nonneg hnr hq)
          (desZoneRatio_bounds p.2 op.1 hw0 (hn p hp) (hw p hp)).2
    refine hle.trans ?_
    rw [List.sum_map_mul_left]
    calc op.2.nodesRatio *
          (m.map (fun p => SMap.getD (zoneDetailFor m op.1).zoneTrafficRatio p.1 0)).sum
        ≤ op.2.nodesRatio * 1 :=
          mul_le_mul_of_nonneg_left (ratio_sum_le_one m op.1 hmnd) hnr
      _ = op.2.nodesRatio := mul_one _

/-- Inversion of a successful CreateRegionInfo call: the input was non-empty
with nonnegative counts and the output carries the summed totals and the
ratio-enriched details. -/
theorem CreateRegionInfo_ok_inv (zs : List Zone) (region : RegionInfo)
    (hok : CreateRegionInfo zs = Except.ok region) :
    zs ≠ [] ∧ (∀ z ∈ zs, 0 ≤ z.endpoints ∧ 0 ≤ z.nodes) ∧
      region.totalNodes = (zs.map Zone.nodes).sum ∧
      region.totalEndpoints = (zs.map Zone.endpoints).sum ∧
      region.zoneDetails = zs.foldl (fun m z => SMap.insert m z.name
        (enrichZone (zs.map Zone.endpoints).sum (zs.map Zone.nodes).sum z)) [] := by
  unfold CreateRegionInfo at hok
  by_cases h1 : zs.length = 0
  · rw [if_pos h1] at hok
    simp at hok
  · rw [if_neg h1] at hok
    by_cases h2 : zs.any (fun z => z.endpoints < 0 || z.nodes < 0) = true
    · rw [if_pos h2] at hok
      simp at hok
    · rw [if_neg h2] at hok
      dsimp only at hok
      rw [Except.ok.injEq] at hok
      subst hok
      refine ⟨by simpa [List.length_eq_zero] using h1, ?_, rfl, rfl, rfl⟩
      intro z hz
      constructor
      · by_contra hc
        push_neg at hc
        exact h2 (List.any_eq_true.mpr ⟨z, hz,
          by simp only [Bool.or_eq_true, decide_eq_true_eq]; omega⟩)
      · by_contra hc
        push_neg at hc
        exact h2 (List.any_eq_true.mpr ⟨z, hz,
          by simp only [Bool.or_eq_true, decide_eq_true_eq]; omega⟩)

/-- With distinct names the details of a created region list the enriched
zones in input order. -/
theorem region_details_of_ok (zs : List Zone) (region : RegionInfo)
    (hok : CreateRegionInfo zs = Except.ok region)
    (hnd : (zs.map Zone.name).Nodup) :
    region.zoneDetails = zs.map (fun z => (z.name,
      enrichZone (zs.map Zone.endpoints).sum (zs.map Zone.nodes).sum z)) := by
  obtain ⟨-, -, -, -, hdet⟩ := CreateRegionInfo_ok_inv zs region hok
  rw [hdet, createRegion_fold_eq_map zs _ _ [] hnd (fun z _ => rfl)]
  simp

/-- Keys of the created details are the input names. -/
theorem region_details_keys (zs : List Zone) (region : RegionInfo)
    (hok : CreateRegionInfo zs = Except.ok region)
    (hnd : (zs.map Zone.name).Nodup) :
    SMap.keys region.zoneDetails = zs.map Zone.name := by
  rw [region_details_of_ok zs region hok hnd]
  simp only [SMap.keys, List.map_map]
  exact List.map_congr_left (fun z _ => rfl)

/-- Every created zone's nodes ratio is nonnegative. -/
theorem region_nodesRatio_nonneg (zs : List Zone) (region : RegionInfo)
    (hok : CreateRegionInfo zs = Except.ok region)
    (hnd : (zs.map Zone.name).Nodup) :
    ∀ p ∈ region.zoneDetails, 0 ≤ p.2.nodesRatio := by
  obtain ⟨-, hpos, -, -, -⟩ := CreateRegionInfo_ok_inv zs region hok
  rw [region_details_of_ok zs region hok hnd]
  intro p hp
  obtain ⟨z, hz, rfl⟩ := List.mem_map.mp hp
  show 0 ≤ (enrichZone _ _ z).nodesRatio
  unfold enrichZone
  dsimp only
  by_cases hN : (zs.map Zone.nodes).sum = 0
  · rw [if_pos hN]
  · rw [if_neg hN]
    have hNnn : (0 : ℤ) ≤ (zs.map Zone.nodes).sum :=
      List.sum_nonneg (fun x hx => by
        obtain ⟨w, hw, rfl⟩ := List.mem_map.mp hx
        exact (hpos w hw).2)
    exact div_nonneg (by exact_mod_cast (hpos z hz).2) (by exact_mod_cast hNnn)

/-- The created zones' nodes ratios sum to at most one. -/
theorem region_nodesRatio_sum_le_one (zs : List Zone) (region : RegionInfo)
    (hok : CreateRegionInfo zs = Except.ok region)
    (hnd : (zs.map Zone.name).Nodup) :
    (region.zoneDetails.map (fun p => p.2.nodesRatio)).sum ≤ 1 := by
  rw [region_details_of_ok zs region hok hnd, List.map_map]
  have hcongr : ((fun (p : String × Zone) => p.2.nodesRatio) ∘ (fun z => (z.name,
      enrichZone (zs.map Zone.endpoints).sum (zs.map Zone.nodes).sum z))) =
      fun z => if (zs.map Zone.nodes).sum = 0 then (0 : ℚ)
        else (z.nodes : ℚ) / ((zs.map Zone.nodes).sum : ℚ) := rfl
  rw [hcongr]
  by_cases hN : (zs.map Zone.nodes).sum = 0
  · simp [hN]
  · simp only [if_neg hN, div_eq_mul_inv]
    rw [List.sum_map_mul_right]
    have hcast : (zs.map (fun z => (z.nodes : ℚ))).sum = ((zs.map Zone.nodes).sum : ℚ) := by
      rw [Int.cast_list_sum, List.map_map]
      rfl
    rw [hcast, mul_inv_cancel₀ (by exact_mod_cast hN)]


/-- C6 (amended): in-zone traffic bound under nonnegative composition
weights. -/
theorem C6_inzone_traffic_bound (zs : List Zone) (region : RegionInfo) (m : SGMap)
    (hok : CreateRegionInfo zs = Except.ok region)
    (hnd : (zs.map Zone.name).Nodup)
    (htot : 0 < region.totalEndpoints)
    (hm : m ≠ [])
    (hmnd : (SMap.keys m).Nodup)
    (hn : ∀ p ∈ m, ∀ q ∈ p.2.composition, 0 ≤ q.2.number)
    (hw : ∀ p ∈ m, ∀ q ∈ p.2.composition, 0 ≤ q.2.weight)
    (hz : ∀ p ∈ m, ∀ q ∈ p.2.zoneTrafficWeights, 0 ≤ q.2) :
    ∃ res, Simulate region m = Except.ok res ∧
      0 ≤ res.inZoneTraffic ∧ res.inZoneTraffic ≤ 1 := by
  obtain ⟨hne, -, -, -, -⟩ := CreateRegionInfo_ok_inv zs region hok
  have hdet := region_details_of_ok zs region hok hnd
  have hznd : (SMap.keys region.zoneDetails).Nodup := by
    rw [region_details_keys zs region hok hnd]
    exact hnd
  have hlen : ¬ (region.zoneDetails.length = 0 ∨ m.length = 0) := by
    push_neg
    constructor
    · rw [hdet, List.length_map]
      simpa [List.length_eq_zero] using hne
    · simpa [List.length_eq_zero] using hm
  have hnr := region_nodesRatio_nonneg zs region hok hnd
  set zd2 := getEndpointsTrafficLoadDetails region m (buildZoneDetails region m) with hzd2
  set ztz := getZoneToZoneTraffic region m zd2 with hztz
  have hrow : ∀ op ∈ region.zoneDetails, SMap.getD ztz op.1 [] = ztzRow region m zd2 op := by
    intro op hop
    rw [hztz, getZoneToZoneTraffic_eq region m zd2 hznd]
    unfold SMap.getD
    rw [SMap.find?_of_mem_nodup _ op.1 (ztzRow region m zd2 op)
      (by rw [SMap.keys_map_pres region.zoneDetails (fun op => ztzRow region m zd2 op)]
          exact hznd)
      (List.mem_map.mpr ⟨op, hop, rfl⟩)]
    rfl
  have hrm : ∀ op ∈ region.zoneDetails,
      (SMap.getD zd2 op.1 default).zoneTrafficRatio =
        (zoneDetailFor m op.1).zoneTrafficRatio := by
    intro op hop
    rw [hzd2, loadDetails_ratio, buildZoneDetails_eq region m hznd]
    unfold SMap.getD
    rw [SMap.find?_of_mem_nodup _ op.1 (zoneDetailFor m op.1)
      (by rw [SMap.keys_map_pres region.zoneDetails (fun p => zoneDetailFor m p.1)]
          exact hznd)
      (List.mem_map.mpr ⟨op, hop, rfl⟩)]
    rfl
  have hbounds : ∀ op ∈ region.zoneDetails,
      0 ≤ SMap.getD (SMap.getD ztz op.1 []) op.1 0 ∧
      SMap.getD (SMap.getD ztz op.1 []) op.1 0 ≤ op.2.nodesRatio := by
    intro op hop
    rw [hrow op hop]
    exact ztzRow_diag_bounds region m zd2 op hznd hop hmnd hn hw hz
      (hnr op hop) (hrm op hop)
  refine ⟨getSimulationResult zd2 region m ztz, ?_, ?_, ?_⟩
  · unfold Simulate
    rw [if_neg hlen]
  · rw [getSimulationResult_inZone]
    apply List.sum_nonneg
    intro x hx
    obtain ⟨op, hop, rfl⟩ := List.mem_map.mp hx
    exact (hbounds op hop).1
  · rw [getSimulationResult_inZone]
    calc (region.zoneDetails.map
          (fun p => SMap.getD (SMap.getD ztz p.1 []) p.1 0)).sum
        ≤ (region.zoneDetails.map (fun p => p.2.nodesRatio)).sum :=
          List.sum_le_sum (fun op hop => (hbounds op hop).2)
      _ ≤ 1 := region_nodesRatio_sum_le_one zs region hok hnd

/-- C6 witness: a one-zone region with one slice group. -/
theorem C6_inzone_traffic_bound_witness :
    ∃ res, Simulate ⟨1, 1, [("a", ⟨1, 1, "a", 1, 1⟩)]⟩
        [("g", ⟨"g", [("a", ⟨1, 1⟩)], [("a", 1)]⟩)] = Except.ok res ∧
      0 ≤ res.inZoneTraffic ∧ res.inZoneTraffic ≤ 1 := by
  refine C6_inzone_traffic_bound [⟨1, 1, "a", 0, 0⟩] _ _ ?_ (by decide) (by decide)
    (by simp) (by decide) (by decide) ?_ ?_
  · norm_num [CreateRegionInfo, enrichZone, SMap.insert]
  · intro p hp q hq
    simp only [List.mem_singleton] at hp
    subst hp
    simp only [List.mem_singleton] at hq
    subst hq
    norm_num
  · intro p hp q hq
    simp only [List.mem_singleton] at hp
    subst hp
    simp only [List.mem_singleton] at hq
    subst hq
    norm_num

/-- C6 counterexample: nonnegative composition numbers and zone traffic
weights do not bound the in-zone traffic — a negative composition weight
drives it to 51/2. -/
theorem C6_inzone_counterexample :
    CreateRegionInfo [⟨1, 1, "a", 0, 0⟩, ⟨1, 1, "b", 0, 0⟩] = Except.ok tbCexRegion ∧
    (∀ p ∈ tbCexMap, ∀ q ∈ p.2.composition, 0 ≤ q.2.number) ∧
    (∀ p ∈ tbCexMap, ∀ q ∈ p.2.zoneTrafficWeights, 0 ≤ q.2) ∧
    0 < tbCexRegion.totalEndpoints ∧ (SMap.keys tbCexMap).Nodup ∧
    (Simulate tbCexRegion tbCexMap).map SimulationResult.inZoneTraffic =
      Except.ok (51 / 2) := by
  have hab : ¬ ("a" : String) = "b" := by decide
  have hba : ¬ ("b" : String) = "a" := by decide
  have hgh : ¬ ("g" : String) = "h" := by decide
  have hhg : ¬ ("h" : String) = "g" := by decide
  have hd1 : (default : WeightedEndpoints).number = 0 := rfl
  have hd2 : (default : WeightedEndpoints).weight = 0 := rfl
  refine ⟨?_, ?_, ?_, by decide, by decide, ?_⟩
  · norm_num [CreateRegionInfo, enrichZone, SMap.insert, tbCexRegion, hab, hba]
  · norm_num [tbCexMap, List.forall_mem_cons, List.forall_mem_singleton]
    rintro a b (⟨rfl, rfl⟩ | ⟨rfl, rfl⟩) <;> norm_num
  · norm_num [tbCexMap, List.forall_mem_cons, List.forall_mem_singleton]
    constructor <;> rintro a b (⟨rfl, rfl⟩ | ⟨rfl, rfl⟩) <;> norm_num
  · simp [Simulate, tbCexRegion, tbCexMap, buildZoneDetails,
      getReachableEndpointsZone, getTrafficZone, sgTrafficRatio,
      getEndpointsTrafficLoadDetails, getZoneToZoneTraffic, getSimulationResult,
      EndpointSliceGroup.NumberOfEndpoints, EndpointSliceGroup.NumberOfWeightedEndpoints,
      sgGet, SMap.insert, SMap.getD, SMap.find?, Except.map, hab, hba, hgh, hhg, hd1, hd2]
    norm_num [SMap.insert, SMap.getD, SMap.find?, hab, hba, hgh, hhg]

/-! ## C9: back-propagation packaging -/

theorem toDigitsCore_append (b : ℕ) :
    ∀ (f n : ℕ) (ds : List Char),
    Nat.toDigitsCore b f n ds = Nat.toDigitsCore b f n [] ++ ds := by
  intro f
  induction f with
  | zero => intro n ds; simp [Nat.toDigitsCore]
  | succ f ih =>
      intro n ds
      simp only [Nat.toDigitsCore]
      by_cases h : n / b = 0
      · simp [h]
      · simp only [h, if_false]
        rw [ih (n / b) (Nat.digitChar (n % b) :: ds), ih (n / b) [Nat.digitChar (n % b)]]
        simp

theorem charVal_digitChar : ∀ d, d < 10 → charVal (Nat.digitChar d) = d := by decide

theorem digitChar_ne_dash : ∀ d, d < 10 → ¬ Nat.digitChar d = Char.ofNat 45 := by decide

theorem ofChars_append_one (l : List Char) (c : Char) :
    ofChars (l ++ [c]) = 10 * ofChars l + charVal c := by
  unfold ofChars
  rw [List.foldl_append]
  rfl

theorem ofChars_toDigitsCore : ∀ (f n : ℕ), n < f →
    ofChars (Nat.toDigitsCore 10 f n []) = n := by
  intro f
  induction f with
  | zero => intro n h; omega
  | succ f ih =>
      intro n h
      simp only [Nat.toDigitsCore]
      by_cases h0 : n / 10 = 0
      · simp only [h0, if_pos]
        show 10 * 0 + charVal (Nat.digitChar (n % 10)) = n
        rw [charVal_digitChar _ (by omega)]
        omega
      · simp only [h0, if_false]
        rw [toDigitsCore_append 10 f (n / 10) [Nat.digitChar (n % 10)],
          ofChars_append_one, ih (n / 10) (by omega), charVal_digitChar _ (by omega)]
        omega

theorem natRepr_inj (m k : ℕ) (h : Nat.repr m = Nat.repr k) : m = k := by
  unfold Nat.repr Nat.toDigits at h
  have h2 := congrArg String.data h
  simp only [List.asString] at h2
  have hm := ofChars_toDigitsCore (m + 1) m (by omega)
  have hk := ofChars_toDigitsCore (k + 1) k (by omega)
  rw [h2, hk] at hm
  omega

theorem repr_ne_dash (n : ℕ) : ∀ c ∈ (Nat.repr n).data, ¬ c = Char.ofNat 45 := by
  have h : ∀ f m, ∀ c ∈ Nat.toDigitsCore 10 f m [], ¬ c = Char.ofNat 45 := by
    intro f
    induction f with
    | zero => simp [Nat.toDigitsCore]
    | succ f ih =>
        intro m c hc
        simp only [Nat.toDigitsCore] at hc
        by_cases h0 : m / 10 = 0
        · simp only [h0, if_pos, List.mem_singleton] at hc
          subst hc
          exact digitChar_ne_dash (m % 10) (by omega)
        · simp only [h0, if_false] at hc
          rw [toDigitsCore_append 10 f (m / 10) [Nat.digitChar (m % 10)]] at hc
          rcases List.mem_append.mp hc with hc2 | hc2
          · exact ih (m / 10) c hc2
          · simp only [List.mem_singleton] at hc2
            subst hc2
            exact digitChar_ne_dash (m % 10) (by omega)
  exact h (n + 1) n

theorem dashfree_append_inj : ∀ (d1 d2 r1 r2 : List Char),
    (∀ c ∈ d1, ¬ c = Char.ofNat 45) → (∀ c ∈ d2, ¬ c = Char.ofNat 45) →
    d1 ++ Char.ofNat 45 :: r1 = d2 ++ Char.ofNat 45 :: r2 → d1 = d2 ∧ r1 = r2 := by
  intro d1
  induction d1 with
  | nil =>
      intro d2 r1 r2 _ h2 heq
      cases d2 with
      | nil => simpa using heq
      | cons c t =>
          exfalso
          simp only [List.nil_append, List.cons_append, List.cons.injEq] at heq
          exact h2 c (by simp) heq.1.symm
  | cons c t ih =>
      intro d2 r1 r2 h1 h2 heq
      cases d2 with
      | nil =>
          exfalso
          simp only [List.cons_append, List.nil_append, List.cons.injEq] at heq
          exact h1 c (by simp) heq.1
      | cons c2 t2 =>
          simp only [List.cons_append, List.cons.injEq] at heq
          obtain ⟨ht, hr⟩ := ih t2 r1 r2 (fun x hx => h1 x (by simp [hx]))
            (fun x hx => h2 x (by simp [hx])) heq.2
          exact ⟨by simp [heq.1, ht], hr⟩

/-- Injectivity of the bucket labels `<zone>-<index>`. -/
theorem bpLabel_inj (z1 z2 : String) (j1 j2 : ℕ)
    (h : z1 ++ "-" ++ toString j1 = z2 ++ "-" ++ toString j2) : z1 = z2 ∧ j1 = j2 := by
  have hdata := congrArg String.data h
  have hd : ("-" : String).data = [Char.ofNat 45] := by decide
  simp only [String.data_append, hd, List.append_assoc, List.singleton_append] at hdata
  have hrev := congrArg List.reverse hdata
  simp only [List.reverse_append, List.reverse_cons, List.append_assoc,
    List.singleton_append] at hrev
  have hsplit := dashfree_append_inj (toString j1).data.reverse (toString j2).data.reverse
    z1.data.reverse z2.data.reverse
    (fun c hc => repr_ne_dash j1 c (List.mem_reverse.mp hc))
    (fun c hc => repr_ne_dash j2 c (List.mem_reverse.mp hc))
    (by simpa using hrev)
  constructor
  · apply String.ext
    have := congrArg List.reverse hsplit.2
    simpa using this
  · apply natRepr_inj
    apply String.ext
    have := congrArg List.reverse hsplit.1
    simpa using this

theorem map_getD_range {α : Type} (d : α) (l : List α) :
    (List.range l.length).map (fun j => l.getD j d) = l := by
  apply List.ext_getElem
  · simp
  · intro i h1 h2
    simp only [List.getElem_map, List.getElem_range, List.getD_eq_getElem?_getD,
      List.getElem?_eq_getElem h2, Option.getD_some]

theorem sum_map_div_self (l : List ℚ) (h : l.sum ≠ 0) :
    (l.map (fun x => x / l.sum)).sum = 1 := by
  simp only [div_eq_mul_inv]
  have h2 : (l.map (fun x => x * l.sum⁻¹)).sum = (l.map id).sum * l.sum⁻¹ :=
    List.sum_map_mul_right l id l.sum⁻¹
  rw [List.map_id] at h2
  rw [h2, mul_inv_cancel₀ h]

/-- Sum of a bucket's traffic weights: 1 after normalisation, the raw column
sum (within eps of 0) otherwise. -/
theorem bpColWeights_sum (arg : bpArgs) (bestA : List (List ℚ)) (i : ℕ)
    (hlen : arg.names.length = arg.n) (hnd : arg.names.Nodup) :
    ((bpColWeights arg bestA i).map Prod.snd).sum =
      if |((List.range arg.n).map (fun j => mget bestA j i)).sum| > bpEps then 1
      else ((List.range arg.n).map (fun j => mget bestA j i)).sum := by
  have hrange : (List.range arg.n).map (fun j => arg.names.getD j "") = arg.names := by
    rw [← hlen]
    exact map_getD_range "" arg.names
  have hraw : (List.range arg.n).foldl
      (fun w j => SMap.insert w (arg.names.getD j "") (mget bestA j i)) ([] : SMap ℚ) =
      (List.range arg.n).map (fun j => (arg.names.getD j "", mget bestA j i)) := by
    have h := SMap.foldl_insert_eq _ (fun j => arg.names.getD j "")
      (fun j => mget bestA j i) (fun _ _ => rfl) (List.range arg.n) []
      (by rw [show SMap.keys ([] : SMap ℚ) = [] from rfl, List.nil_append, hrange]
          exact hnd)
    simpa using h
  unfold bpColWeights
  dsimp only
  by_cases hg : |((List.range arg.n).map (fun j => mget bestA j i)).sum| > bpEps
  · rw [if_pos hg, hraw]
    have hne : ((List.range arg.n).map (fun j => mget bestA j i)).sum ≠ 0 := by
      intro h0
      rw [h0, abs_zero] at hg
      exact absurd hg (by norm_num [bpEps])
    have htriple : ((((List.range arg.n).map
        (fun j => (arg.names.getD j "", mget bestA j i))).map
        (fun p : String × ℚ =>
          (p.1, p.2 / ((List.range arg.n).map (fun j => mget bestA j i)).sum))).map
        Prod.snd) =
        (((List.range arg.n).map (fun j => mget bestA j i)).map
          (fun x => x / ((List.range arg.n).map (fun j => mget bestA j i)).sum)) := by
      simp only [List.map_map]
      exact List.map_congr_left (fun j _ => rfl)
    rw [htriple, sum_map_div_self _ hne, if_pos hg]
  · rw [if_neg hg, hraw]
    have hdouble : (((List.range arg.n).map
        (fun j => (arg.names.getD j "", mget bestA j i))).map Prod.snd) =
        (List.range arg.n).map (fun j => mget bestA j i) := by
      simp only [List.map_map]
      exact List.map_congr_left (fun j _ => rfl)
    rw [hdouble, if_neg hg]

/-- The bucket loop: conservation of the remaining count into buckets of the
served zone, and the structure of every added entry. -/
theorem bpBucketLoop_spec (arg : bpArgs) (bestA : List (List ℚ)) (name : String)
    (i : ℕ) :
    ∀ (tot : ℕ), ∀ (m : ℕ) (ret : SGMap),
    (∀ j, m < j → ¬ ((name ++ "-" ++ toString j) ∈ SMap.keys ret)) →
    (∀ z, zoneTotalEndpoints (bpBucketLoop arg bestA name i tot m ret) z =
      zoneTotalEndpoints ret z + (if z = name then (tot : ℤ) else 0)) ∧
    (∀ e ∈ bpBucketLoop arg bestA name i tot m ret,
      e ∈ ret ∨ bpBucket arg bestA name i e) := by
  intro tot
  induction tot using Nat.strong_induction_on with
  | _ tot ih =>
    match tot with
    | 0 =>
        intro m ret hfresh
        rw [bpBucketLoop]
        constructor
        · intro z
          simp
        · intro e he
          exact Or.inl he
    | t + 1 =>
        intro m ret hfresh
        rw [bpBucketLoop]
        rw [show (if |((List.range arg.n).map (fun j => mget bestA j i)).sum| > bpEps
            then ((List.range arg.n).foldl
              (fun w j => SMap.insert w (arg.names.getD j "") (mget bestA j i))
              ([] : SMap ℚ)).map
              (fun p => (p.1, p.2 / ((List.range arg.n).map (fun j => mget bestA j i)).sum))
            else (List.range arg.n).foldl
              (fun w j => SMap.insert w (arg.names.getD j "") (mget bestA j i))
              ([] : SMap ℚ))
            = bpColWeights arg bestA i from rfl]
        set cur : ℕ := if t + 1 > 100 then 100 else t + 1 with hcur
        have hcur1 : 1 ≤ cur := by
          rw [hcur]
          split <;> omega
        have hcur100 : cur ≤ 100 := by
          rw [hcur]
          split <;> omega
        have hcurle : cur ≤ t + 1 := by
          rw [hcur]
          split <;> omega
        set sgName := name ++ "-" ++ toString (m + 1) with hsgName
        set sg : EndpointSliceGroup :=
          { label := sgName
            composition := SMap.insert ([] : SMap WeightedEndpoints) name ⟨(cur : ℤ), 1⟩
            zoneTrafficWeights := bpColWeights arg bestA i } with hsg
        have hfr : SMap.find? ret sgName = none := by
          rw [SMap.find?_eq_none_iff]
          exact hfresh (m + 1) (by omega)
        have hfresh2 : ∀ j, m + 1 < j →
            ¬ ((name ++ "-" ++ toString j) ∈ SMap.keys (SMap.insert ret sgName sg)) := by
          intro j hj hmem
          rw [SMap.keys_insert_fresh ret sgName sg hfr] at hmem
          rcases List.mem_append.mp hmem with h2 | h2
          · exact hfresh j (by omega) h2
          · simp only [List.mem_singleton] at h2
            have := (bpLabel_inj name name j (m + 1) (by rw [← hsgName, h2])).2
            omega
        have hrec := ih (t + 1 - cur) (by omega) (m + 1) (SMap.insert ret sgName sg) hfresh2
        constructor
        · intro z
          rw [hrec.1 z, zoneTotalEndpoints_insert_fresh ret sgName sg z hfr]
          have hcomp : (SMap.getD sg.composition z default).number =
              if z = name then (cur : ℤ) else 0 := by
            rw [hsg]
            by_cases hz : z = name
            · subst hz
              simp [SMap.insert, SMap.getD, SMap.find?]
            · simp only [SMap.insert, SMap.getD, SMap.find?]
              rw [if_neg (fun h => hz h.symm), if_neg hz]
              rfl
          rw [hcomp]
          by_cases hz : z = name
          · rw [if_pos hz, if_pos hz, if_pos hz]
            push_cast [Nat.cast_sub hcurle]
            ring
          · rw [if_neg hz, if_neg hz, if_neg hz]
            ring
        · intro e he
          rcases hrec.2 e he with h2 | h2
          · rcases SMap.mem_insert h2 with h3 | h3
            · exact Or.inl h3
            · refine Or.inr ⟨m + 1, cur, by omega, hcur1, hcur100, ?_, ?_⟩
              · rw [h3, hsgName]
              · rw [h3, hsg, hsgName]
          · exact Or.inr h2

/-- The zone loop of the packaging step: every entry of the accumulated map is
a bucket of one of the first `k` zones, and each of those zones' endpoint
counts is already fully distributed. -/
theorem bpPackageAux (region : RegionInfo) (arg : bpArgs) (bestA : List (List ℚ))
    (hnames : arg.names = region.zoneDetails.map Prod.fst)
    (hn : arg.n = region.zoneDetails.length)
    (hnd : arg.names.Nodup)
    (hpos : ∀ p ∈ region.zoneDetails, 0 ≤ p.2.endpoints) :
    ∀ k, k ≤ arg.n →
    (∀ e ∈ (List.range k).foldl
        (fun ret i => bpBucketLoop arg bestA (arg.names.getD i "") i
          (SMap.getD region.zoneDetails (arg.names.getD i "") default).endpoints.toNat 0 ret) [],
      ∃ i, i < k ∧ bpBucket arg bestA (arg.names.getD i "") i e) ∧
    (∀ z, zoneTotalEndpoints ((List.range k).foldl
        (fun ret i => bpBucketLoop arg bestA (arg.names.getD i "") i
          (SMap.getD region.zoneDetails (arg.names.getD i "") default).endpoints.toNat 0 ret) []) z =
      if ∃ i, i < k ∧ arg.names.getD i "" = z
      then (SMap.getD region.zoneDetails z default).endpoints else 0) := by
  have hlen : arg.names.length = arg.n := by
    rw [hnames, List.length_map, hn]
  have hgetD : ∀ (i : ℕ) (hi : i < arg.names.length),
      arg.names.getD i "" = arg.names.get ⟨i, hi⟩ := by
    intro i hi
    simp [List.getD_eq_getElem?_getD, List.getElem?_eq_getElem hi]
  have hne : ∀ i k, i < k → k < arg.n → arg.names.getD i "" ≠ arg.names.getD k "" := by
    intro i k hik hk heq
    rw [hgetD i (by omega), hgetD k (by omega)] at heq
    have h2 := List.nodup_iff_injective_get.mp hnd heq
    simp only [Fin.mk.injEq] at h2
    omega
  intro k
  induction k with
  | zero =>
      intro _
      constructor
      · intro e he
        simp at he
      · intro z
        rw [if_neg (by rintro ⟨i, hi, -⟩; omega)]
        simp [zoneTotalEndpoints]
  | succ k ih =>
      intro hk1
      have hk : k < arg.n := by omega
      obtain ⟨ihent, ihtot⟩ := ih (by omega)
      simp only [List.range_succ, List.foldl_append, List.foldl_cons, List.foldl_nil]
      have hfresh : ∀ j, 0 < j →
          ¬ ((arg.names.getD k "" ++ "-" ++ toString j) ∈ SMap.keys ((List.range k).foldl
            (fun ret i => bpBucketLoop arg bestA (arg.names.getD i "") i
              (SMap.getD region.zoneDetails (arg.names.getD i "") default).endpoints.toNat 0 ret)
            [])) := by
        intro j hj hmem
        obtain ⟨e, he, he1⟩ := List.mem_map.mp hmem
        obtain ⟨i, hik, hb⟩ := ihent e he
        obtain ⟨j2, c, hj2, hc1, hc100, hlab, -⟩ := hb
        have := (bpLabel_inj (arg.names.getD i "") (arg.names.getD k "") j2 j
          (hlab.symm.trans he1)).1
        exact hne i k hik hk this
      have hspec := bpBucketLoop_spec arg bestA (arg.names.getD k "") k
        (SMap.getD region.zoneDetails (arg.names.getD k "") default).endpoints.toNat 0 _ hfresh
      constructor
      · intro e he
        rcases hspec.2 e he with h2 | h2
        · obtain ⟨i, hik, hb⟩ := ihent e h2
          exact ⟨i, by omega, hb⟩
        · exact ⟨k, by omega, h2⟩
      · intro z
        rw [hspec.1 z, ihtot z]
        have hzk : 0 ≤ (SMap.getD region.zoneDetails (arg.names.getD k "") default).endpoints := by
          have hklen : k < region.zoneDetails.length := by omega
          have hnamek : arg.names.getD k "" = region.zoneDetails[k].1 := by
            rw [List.getD_eq_getElem?_getD, hnames, List.getElem?_map,
              List.getElem?_eq_getElem hklen]
            rfl
          have hfind : SMap.find? region.zoneDetails (arg.names.getD k "") =
              some region.zoneDetails[k].2 := by
            apply SMap.find?_of_mem_nodup
            · show (region.zoneDetails.map Prod.fst).Nodup
              rw [← hnames]
              exact hnd
            · rw [hnamek]
              have := List.getElem_mem hklen
              simpa using this
          rw [SMap.getD, hfind, Option.getD_some]
          exact hpos region.zoneDetails[k] (List.getElem_mem hklen)
        by_cases hz : z = arg.names.getD k ""
        · subst hz
          have hc1 : ¬ ∃ i, i < k ∧ arg.names.getD i "" = arg.names.getD k "" := by
            rintro ⟨i, hik, hieq⟩
            exact hne i k hik hk hieq
          have hc2 : ∃ i, i < k + 1 ∧ arg.names.getD i "" = arg.names.getD k "" :=
            ⟨k, by omega, rfl⟩
          rw [if_neg hc1, if_pos hc2, if_pos rfl, Int.toNat_of_nonneg hzk]
          ring
        · rw [if_neg hz]
          by_cases hex : ∃ i, i < k ∧ arg.names.getD i "" = z
          · have hc2 : ∃ i, i < k + 1 ∧ arg.names.getD i "" = z := by
              obtain ⟨i, hik, hieq⟩ := hex
              exact ⟨i, by omega, hieq⟩
            rw [if_pos hex, if_pos hc2, add_zero]
          · have hc2 : ¬ ∃ i, i < k + 1 ∧ arg.names.getD i "" = z := by
              rintro ⟨i, hik1, hieq⟩
              rcases Nat.lt_succ_iff_lt_or_eq.mp hik1 with h3 | h3
              · exact hex ⟨i, h3, hieq⟩
              · subst h3
                exact hz hieq.symm
            rw [if_neg hex, if_neg hc2, add_zero]

/-- C9 (amended): back-propagation packaging structure. -/
theorem C9_bp_packaging (alg : BackPropagationAlgorithm) (zs : List Zone)
    (region : RegionInfo) (fuel : ℕ) (ret : SGMap)
    (hok : CreateRegionInfo zs = Except.ok region)
    (hnd : (zs.map Zone.name).Nodup)
    (hrun : BackPropagationCreateSliceGroups alg region fuel = some ret) :
    ∃ bestA,
      bpRounds (bpInitArgs region).1 alg fuel alg.maxRound bpAlpha (bpInitArgs region).2 =
        some bestA ∧
      ret = bpPackage region (bpInitArgs region).1 bestA ∧
      (∀ p ∈ region.zoneDetails, zoneTotalEndpoints ret p.1 = p.2.endpoints) ∧
      (∀ e ∈ ret, ∃ i, i < (bpInitArgs region).1.n ∧
        bpBucket (bpInitArgs region).1 bestA ((bpInitArgs region).1.names.getD i "") i e) ∧
      (∀ e ∈ ret, (e.2.zoneTrafficWeights.map Prod.snd).sum = 1 ∨
        (|(e.2.zoneTrafficWeights.map Prod.snd).sum| ≤ bpEps ∧
          ¬ (e.2.zoneTrafficWeights.map Prod.snd).sum = 1)) := by
  unfold BackPropagationCreateSliceGroups at hrun
  dsimp only at hrun
  cases hbr : bpRounds (bpInitArgs region).1 alg fuel alg.maxRound bpAlpha (bpInitArgs region).2 with
  | none =>
      rw [hbr] at hrun
      exact absurd hrun (by simp)
  | some bestA =>
      rw [hbr] at hrun
      simp only [Option.some.injEq] at hrun
      subst hrun
      have hdet := region_details_of_ok zs region hok hnd
      have hndk : (region.zoneDetails.map Prod.fst).Nodup := by
        show (SMap.keys region.zoneDetails).Nodup
        rw [region_details_keys zs region hok hnd]
        exact hnd
      have hpos : ∀ p ∈ region.zoneDetails, 0 ≤ p.2.endpoints := by
        obtain ⟨-, hzpos, -, -, -⟩ := CreateRegionInfo_ok_inv zs region hok
        rw [hdet]
        intro p hp
        obtain ⟨z, hz, rfl⟩ := List.mem_map.mp hp
        exact (hzpos z hz).1
      have hndA : (bpInitArgs region).1.names.Nodup := hndk
      have hlenA : (bpInitArgs region).1.names.length = (bpInitArgs region).1.n :=
        List.length_map region.zoneDetails Prod.fst
      have haux := bpPackageAux region (bpInitArgs region).1 bestA rfl rfl hndA hpos
        (bpInitArgs region).1.n le_rfl
      have hpk : bpPackage region (bpInitArgs region).1 bestA =
          (List.range (bpInitArgs region).1.n).foldl
            (fun ret i => bpBucketLoop (bpInitArgs region).1 bestA
              ((bpInitArgs region).1.names.getD i "") i
              (SMap.getD region.zoneDetails
                ((bpInitArgs region).1.names.getD i "") default).endpoints.toNat 0 ret) [] := rfl
      have hnameAt : ∀ (i : ℕ) (p : String × Zone), region.zoneDetails[i]? = some p →
          (bpInitArgs region).1.names.getD i "" = p.1 := by
        intro i p hip
        rw [show (bpInitArgs region).1.names = region.zoneDetails.map Prod.fst from rfl]
        rw [List.getD_eq_getElem?_getD, List.getElem?_map, hip]
        rfl
      refine ⟨bestA, rfl, rfl, ?_, ?_, ?_⟩
      · intro p hp
        obtain ⟨i, hi, hgi⟩ := List.getElem_of_mem hp
        have hip : region.zoneDetails[i]? = some p := by
          rw [List.getElem?_eq_getElem hi, hgi]
        have hcond : ∃ j, j < (bpInitArgs region).1.n ∧
            (bpInitArgs region).1.names.getD j "" = p.1 := ⟨i, hi, hnameAt i p hip⟩
        have hfind : SMap.find? region.zoneDetails p.1 = some p.2 := by
          apply SMap.find?_of_mem_nodup _ _ _ hndk
          simpa using hp
        rw [hpk, haux.2 p.1, if_pos hcond, SMap.getD, hfind, Option.getD_some]
      · intro e he
        rw [hpk] at he
        exact haux.1 e he
      · intro e he
        rw [hpk] at he
        obtain ⟨i, hilt, hb⟩ := haux.1 e he
        obtain ⟨j, c, hj, hc1, hc100, hlab, hrec⟩ := hb
        rw [hrec]
        show ((bpColWeights (bpInitArgs region).1 bestA i).map Prod.snd).sum = 1 ∨ _
        rw [bpColWeights_sum (bpInitArgs region).1 bestA i hlenA hndA]
        by_cases hg : |((List.range (bpInitArgs region).1.n).map
            (fun j => mget bestA j i)).sum| > bpEps
        · left
          rw [if_pos hg]
        · right
          rw [if_neg hg]
          have habs := not_lt.mp hg
          refine ⟨habs, ?_⟩
          intro h1
          rw [h1] at habs
          norm_num [bpEps] at habs

set_option maxRecDepth 10000 in
set_option maxHeartbeats 4000000 in
/-- C9 counterexample: a valid two-zone region on which a bucket's zone
traffic weights are the raw all-zero column, summing to 0 rather than 1. -/
theorem C9_bp_counterexample :
    CreateRegionInfo [⟨1, 1, "a", 0, 0⟩, ⟨1, 100, "b", 0, 0⟩] = Except.ok bpCexRegion ∧
    (BackPropagationCreateSliceGroups bpCexAlg bpCexRegion 2).map (fun ret =>
      (ret.map Prod.fst, (sgGet ret "a-1").zoneTrafficWeights,
        ((sgGet ret "b-1").zoneTrafficWeights.map Prod.snd).sum)) =
      some (["a-1", "b-1"], [("a", 0), ("b", 0)], 1) := by
  have hab : ¬ ("a" : String) = "b" := by decide
  have hba : ¬ ("b" : String) = "a" := by decide
  have ht1 : toString (1 : ℕ) = "1" := rfl
  have ha1 : ("a" : String) ++ "-" ++ "1" = "a-1" := rfl
  have hb1 : ("b" : String) ++ "-" ++ "1" = "b-1" := rfl
  have hket : ¬ ("a-1" : String) = "b-1" := by decide
  have h2 : ¬ ("b-1" : String) = "a-1" := by decide
  have htn100 : Int.toNat 100 = 100 := rfl
  have htn1 : Int.toNat 1 = 1 := rfl
  constructor
  · norm_num [CreateRegionInfo, enrichZone, SMap.insert, bpCexRegion, hab, hba]
  · norm_num [BackPropagationCreateSliceGroups, bpInitArgs, bpRounds, bpRowUpdate,
      bpCalcDerivation, bpRedistribute, bpRedistributeOnce, bpPackage, bpBucketLoop,
      bpCexRegion, bpCexAlg, bpAlpha, bpEps, goMaxFloat64, mget, sgGet,
      SMap.insert, SMap.getD, SMap.find?, SMap.keys, Option.map,
      List.range_succ, hab, hba, ht1, ha1, hb1, hket, h2, htn100, htn1]

set_option maxRecDepth 10000 in
set_option maxHeartbeats 1000000 in
/-- C9 witness: a one-zone region, zero gradient rounds. -/
theorem C9_bp_packaging_witness :
    ∃ bestA,
      bpRounds (bpInitArgs bpWitRegion).1 ⟨1, 1, 0, true⟩ 1
        (BackPropagationAlgorithm.maxRound ⟨1, 1, 0, true⟩) bpAlpha
        (bpInitArgs bpWitRegion).2 = some bestA ∧
      bpWitMap = bpPackage bpWitRegion (bpInitArgs bpWitRegion).1 bestA ∧
      (∀ p ∈ bpWitRegion.zoneDetails,
        zoneTotalEndpoints bpWitMap p.1 = p.2.endpoints) ∧
      (∀ e ∈ bpWitMap, ∃ i, i < (bpInitArgs bpWitRegion).1.n ∧
        bpBucket (bpInitArgs bpWitRegion).1 bestA
          ((bpInitArgs bpWitRegion).1.names.getD i "") i e) ∧
      (∀ e ∈ bpWitMap,
        (e.2.zoneTrafficWeights.map Prod.snd).sum = 1 ∨
        (|(e.2.zoneTrafficWeights.map Prod.snd).sum| ≤ bpEps ∧
          ¬ (e.2.zoneTrafficWeights.map Prod.snd).sum = 1)) := by
  have ht1 : toString (1 : ℕ) = "1" := rfl
  have ha1 : ("a" : String) ++ "-" ++ "1" = "a-1" := rfl
  refine C9_bp_packaging ⟨1, 1, 0, true⟩ [⟨1, 1, "a", 0, 0⟩] bpWitRegion 1 bpWitMap ?_ (by decide) ?_
  · norm_num [CreateRegionInfo, enrichZone, SMap.insert, bpWitRegion]
  · norm_num [BackPropagationCreateSliceGroups, bpInitArgs, bpRounds, bpPackage,
      bpBucketLoop, bpAlpha, bpEps, mget, SMap.insert, SMap.getD, SMap.find?,
      List.range_succ, ht1, ha1, bpWitRegion, bpWitMap]

end KTS
